import Mathlib

/-!
`vector.h`: an owning raw buffer (`RawMemory<T>`) and a dynamic array (`Vector<T>`).

A shallow embedding of `src/vector.h` and theorems about it.

Modelling decisions:

* The free store is a list of blocks (`Heap`); the address of a block is its index in the
  list, a released block is `none`.  A block is a list of slots, a slot is `none` while it is
  raw storage and `some v` while it holds a live object of value `v`.
* A `T*` is a `Ptr`: the address of a block (`none` for `nullptr`) and an offset in it.
* A C++ call can end in four ways (`Outcome`): it returns, an exception leaves it, it runs
  into undefined behaviour (`fault`), or one of the `assert`s of `RawMemory` fails
  (`assert_fail`).  Using a raw slot as an object, touching a slot outside its block or a
  released block, and pointer arithmetic that leaves the block downwards are faults.
* The element type `T` and the allocator are a parameter (`Env`): which of the
  `if constexpr` traits hold, which values make the copy or move constructor throw, what a
  moved-from object looks like, what `T()` yields, how many bytes an object takes
  (`sizeof(T)`) and which byte counts `operator new` grants.  The assignment operators and
  the destructor of `T` do not throw.
* `size_t` has 64 bits.  The byte count `n * sizeof(T)` that `RawMemory::Allocate` forms
  from an element count `n`, which `Reserve`, `Resize` and `Vector(n)` take from the caller,
  is reduced modulo `2^64` as the source computes it, and a granted request of `b` bytes is a
  block with room for `b / sizeof(T)` objects.  The counts of objects that exist (`size_`,
  and `size_ * 2` in the growth path) are `Nat`: the objects of a vector lie in one block,
  which has fewer than `2^63` bytes, so these cannot wrap.  Every subtraction that could
  wrap in the source is guarded in the model by the check that the source performs or by a
  fault.
-/

namespace CppVector

/-- One element-sized cell of a buffer: `none` is raw storage, `some v` a live object. -/
abbrev Slot (α : Type) := Option α

/-- The storage obtained by one call of `operator new`. -/
abbrev Block (α : Type) := List (Slot α)

/-- The free store: block addresses are list indices, `none` marks a released block. -/
abbrev Heap (α : Type) := List (Option (Block α))

/-- A value of type `T*`: `base = none` is the null pointer. -/
structure Ptr where
  base : Option Nat
  off : Nat
deriving DecidableEq

/-- How a call ends: normally with a result, by an exception, in undefined behaviour, or
at a failed `assert` of `RawMemory::operator+` or `RawMemory::operator[]`. -/
inductive Outcome (σ ρ : Type) where
  | ret (r : ρ) (s : σ) : Outcome σ ρ
  | throw (s : σ) : Outcome σ ρ
  | fault : Outcome σ ρ
  | assert_fail : Outcome σ ρ
deriving DecidableEq

/-- The element type `T` and the allocator, as far as the container can observe them.
`sizeof_T` is `sizeof(T)` (at least `1` for every C++ type) and `operator_new_ok b` tells
whether `operator new(b)` returns a block of `b` bytes or throws `std::bad_alloc`. -/
structure Env (α : Type) where
  is_nothrow_move_constructible : Bool
  is_copy_constructible : Bool
  is_move_constructible : Bool
  copy_throws : α → Bool
  move_throws : α → Bool
  moved_from : α → α
  value_init : Option α
  sizeof_T : Nat
  operator_new_ok : Nat → Bool

/-- Pointer plus integer. -/
def Ptr.add (p : Ptr) (k : Nat) : Ptr := ⟨p.base, p.off + k⟩

/-- Pointer minus integer; `none` when the result would lie before the block. -/
def Ptr.sub (p : Ptr) (k : Nat) : Option Ptr :=
  if k ≤ p.off then some ⟨p.base, p.off - k⟩ else none

/-- The block at address `a`, if it is allocated. -/
def Heap.block {α : Type} (h : Heap α) (a : Nat) : Option (Block α) :=
  (h.get? a).join

/-- The slot a pointer designates, if it designates one. -/
def Heap.slot {α : Type} (h : Heap α) (p : Ptr) : Option (Slot α) :=
  match p.base with
  | none => none
  | some a =>
    match h.block a with
    | none => none
    | some b => b.get? p.off

/-- The live object a pointer designates (`*p`). -/
def Heap.read {α : Type} (h : Heap α) (p : Ptr) : Option α :=
  (h.slot p).join

/-- Overwrite the slot a pointer designates; `none` when it designates no slot. -/
def Heap.store {α : Type} (h : Heap α) (p : Ptr) (s : Slot α) : Option (Heap α) :=
  match p.base with
  | none => none
  | some a =>
    match h.block a with
    | none => none
    | some b => if p.off < b.length then some (h.set a (some (b.set p.off s))) else none

/-- Placement construction `new (p) T(x)`. -/
def Heap.construct {α : Type} (h : Heap α) (p : Ptr) (x : α) : Option (Heap α) :=
  h.store p (some x)

/-- `std::destroy_at(p)`: the slot must hold a live object and becomes raw. -/
def destroy_at {α : Type} (p : Ptr) (h : Heap α) : Option (Heap α) :=
  match h.read p with
  | none => none
  | some _ => h.store p none

/-- `std::destroy_n(first, n)`. -/
def destroy_n {α : Type} : Ptr → Nat → Heap α → Option (Heap α)
  | _, 0, h => some h
  | first, k + 1, h =>
    match destroy_at first h with
    | none => none
    | some h1 => destroy_n (first.add 1) k h1

/-- Copy assignment `*d = *s` of the element type. -/
def copy_assign {α : Type} (s d : Ptr) (h : Heap α) : Option (Heap α) :=
  match h.read s, h.read d with
  | some x, some _ => h.store d (some x)
  | _, _ => none

/-- Move assignment `*d = std::move(*s)` of the element type. -/
def move_assign {α : Type} (E : Env α) (s d : Ptr) (h : Heap α) : Option (Heap α) :=
  match h.read s, h.read d with
  | some x, some _ =>
    match h.store s (some (E.moved_from x)) with
    | none => none
    | some h1 => h1.store d (some x)
  | _, _ => none

/-- The loop of `std::uninitialized_copy_n`; `d_first` is where the output began and `i`
the number of objects built so far, which are destroyed again when a copy throws. -/
def uninitialized_copy_loop {α : Type} (E : Env α) (d_first : Ptr) :
    Nat → Ptr → Nat → Heap α → Outcome (Heap α) Unit
  | 0, _, _, h => .ret () h
  | k + 1, first, i, h =>
    match h.read first with
    | none => .fault
    | some x =>
      if E.copy_throws x then
        match destroy_n d_first i h with
        | none => .fault
        | some h1 => .throw h1
      else
        match h.construct (d_first.add i) x with
        | none => .fault
        | some h1 => uninitialized_copy_loop E d_first k (first.add 1) (i + 1) h1

/-- `std::uninitialized_copy_n(first, n, d_first)`. -/
def uninitialized_copy_n {α : Type} (E : Env α) (first : Ptr) (n : Nat) (d_first : Ptr)
    (h : Heap α) : Outcome (Heap α) Unit :=
  uninitialized_copy_loop E d_first n first 0 h

/-- The loop of `std::uninitialized_move_n`; a source that has been moved from keeps the
value `moved_from` gives it. -/
def uninitialized_move_loop {α : Type} (E : Env α) (d_first : Ptr) :
    Nat → Ptr → Nat → Heap α → Outcome (Heap α) Unit
  | 0, _, _, h => .ret () h
  | k + 1, first, i, h =>
    match h.read first with
    | none => .fault
    | some x =>
      if E.move_throws x then
        match destroy_n d_first i h with
        | none => .fault
        | some h1 => .throw h1
      else
        match h.store first (some (E.moved_from x)) with
        | none => .fault
        | some h1 =>
          match h1.construct (d_first.add i) x with
          | none => .fault
          | some h2 => uninitialized_move_loop E d_first k (first.add 1) (i + 1) h2

/-- `std::uninitialized_move_n(first, n, d_first)`. -/
def uninitialized_move_n {α : Type} (E : Env α) (first : Ptr) (n : Nat) (d_first : Ptr)
    (h : Heap α) : Outcome (Heap α) Unit :=
  uninitialized_move_loop E d_first n first 0 h

/-- The loop of `std::uninitialized_value_construct_n`. -/
def uninitialized_value_construct_loop {α : Type} (E : Env α) (first : Ptr) :
    Nat → Nat → Heap α → Outcome (Heap α) Unit
  | 0, _, h => .ret () h
  | k + 1, i, h =>
    match E.value_init with
    | none =>
      match destroy_n first i h with
      | none => .fault
      | some h1 => .throw h1
    | some x =>
      match h.construct (first.add i) x with
      | none => .fault
      | some h1 => uninitialized_value_construct_loop E first k (i + 1) h1

/-- `std::uninitialized_value_construct_n(first, n)`. -/
def uninitialized_value_construct_n {α : Type} (E : Env α) (first : Ptr) (n : Nat)
    (h : Heap α) : Outcome (Heap α) Unit :=
  uninitialized_value_construct_loop E first n 0 h

/-- The loop of `std::move`: `*d_first++ = std::move(*first++)`, `k` times. -/
def std_move_loop {α : Type} (E : Env α) : Nat → Ptr → Ptr → Heap α → Option (Heap α)
  | 0, _, _, h => some h
  | k + 1, first, d_first, h =>
    match move_assign E first d_first h with
    | none => none
    | some h1 => std_move_loop E k (first.add 1) (d_first.add 1) h1

/-- `std::move(first, last, d_first)` on pointers into one array. -/
def std_move {α : Type} (E : Env α) (first last d_first : Ptr) (h : Heap α) :
    Option (Heap α) :=
  if first.base = last.base ∧ first.off ≤ last.off then
    std_move_loop E (last.off - first.off) first d_first h
  else none

/-- The loop of `std::move_backward`: `*--d_last = std::move(*--last)`, `k` times. -/
def move_backward_loop {α : Type} (E : Env α) : Nat → Ptr → Ptr → Heap α → Option (Heap α)
  | 0, _, _, h => some h
  | k + 1, last, d_last, h =>
    match last.sub 1, d_last.sub 1 with
    | some s, some d =>
      match move_assign E s d h with
      | none => none
      | some h1 => move_backward_loop E k s d h1
    | _, _ => none

/-- `std::move_backward(first, last, d_last)` on pointers into one array. -/
def move_backward {α : Type} (E : Env α) (first last d_last : Ptr) (h : Heap α) :
    Option (Heap α) :=
  if first.base = last.base ∧ first.off ≤ last.off then
    move_backward_loop E (last.off - first.off) last d_last h
  else none

/-- Assignment `*p = std::move(x)` from a local object `x`: `*p` must be a live object. -/
def assign_value {α : Type} (p : Ptr) (x : α) (h : Heap α) : Option (Heap α) :=
  match h.read p with
  | none => none
  | some _ => h.store p (some x)

/-! ## `RawMemory<T>` -/

/-- The class `RawMemory<T>`: the handle `buffer_` and the element count `capacity_`. -/
structure RawMemory where
  buffer_ : Option Nat
  capacity_ : Nat
deriving DecidableEq

/-- The argument `n * sizeof(T)` of `operator new` in `RawMemory::Allocate(n)`: a product of
two `size_t` values, so it is taken modulo `2^64`. -/
def RawMemory.request {α : Type} (E : Env α) (n : Nat) : Nat :=
  n * E.sizeof_T % 18446744073709551616

/-- `RawMemory::Allocate(n)`: no request is made for `n = 0`; otherwise `operator new` is
asked for `n * sizeof(T)` bytes.  A request the allocator cannot satisfy throws; a granted
request of `b` bytes is a new block with room for `b / sizeof(T)` objects. -/
def RawMemory.Allocate {α : Type} (E : Env α) (n : Nat) (h : Heap α) :
    Outcome (Heap α) (Option Nat) :=
  if n ≠ 0 then
    if E.operator_new_ok (RawMemory.request E n) then
      .ret (some h.length)
        (h ++ [some (List.replicate (RawMemory.request E n / E.sizeof_T) none)])
    else .throw h
  else .ret none h

/-- `RawMemory::Deallocate(buf)`: `operator delete`, a no-op on the null pointer. -/
def RawMemory.Deallocate {α : Type} (buf : Option Nat) (h : Heap α) : Option (Heap α) :=
  match buf with
  | none => some h
  | some a =>
    match h.block a with
    | none => none
    | some _ => some (h.set a none)

/-- `RawMemory()`. -/
def RawMemory.RawMemory_default : RawMemory := ⟨none, 0⟩

/-- `RawMemory(size_t capacity)`. -/
def RawMemory.RawMemory_sized {α : Type} (E : Env α) (capacity : Nat) (h : Heap α) :
    Outcome (Heap α) RawMemory :=
  match RawMemory.Allocate E capacity h with
  | .fault => .fault
  | .assert_fail => .assert_fail
  | .throw h1 => .throw h1
  | .ret buf h1 => .ret ⟨buf, capacity⟩ h1

/-- `RawMemory::Swap(other)`: the pair is `(*this, other)` after the call. -/
def RawMemory.Swap (self other : RawMemory) : RawMemory × RawMemory :=
  (⟨other.buffer_, other.capacity_⟩, ⟨self.buffer_, self.capacity_⟩)

/-- `RawMemory(RawMemory&& other)`: the new object starts from its default member
initialisers and swaps with `other`; the pair is `(*this, other)`. -/
def RawMemory.RawMemory_move (other : RawMemory) : RawMemory × RawMemory :=
  RawMemory.Swap RawMemory.RawMemory_default other

/-- `RawMemory::operator=(RawMemory&& rhs)`; the pair is `(*this, rhs)`. -/
def RawMemory.operator_assign_move (self rhs : RawMemory) : RawMemory × RawMemory :=
  RawMemory.Swap self rhs

/-- `RawMemory::~RawMemory()`. -/
def RawMemory.destructor {α : Type} (self : RawMemory) (h : Heap α) : Option (Heap α) :=
  RawMemory.Deallocate self.buffer_ h

/-- `RawMemory::operator+(offset)`; `none` when the assertion fails. -/
def RawMemory.operator_plus (self : RawMemory) (offset : Nat) : Option Ptr :=
  if offset ≤ self.capacity_ then some ⟨self.buffer_, offset⟩ else none

/-- `RawMemory::operator[](index)`, as the address of the slot; `none` when the
assertion fails. -/
def RawMemory.operator_index (self : RawMemory) (index : Nat) : Option Ptr :=
  if index < self.capacity_ then some ⟨self.buffer_, index⟩ else none

/-- `RawMemory::GetAddress()`. -/
def RawMemory.GetAddress (self : RawMemory) : Ptr := ⟨self.buffer_, 0⟩

/-- `RawMemory::Capacity()`. -/
def RawMemory.Capacity (self : RawMemory) : Nat := self.capacity_

/-! ## `Vector<T>` -/

/-- The class `Vector<T>`. -/
structure Vector where
  data_ : RawMemory
  size_ : Nat
deriving DecidableEq

/-- `Vector::begin()`. -/
def Vector.begin (v : Vector) : Ptr := v.data_.GetAddress

/-- `Vector::end()`. -/
def Vector.end_ (v : Vector) : Option Ptr := v.data_.operator_plus v.size_

/-- `Vector::Size()`. -/
def Vector.Size (v : Vector) : Nat := v.size_

/-- `Vector::Capacity()`. -/
def Vector.Capacity (v : Vector) : Nat := v.data_.Capacity

/-- `Vector()`. -/
def Vector.Vector_default : Vector := ⟨RawMemory.RawMemory_default, 0⟩

/-- `Vector(size_t size)`.  When a constructor throws, the member `data_` is released
during unwinding. -/
def Vector.Vector_sized {α : Type} (E : Env α) (size : Nat) (h : Heap α) :
    Outcome (Heap α) Vector :=
  match RawMemory.RawMemory_sized E size h with
  | .fault => .fault
  | .assert_fail => .assert_fail
  | .throw h1 => .throw h1
  | .ret data h1 =>
    match uninitialized_value_construct_n E data.GetAddress size h1 with
    | .fault => .fault
    | .assert_fail => .assert_fail
    | .throw h2 =>
      match data.destructor h2 with
      | none => .fault
      | some h3 => .throw h3
    | .ret _ h2 => .ret ⟨data, size⟩ h2

/-- `Vector(const Vector& other)`. -/
def Vector.Vector_copy {α : Type} (E : Env α) (other : Vector) (h : Heap α) :
    Outcome (Heap α) Vector :=
  match RawMemory.RawMemory_sized E other.size_ h with
  | .fault => .fault
  | .assert_fail => .assert_fail
  | .throw h1 => .throw h1
  | .ret data h1 =>
    match uninitialized_copy_n E other.data_.GetAddress other.size_ data.GetAddress h1 with
    | .fault => .fault
    | .assert_fail => .assert_fail
    | .throw h2 =>
      match data.destructor h2 with
      | none => .fault
      | some h3 => .throw h3
    | .ret _ h2 => .ret ⟨data, other.size_⟩ h2

/-- `Vector(Vector&& other)`: `size_` starts at its default initialiser `0` and is
swapped with `other.size_`; the pair is `(*this, other)`. -/
def Vector.Vector_move (other : Vector) : Vector × Vector :=
  let m := RawMemory.RawMemory_move other.data_
  (⟨m.1, other.size_⟩, ⟨m.2, 0⟩)

/-- `Vector::Swap(other)`; the pair is `(*this, other)`. -/
def Vector.Swap (v other : Vector) : Vector × Vector :=
  let m := RawMemory.Swap v.data_ other.data_
  (⟨m.1, other.size_⟩, ⟨m.2, v.size_⟩)

/-- `Vector::~Vector()`, followed by the destructor of the member `data_`. -/
def Vector.destructor {α : Type} (v : Vector) (h : Heap α) : Option (Heap α) :=
  match destroy_n v.data_.GetAddress v.size_ h with
  | none => none
  | some h1 => v.data_.destructor h1

/-- `Vector::Reserve(new_capacity)`. -/
def Vector.Reserve {α : Type} (E : Env α) (v : Vector) (new_capacity : Nat) (h : Heap α) :
    Outcome (Heap α × Vector) Unit :=
  if new_capacity ≤ v.data_.Capacity then .ret () (h, v)
  else
    match RawMemory.RawMemory_sized E new_capacity h with
    | .fault => .fault
    | .assert_fail => .assert_fail
    | .throw h1 => .throw (h1, v)
    | .ret new_data h1 =>
      match (if E.is_nothrow_move_constructible || !E.is_copy_constructible then
          uninitialized_move_n E v.data_.GetAddress v.size_ new_data.GetAddress h1
        else
          uninitialized_copy_n E v.data_.GetAddress v.size_ new_data.GetAddress h1) with
      | .fault => .fault
      | .assert_fail => .assert_fail
      | .throw h2 =>
        match new_data.destructor h2 with
        | none => .fault
        | some h3 => .throw (h3, v)
      | .ret _ h2 =>
        match destroy_n v.data_.GetAddress v.size_ h2 with
        | none => .fault
        | some h3 =>
          let m := RawMemory.Swap v.data_ new_data
          match m.2.destructor h3 with
          | none => .fault
          | some h4 => .ret () (h4, ⟨m.1, v.size_⟩)

/-- `Vector::Resize(new_size)`. -/
def Vector.Resize {α : Type} (E : Env α) (v : Vector) (new_size : Nat) (h : Heap α) :
    Outcome (Heap α × Vector) Unit :=
  if v.size_ > new_size then
    match v.data_.operator_plus new_size with
    | none => .assert_fail
    | some p =>
      match destroy_n p (v.size_ - new_size) h with
      | none => .fault
      | some h1 => .ret () (h1, ⟨v.data_, new_size⟩)
  else
    match Vector.Reserve E v new_size h with
    | .fault => .fault
    | .assert_fail => .assert_fail
    | .throw s => .throw s
    | .ret _ (h1, v1) =>
      match v1.data_.operator_plus v1.size_ with
      | none => .assert_fail
      | some p =>
        match uninitialized_value_construct_n E p (new_size - v1.size_) h1 with
        | .fault => .fault
        | .assert_fail => .assert_fail
        | .throw h2 => .throw (h2, v1)
        | .ret _ h2 => .ret () (h2, ⟨v1.data_, new_size⟩)

/-- The two `try` blocks of the growth path of `Emplace` in the branch taken when `T` is
nothrow-move-constructible or not copy-constructible.  Neither `catch` handler rethrows,
so control continues behind the handler and no exception leaves the two blocks. -/
def Vector.Emplace_relocate_move {α : Type} (E : Env α) (v : Vector) (new_data : RawMemory)
    (dist : Nat) (h : Heap α) : Outcome (Heap α) Unit :=
  let r1 : Outcome (Heap α) Unit :=
    match uninitialized_move_n E v.data_.GetAddress dist new_data.GetAddress h with
    | .ret _ h1 => .ret () h1
    | .throw h1 =>
      match new_data.operator_plus dist with
      | none => .assert_fail
      | some p =>
        match destroy_at p h1 with
        | none => .fault
        | some h2 => .ret () h2
    | .fault => .fault
    | .assert_fail => .assert_fail
  match r1 with
  | .ret _ h1 =>
    match v.data_.operator_plus dist, new_data.operator_plus dist with
    | some s, some d =>
      match uninitialized_move_n E s (v.size_ - dist) (d.add 1) h1 with
      | .ret _ h2 => .ret () h2
      | .throw h2 =>
        match destroy_n new_data.GetAddress dist h2 with
        | none => .fault
        | some h3 => .ret () h3
      | .fault => .fault
      | .assert_fail => .assert_fail
    | _, _ => .assert_fail
  | o => o

/-- The two `try` blocks of the growth path of `Emplace` in the copying branch.  Neither
`catch` handler rethrows, so control continues behind the handler and no exception leaves
the two blocks. -/
def Vector.Emplace_relocate_copy {α : Type} (E : Env α) (v : Vector) (new_data : RawMemory)
    (dist : Nat) (h : Heap α) : Outcome (Heap α) Unit :=
  let r1 : Outcome (Heap α) Unit :=
    match uninitialized_copy_n E v.data_.GetAddress dist new_data.GetAddress h with
    | .ret _ h1 => .ret () h1
    | .throw h1 =>
      match new_data.operator_plus dist with
      | none => .assert_fail
      | some p =>
        match destroy_at (p.add 1) h1 with
        | none => .fault
        | some h2 => .ret () h2
    | .fault => .fault
    | .assert_fail => .assert_fail
  match r1 with
  | .ret _ h1 =>
    match v.data_.operator_plus dist, new_data.operator_plus dist with
    | some s, some d =>
      match uninitialized_copy_n E s (v.size_ - dist) (d.add 1) h1 with
      | .ret _ h2 => .ret () h2
      | .throw h2 =>
        match destroy_n new_data.GetAddress (dist + 1) h2 with
        | none => .fault
        | some h3 => .ret () h3
      | .fault => .fault
      | .assert_fail => .assert_fail
    | _, _ => .assert_fail
  | o => o

/-- The growth path of `Emplace` (`size_ == Capacity()`), up to the end of the `if` block
where the local `new_data`, by then the owner of the old block, is destroyed.  The result
state is the heap and the member `data_`.  `args` is the value `T(args...)` constructs,
`none` when that constructor throws. -/
def Vector.Emplace_grow {α : Type} (E : Env α) (v : Vector) (dist : Nat) (args : Option α)
    (h : Heap α) : Outcome (Heap α × RawMemory) Unit :=
  match RawMemory.RawMemory_sized E (if v.size_ = 0 then 1 else v.size_ * 2) h with
  | .fault => .fault
  | .assert_fail => .assert_fail
  | .throw h1 => .throw (h1, v.data_)
  | .ret new_data h1 =>
    match new_data.operator_plus dist with
    | none => .assert_fail
    | some p =>
      match args with
      | none =>
        match new_data.destructor h1 with
        | none => .fault
        | some h2 => .throw (h2, v.data_)
      | some x =>
        match h1.construct p x with
        | none => .fault
        | some h2 =>
          match (if E.is_nothrow_move_constructible || !E.is_copy_constructible then
              Vector.Emplace_relocate_move E v new_data dist h2
            else
              Vector.Emplace_relocate_copy E v new_data dist h2) with
          | .fault => .fault
          | .assert_fail => .assert_fail
          | .throw h3 => .throw (h3, v.data_)
          | .ret _ h3 =>
            match destroy_n v.data_.GetAddress v.size_ h3 with
            | none => .fault
            | some h4 =>
              let m := RawMemory.Swap v.data_ new_data
              match m.2.destructor h4 with
              | none => .fault
              | some h5 => .ret () (h5, m.1)

/-- The in-place path of `Emplace` (`size_ != Capacity()`). -/
def Vector.Emplace_inplace {α : Type} (E : Env α) (v : Vector) (pos : Ptr) (dist : Nat)
    (args : Option α) (h : Heap α) : Outcome (Heap α × RawMemory) Unit :=
  match v.end_ with
  | none => .assert_fail
  | some e =>
    if pos ≠ e then
      match args with
      | none => .throw (h, v.data_)
      | some temp_value =>
        match e.sub 1 with
        | none => .fault
        | some last =>
          match (if !E.is_copy_constructible || E.is_move_constructible then
              uninitialized_move_n E last 1 e h
            else
              uninitialized_copy_n E last 1 e h) with
          | .fault => .fault
          | .assert_fail => .assert_fail
          | .throw h1 => .throw (h1, v.data_)
          | .ret _ h1 =>
            match v.data_.operator_plus dist with
            | none => .assert_fail
            | some first =>
              match move_backward E first last e h1 with
              | none => .fault
              | some h2 =>
                match v.data_.operator_index dist with
                | none => .assert_fail
                | some p =>
                  match assign_value p temp_value h2 with
                  | none => .fault
                  | some h3 => .ret () (h3, v.data_)
    else
      match v.data_.operator_plus dist with
      | none => .assert_fail
      | some p =>
        match args with
        | none => .throw (h, v.data_)
        | some x =>
          match h.construct p x with
          | none => .fault
          | some h1 => .ret () (h1, v.data_)

/-- `Vector::Emplace(pos, args...)`.  `pos - begin()` is defined only for a pointer into
the vector's own array. -/
def Vector.Emplace {α : Type} (E : Env α) (v : Vector) (pos : Ptr) (args : Option α)
    (h : Heap α) : Outcome (Heap α × Vector) Ptr :=
  if pos.base ≠ v.begin.base then .fault
  else
    let dist := pos.off - v.begin.off
    match (if v.size_ = v.Capacity then Vector.Emplace_grow E v dist args h
      else Vector.Emplace_inplace E v pos dist args h) with
    | .fault => .fault
    | .assert_fail => .assert_fail
    | .throw (h1, d1) => .throw (h1, ⟨d1, v.size_⟩)
    | .ret _ (h1, d1) =>
      match d1.operator_plus dist with
      | none => .assert_fail
      | some r => .ret r (h1, ⟨d1, v.size_ + 1⟩)

/-- `Vector::Insert(pos, const T& value)`: `Emplace` with the copy constructor. -/
def Vector.Insert {α : Type} (E : Env α) (v : Vector) (pos : Ptr) (value : α) (h : Heap α) :
    Outcome (Heap α × Vector) Ptr :=
  Vector.Emplace E v pos (if E.copy_throws value then none else some value) h

/-- `Vector::Insert(pos, T&& value)`: `Emplace` with the move constructor. -/
def Vector.Insert_move {α : Type} (E : Env α) (v : Vector) (pos : Ptr) (value : α)
    (h : Heap α) : Outcome (Heap α × Vector) Ptr :=
  Vector.Emplace E v pos (if E.move_throws value then none else some value) h

/-- `Vector::PushBack(const T& value)`. -/
def Vector.PushBack {α : Type} (E : Env α) (v : Vector) (value : α) (h : Heap α) :
    Outcome (Heap α × Vector) Unit :=
  match v.end_ with
  | none => .assert_fail
  | some e =>
    match Vector.Insert E v e value h with
    | .fault => .fault
    | .assert_fail => .assert_fail
    | .throw s => .throw s
    | .ret _ s => .ret () s

/-- `Vector::PushBack(T&& value)`. -/
def Vector.PushBack_move {α : Type} (E : Env α) (v : Vector) (value : α) (h : Heap α) :
    Outcome (Heap α × Vector) Unit :=
  match v.end_ with
  | none => .assert_fail
  | some e =>
    match Vector.Insert_move E v e value h with
    | .fault => .fault
    | .assert_fail => .assert_fail
    | .throw s => .throw s
    | .ret _ s => .ret () s

/-- `Vector::EmplaceBack(args...)`: the reference returned is the address of the slot. -/
def Vector.EmplaceBack {α : Type} (E : Env α) (v : Vector) (args : Option α) (h : Heap α) :
    Outcome (Heap α × Vector) Ptr :=
  match v.end_ with
  | none => .assert_fail
  | some e => Vector.Emplace E v e args h

/-- `Vector::Erase(pos)`. -/
def Vector.Erase {α : Type} (E : Env α) (v : Vector) (pos : Ptr) (h : Heap α) :
    Outcome (Heap α × Vector) Ptr :=
  match v.end_ with
  | none => .assert_fail
  | some e =>
    if pos.base ≠ v.begin.base then .fault
    else
      let dist := pos.off - v.begin.off
      match v.data_.operator_plus dist with
      | none => .assert_fail
      | some d =>
        match (if pos ≠ e then std_move E (d.add 1) e d h else some h) with
        | none => .fault
        | some h1 =>
          match e.sub 1 with
          | none => .fault
          | some last =>
            match destroy_n last 1 h1 with
            | none => .fault
            | some h2 => .ret d (h2, ⟨v.data_, v.size_ - 1⟩)

/-- `Vector::PopBack()`. -/
def Vector.PopBack {α : Type} (E : Env α) (v : Vector) (h : Heap α) :
    Outcome (Heap α × Vector) Unit :=
  match v.end_ with
  | none => .assert_fail
  | some e =>
    match Vector.Erase E v e h with
    | .fault => .fault
    | .assert_fail => .assert_fail
    | .throw s => .throw s
    | .ret _ s => .ret () s

/-- `Vector::operator[](index)`, as the address of the slot; `none` when an assertion
fails. -/
def Vector.operator_index (v : Vector) (index : Nat) : Option Ptr :=
  if index < v.size_ then v.data_.operator_index index else none

/-- The loop `for (; i < end_size; ++i) data_[i] = rhs.data_[i];` of the copy assignment,
with `k` iterations left. -/
def assign_loop {α : Type} (data_ rhs_data_ : RawMemory) :
    Nat → Nat → Heap α → Outcome (Heap α) Unit
  | 0, _, h => .ret () h
  | k + 1, i, h =>
    match data_.operator_index i, rhs_data_.operator_index i with
    | some d, some s =>
      match copy_assign s d h with
      | none => .fault
      | some h1 => assign_loop data_ rhs_data_ k (i + 1) h1
    | _, _ => .assert_fail

/-- `Vector::operator=(const Vector& rhs)` for `this != &rhs`.  In the copy-and-swap
branch the temporary `copy_vector`, by then the owner of the old block, is destroyed at the
end of the block. -/
def Vector.operator_assign_copy {α : Type} (E : Env α) (v rhs : Vector) (h : Heap α) :
    Outcome (Heap α × Vector) Unit :=
  if rhs.size_ > v.data_.Capacity then
    match Vector.Vector_copy E rhs h with
    | .fault => .fault
    | .assert_fail => .assert_fail
    | .throw h1 => .throw (h1, v)
    | .ret copy_vector h1 =>
      let m := Vector.Swap v copy_vector
      match m.2.destructor h1 with
      | none => .fault
      | some h2 => .ret () (h2, m.1)
  else
    let end_size := if v.size_ > rhs.size_ then rhs.size_ else v.size_
    match assign_loop v.data_ rhs.data_ end_size 0 h with
    | .fault => .fault
    | .assert_fail => .assert_fail
    | .throw h1 => .throw (h1, v)
    | .ret _ h1 =>
      if v.size_ > rhs.size_ then
        match v.data_.operator_plus end_size with
        | none => .assert_fail
        | some p =>
          match destroy_n p (v.size_ - end_size) h1 with
          | none => .fault
          | some h2 => .ret () (h2, ⟨v.data_, rhs.size_⟩)
      else
        match rhs.data_.operator_plus end_size, v.data_.operator_plus end_size with
        | some s, some d =>
          match uninitialized_copy_n E s (rhs.size_ - end_size) d h1 with
          | .fault => .fault
          | .assert_fail => .assert_fail
          | .throw h2 => .throw (h2, v)
          | .ret _ h2 => .ret () (h2, ⟨v.data_, rhs.size_⟩)
        | _, _ => .assert_fail

/-- `Vector::operator=(Vector&& rhs)` for `this != &rhs`; the pair is `(*this, rhs)`. -/
def Vector.operator_assign_move (v rhs : Vector) : Vector × Vector :=
  let m := RawMemory.operator_assign_move v.data_ rhs.data_
  (⟨m.1, rhs.size_⟩, ⟨m.2, v.size_⟩)

/-! ## Specification vocabulary -/

/-- The block of a vector of capacity `c` that holds `es`: the live objects in order,
followed by raw slots. -/
def vecBlock {α : Type} (es : List α) (c : Nat) : Block α :=
  es.map some ++ List.replicate (c - es.length) none

/-- `Holds h v es`: in the heap `h` the vector `v` is well formed and its elements are
exactly `es`.  That is `size_ = |es| ≤ capacity_`, the handle is null iff the capacity is
`0`, and otherwise the handle is the address of a block of `capacity_` slots, of which the
first `size_` hold `es` in order and the rest are raw. -/
def Holds {α : Type} (h : Heap α) (v : Vector) (es : List α) : Prop :=
  v.size_ = es.length ∧ es.length ≤ v.data_.capacity_ ∧
    match v.data_.buffer_ with
    | none => v.data_.capacity_ = 0
    | some a => v.data_.capacity_ ≠ 0 ∧ h.block a = some (vecBlock es v.data_.capacity_)

/-- The slot `t` of the block `B` holds a live object. -/
def Live {α : Type} (B : Block α) (t : Nat) : Prop := ∃ x, B[t]? = some (some x)

/-- The calls `v.PushBack(x_1); ...; v.PushBack(x_k)` made one after the other; the first
call that does not return ends the sequence. -/
def PushBack_all {α : Type} (E : Env α) : List α → Heap α × Vector →
    Outcome (Heap α × Vector) Unit
  | [], s => .ret () s
  | x :: xs, s =>
    match Vector.PushBack E s.2 x s.1 with
    | .ret _ s1 => PushBack_all E xs s1
    | .throw s1 => .throw s1
    | .fault => .fault
    | .assert_fail => .assert_fail

/-- `E.alloc_ok n`: the buffer request for `n` elements succeeds as a request for `n`
elements.  The byte count `n * sizeof(T)` fits `size_t`, so that `Allocate` asks for room
for `n` objects, and `operator new` grants it. -/
def Env.alloc_ok {α : Type} (E : Env α) (n : Nat) : Bool :=
  decide (0 < E.sizeof_T) && decide (n * E.sizeof_T < 18446744073709551616) &&
    E.operator_new_ok (n * E.sizeof_T)

/-- An element type like `int`: four bytes, copyable and movable, no constructor throws,
`T()` is `0`; the allocator satisfies every request. -/
def intEnv : Env Nat :=
  ⟨true, true, true, fun _ => false, fun _ => false, fun x => x, some 0, 4, fun _ => true⟩

/-- An element type of four bytes whose copy constructor throws when it copies the value
`2` and whose move constructor is not `noexcept`, so that relocation copies; the allocator
satisfies every request. -/
def throwingEnv : Env Nat :=
  ⟨false, true, true, fun x => x == 2, fun x => x == 2, fun x => x, some 0, 4, fun _ => true⟩

/-- The invariant of `RawMemory`: the handle is null iff the capacity is `0`. -/
def RawMemory.null_iff_empty (m : RawMemory) : Prop :=
  m.buffer_ = none ↔ m.capacity_ = 0

/-- The number of live objects in the block at the handle `buf`; `0` for the null handle
and where the heap has no block at that address. -/
def Heap.live_count {α : Type} (h : Heap α) (buf : Option Nat) : Nat :=
  match buf with
  | none => 0
  | some a =>
    match h.block a with
    | none => 0
    | some B => B.countP Option.isSome

/-- What one `PushBack` call did, read off the state `s` it started from and the state `s1`
it left.  The first number is the number of blocks the call obtained from the allocator:
the heap grows by one block with every granted request and by nothing else.  The second is
the number of elements the call relocated: the objects it constructed in the buffer that
the vector ends up with (the live objects of that block after the call less those that
were in it before, none if the block is new), the pushed element apart. -/
def PushBack_cost {α : Type} (s s1 : Heap α × Vector) : Nat × Nat :=
  (s1.1.length - s.1.length,
    s1.1.live_count s1.2.data_.buffer_ - s.1.live_count s1.2.data_.buffer_ - 1)

/-- The calls `v.PushBack(x_1); ...; v.PushBack(x_k)` made one after the other, with the sum
of what the calls cost (`PushBack_cost`) added to the pair `c`: the blocks obtained and the
elements relocated. -/
def PushBack_all_counted {α : Type} (E : Env α) : List α → Heap α × Vector → Nat × Nat →
    Outcome (Heap α × Vector) (Nat × Nat)
  | [], s, c => .ret c s
  | x :: xs, s, c =>
    match Vector.PushBack E s.2 x s.1 with
    | .ret _ s1 =>
      PushBack_all_counted E xs s1
        (c.1 + (PushBack_cost s s1).1, c.2 + (PushBack_cost s s1).2)
    | .throw s1 => .throw s1
    | .fault => .fault
    | .assert_fail => .assert_fail

/-- No `assert` of `RawMemory` failed in the call. -/
def Outcome.no_assert_fail {σ ρ : Type} : Outcome σ ρ → Prop
  | .assert_fail => False
  | _ => True

/-- No `assert` of `RawMemory` failed in the call, a returning call leaves a result and a
state that satisfy `R`, and a throwing call leaves a state that satisfies `T`; nothing is
said about a call that ran into undefined behaviour. -/
def Outcome.ok_with {σ ρ : Type} (o : Outcome σ ρ) (R : ρ → σ → Prop) (T : σ → Prop) : Prop :=
  match o with
  | .ret r s => R r s
  | .throw s => T s
  | .fault => True
  | .assert_fail => False

/-- The invariant `Size() ≤ Capacity()` of a vector. -/
def Vector.size_le_capacity (v : Vector) : Prop := v.Size ≤ v.Capacity

/-- The vector a call leaves behind, after a return as well as after an exception,
satisfies `Size() ≤ Capacity()`; nothing is said about a call that ran into undefined
behaviour or a failed `assert`. -/
def Outcome.keeps_invariant {α ρ : Type} : Outcome (Heap α × Vector) ρ → Prop
  | .ret _ s => s.2.size_le_capacity
  | .throw s => s.2.size_le_capacity
  | _ => True

/-! ## Lemmas -/

variable {α : Type}

theorem RawMemory.request_of_alloc_ok {E : Env α} {n : Nat} (hal : E.alloc_ok n = true) :
    E.operator_new_ok (RawMemory.request E n) = true ∧
      RawMemory.request E n / E.sizeof_T = n := by
  simp only [Env.alloc_ok, Bool.and_eq_true, decide_eq_true_eq] at hal
  obtain ⟨⟨h1, h2⟩, h3⟩ := hal
  have e : RawMemory.request E n = n * E.sizeof_T := Nat.mod_eq_of_lt h2
  rw [e]
  exact ⟨h3, Nat.mul_div_cancel n h1⟩

theorem RawMemory.Allocate_of_alloc_ok {E : Env α} {n : Nat} (hn : n ≠ 0)
    (hal : E.alloc_ok n = true) (h : Heap α) :
    RawMemory.Allocate E n h = .ret (some h.length) (h ++ [some (List.replicate n none)]) := by
  obtain ⟨h1, h2⟩ := RawMemory.request_of_alloc_ok hal
  simp only [RawMemory.Allocate, ne_eq, hn, not_false_eq_true, if_true, h1, h2]

theorem RawMemory.RawMemory_sized_of_alloc_ok {E : Env α} {n : Nat} (hn : n ≠ 0)
    (hal : E.alloc_ok n = true) (h : Heap α) :
    RawMemory.RawMemory_sized E n h
      = .ret ⟨some h.length, n⟩ (h ++ [some (List.replicate n none)]) := by
  simp only [RawMemory.RawMemory_sized, RawMemory.Allocate_of_alloc_ok hn hal]

theorem Heap.block_lt {h : Heap α} {a : Nat} {B : Block α} (hb : h.block a = some B) :
    a < h.length := by
  unfold Heap.block at hb
  by_contra hlt
  simp [List.getElem?_eq_none (not_lt.mp hlt)] at hb

theorem Heap.block_eq_some_iff {h : Heap α} {a : Nat} {B : Block α} :
    h.block a = some B ↔ h[a]? = some (some B) := by
  unfold Heap.block
  cases hx : h[a]? with
  | none => simp [hx]
  | some o => cases o <;> simp [hx]

theorem Heap.block_set_same {h : Heap α} {a : Nat} (o : Option (Block α)) (hlt : a < h.length) :
    Heap.block (h.set a o) a = o := by
  unfold Heap.block
  simp [List.getElem?_set, hlt]

theorem Heap.block_set_other {h : Heap α} {a b : Nat} (o : Option (Block α)) (hab : a ≠ b) :
    Heap.block (h.set a o) b = h.block b := by
  unfold Heap.block
  simp [List.getElem?_set, hab]

theorem Heap.read_of_block {h : Heap α} {a : Nat} {B : Block α} (hb : h.block a = some B)
    (i : Nat) : h.read ⟨some a, i⟩ = (B[i]?).join := by
  simp [Heap.read, Heap.slot, hb]

theorem Heap.store_of_block {h : Heap α} {a : Nat} {B : Block α} (hb : h.block a = some B)
    {i : Nat} (hi : i < B.length) (s : Slot α) :
    h.store ⟨some a, i⟩ s = some (h.set a (some (B.set i s))) := by
  simp [Heap.store, hb, hi]

theorem Live.lt {B : Block α} {t : Nat} (hl : Live B t) : t < B.length := by
  obtain ⟨x, hx⟩ := hl
  by_contra hlt
  simp [List.getElem?_eq_none (not_lt.mp hlt)] at hx

theorem Heap.set_block_self {h : Heap α} {a : Nat} {A : Block α} (hb : h.block a = some A) :
    h.set a (some A) = h := by
  have h1 := Heap.block_eq_some_iff.mp hb
  apply List.ext_getElem?
  intro n
  rw [List.getElem?_set]
  split_ifs with h2 h3
  · subst h2; exact h1.symm
  · subst h2; exact absurd (Heap.block_lt hb) h3
  · rfl

theorem destroy_n_of_block (a : Nat) : ∀ (k s : Nat) (h : Heap α) (A : Block α),
    h.block a = some A → (∀ j, j < k → Live A (s + j)) →
    ∃ A', destroy_n ⟨some a, s⟩ k h = some (h.set a (some A')) ∧ A'.length = A.length ∧
      ∀ t, A'[t]? = if s ≤ t ∧ t < s + k then some none else A[t]? := by
  intro k
  induction k with
  | zero =>
    intro s h A hb _
    refine ⟨A, ?_, rfl, ?_⟩
    · simp [destroy_n, Heap.set_block_self hb]
    · intro t
      have : ¬ (s ≤ t ∧ t < s + 0) := by omega
      simp only [this, if_false]
  | succ k ih =>
    intro s h A hb hl
    obtain ⟨x, hx⟩ := hl 0 (by omega)
    have hlt : s < A.length := Live.lt ⟨x, hx⟩
    have hal := Heap.block_lt hb
    simp only [Nat.add_zero] at hx
    obtain ⟨A', h1, h2, h3⟩ := ih (s + 1) (h.set a (some (A.set s none))) (A.set s none)
      (Heap.block_set_same _ hal) (by
        intro j hj
        obtain ⟨y, hy⟩ := hl (j + 1) (by omega)
        exact ⟨y, by rw [List.getElem?_set_ne (by omega)]; rw [← hy]; congr 1; omega⟩)
    refine ⟨A', ?_, by simpa using h2, ?_⟩
    · simp [destroy_n, destroy_at, Heap.read_of_block hb, hx, Heap.store_of_block hb hlt,
        Ptr.add, h1, List.set_set]
    · intro t
      rw [h3 t, List.getElem?_set]
      by_cases h4 : s = t
      · subst h4; simp [hlt]
      · have : ¬ (s + 1 ≤ t ∧ t < s + 1 + k) ↔ ¬ (s ≤ t ∧ t < s + (k + 1)) := by omega
        by_cases h5 : s + 1 ≤ t ∧ t < s + 1 + k
        · have h6 : s ≤ t ∧ t < s + (k + 1) := by omega
          simp [h5, h6]
        · have h6 : ¬ (s ≤ t ∧ t < s + (k + 1)) := by omega
          simp [h4, h5, h6]

theorem Heap.set_set_set_set {h : Heap α} {a b : Nat}
    (X Y X' Y' : Option (Block α)) :
    (((h.set a X).set b Y).set a X').set b Y' = (h.set a X').set b Y' := by
  apply List.ext_getElem?
  intro n
  simp only [List.getElem?_set, List.length_set]
  split_ifs <;> rfl

theorem uninitialized_copy_loop_of_block (E : Env α) (a b d : Nat) (hab : a ≠ b) :
    ∀ (k s i : Nat) (h : Heap α) (A B : Block α),
    h.block a = some A → h.block b = some B →
    (∀ j, j < k → ∃ x, A[s + j]? = some (some x) ∧ E.copy_throws x = false) →
    d + i + k ≤ B.length →
    ∃ B', uninitialized_copy_loop E ⟨some b, d⟩ k ⟨some a, s⟩ i h
        = .ret () (h.set b (some B')) ∧ B'.length = B.length ∧
      ∀ t, B'[t]? = if d + i ≤ t ∧ t < d + i + k then A[s + (t - (d + i))]? else B[t]? := by
  intro k
  induction k with
  | zero =>
    intro s i h A B _ hb _ _
    refine ⟨B, ?_, rfl, ?_⟩
    · simp [uninitialized_copy_loop, Heap.set_block_self hb]
    · intro t
      have : ¬ (d + i ≤ t ∧ t < d + i + 0) := by omega
      simp only [this, if_false]
  | succ k ih =>
    intro s i h A B ha hb hl hlen
    obtain ⟨x, hx, hc⟩ := hl 0 (by omega)
    simp only [Nat.add_zero] at hx
    have hlt : d + i < B.length := by omega
    have hbl := Heap.block_lt hb
    obtain ⟨B', h1, h2, h3⟩ := ih (s + 1) (i + 1) (h.set b (some (B.set (d + i) (some x)))) A
      (B.set (d + i) (some x))
      (by rw [Heap.block_set_other _ (Ne.symm hab)]; exact ha)
      (Heap.block_set_same _ hbl)
      (by
        intro j hj
        obtain ⟨y, hy, hyc⟩ := hl (j + 1) (by omega)
        exact ⟨y, by rw [← hy]; congr 1; omega, hyc⟩)
      (by simp; omega)
    refine ⟨B', ?_, by simpa using h2, ?_⟩
    · simp [uninitialized_copy_loop, Heap.read_of_block ha, hx, hc, Heap.construct, Ptr.add,
        Heap.store_of_block hb hlt, h1, List.set_set]
    · intro t
      rw [h3 t, List.getElem?_set]
      by_cases h4 : d + i = t
      · subst h4
        have h5 : ¬ (d + (i + 1) ≤ d + i ∧ d + i < d + (i + 1) + k) := by omega
        have h6 : d + i ≤ d + i ∧ d + i < d + i + (k + 1) := by omega
        simp [h5, h6, hlt, hx]
      · by_cases h5 : d + (i + 1) ≤ t ∧ t < d + (i + 1) + k
        · have h6 : d + i ≤ t ∧ t < d + i + (k + 1) := by omega
          simp only [h5, h6, and_self, if_true]
          congr 1; omega
        · have h6 : ¬ (d + i ≤ t ∧ t < d + i + (k + 1)) := by omega
          simp [h4, h5, h6]

theorem uninitialized_move_loop_of_block (E : Env α) (a b d : Nat) (hab : a ≠ b) :
    ∀ (k s i : Nat) (h : Heap α) (A B : Block α),
    h.block a = some A → h.block b = some B →
    (∀ j, j < k → ∃ x, A[s + j]? = some (some x) ∧ E.move_throws x = false) →
    d + i + k ≤ B.length →
    ∃ A' B', uninitialized_move_loop E ⟨some b, d⟩ k ⟨some a, s⟩ i h
        = .ret () ((h.set a (some A')).set b (some B')) ∧
      A'.length = A.length ∧ B'.length = B.length ∧
      (∀ t, A'[t]? = if s ≤ t ∧ t < s + k then (A[t]?).map (Option.map E.moved_from)
        else A[t]?) ∧
      ∀ t, B'[t]? = if d + i ≤ t ∧ t < d + i + k then A[s + (t - (d + i))]? else B[t]? := by
  intro k
  induction k with
  | zero =>
    intro s i h A B ha hb _ _
    refine ⟨A, B, ?_, rfl, rfl, ?_, ?_⟩
    · simp [uninitialized_move_loop, Heap.set_block_self hb, Heap.set_block_self ha]
    · intro t
      have : ¬ (s ≤ t ∧ t < s + 0) := by omega
      simp only [this, if_false]
    · intro t
      have : ¬ (d + i ≤ t ∧ t < d + i + 0) := by omega
      simp only [this, if_false]
  | succ k ih =>
    intro s i h A B ha hb hl hlen
    obtain ⟨x, hx, hc⟩ := hl 0 (by omega)
    simp only [Nat.add_zero] at hx
    have hlt : d + i < B.length := by omega
    have hbl := Heap.block_lt hb
    have hal := Heap.block_lt ha
    have hsl : s < A.length := Live.lt ⟨x, hx⟩
    have hb1 : Heap.block (h.set a (some (A.set s (some (E.moved_from x))))) b = some B := by
      rw [Heap.block_set_other _ hab]; exact hb
    have ha1 : Heap.block (h.set a (some (A.set s (some (E.moved_from x))))) a
        = some (A.set s (some (E.moved_from x))) := Heap.block_set_same _ hal
    obtain ⟨A', B', h1, h2, h2', h3, h4⟩ := ih (s + 1) (i + 1)
      ((h.set a (some (A.set s (some (E.moved_from x))))).set b
        (some (B.set (d + i) (some x))))
      (A.set s (some (E.moved_from x))) (B.set (d + i) (some x))
      (by rw [Heap.block_set_other _ (Ne.symm hab)]; exact ha1)
      (Heap.block_set_same _ (by simpa using hbl))
      (by
        intro j hj
        obtain ⟨y, hy, hyc⟩ := hl (j + 1) (by omega)
        refine ⟨y, ?_, hyc⟩
        rw [List.getElem?_set_ne (by omega), ← hy]; congr 1; omega)
      (by simp; omega)
    refine ⟨A', B', ?_, by simpa using h2, by simpa using h2', ?_, ?_⟩
    · simp [uninitialized_move_loop, Heap.read_of_block ha, hx, hc, Heap.construct, Ptr.add,
        Heap.store_of_block ha hsl, Heap.store_of_block hb1 hlt, h1, Heap.set_set_set_set]
    · intro t
      rw [h3 t, List.getElem?_set]
      by_cases h5 : s = t
      · subst h5
        have h6 : ¬ (s + 1 ≤ s ∧ s < s + 1 + k) := by omega
        have h7 : s ≤ s ∧ s < s + (k + 1) := by omega
        simp [h6, h7, hsl, hx]
      · by_cases h6 : s + 1 ≤ t ∧ t < s + 1 + k
        · have h7 : s ≤ t ∧ t < s + (k + 1) := by omega
          simp [h5, h6, h7]
        · have h7 : ¬ (s ≤ t ∧ t < s + (k + 1)) := by omega
          simp [h5, h6, h7]
    · intro t
      rw [h4 t]
      by_cases h5 : d + i = t
      · subst h5
        have h6 : ¬ (d + (i + 1) ≤ d + i ∧ d + i < d + (i + 1) + k) := by omega
        have h7 : d + i ≤ d + i ∧ d + i < d + i + (k + 1) := by omega
        simp [h6, h7, hlt, hx]
      · by_cases h6 : d + (i + 1) ≤ t ∧ t < d + (i + 1) + k
        · have h7 : d + i ≤ t ∧ t < d + i + (k + 1) := by omega
          simp only [h6, h7, and_self, if_true]
          rw [List.getElem?_set_ne (by omega)]
          congr 1; omega
        · have h7 : ¬ (d + i ≤ t ∧ t < d + i + (k + 1)) := by omega
          simp [h5, h6, h7]

theorem move_assign_of_block (E : Env α) {a s d : Nat} {h : Heap α} {A : Block α} {x : α}
    (ha : h.block a = some A) (hx : A[s]? = some (some x)) (hd : Live A d) :
    move_assign E ⟨some a, s⟩ ⟨some a, d⟩ h
      = some (h.set a (some ((A.set s (some (E.moved_from x))).set d (some x)))) := by
  obtain ⟨y, hy⟩ := hd
  have hsl : s < A.length := Live.lt ⟨x, hx⟩
  have hdl : d < A.length := Live.lt ⟨y, hy⟩
  have hal := Heap.block_lt ha
  have ha1 : Heap.block (h.set a (some (A.set s (some (E.moved_from x))))) a
      = some (A.set s (some (E.moved_from x))) := Heap.block_set_same _ hal
  simp [move_assign, Heap.read_of_block ha, hx, hy, Heap.store_of_block ha hsl,
    Heap.store_of_block ha1 (by simpa using hdl), List.set_set]

theorem std_move_loop_of_block (E : Env α) (a : Nat) :
    ∀ (k s d : Nat) (h : Heap α) (A : Block α),
    h.block a = some A → d < s →
    (∀ j, j < k → Live A (s + j)) → (∀ j, j < k → Live A (d + j)) →
    ∃ A', std_move_loop E k ⟨some a, s⟩ ⟨some a, d⟩ h = some (h.set a (some A')) ∧
      A'.length = A.length ∧
      ∀ t, A'[t]? = if d ≤ t ∧ t < d + k then A[t + (s - d)]?
        else if s ≤ t ∧ t < s + k then (A[t]?).map (Option.map E.moved_from) else A[t]? := by
  intro k
  induction k with
  | zero =>
    intro s d h A ha _ _ _
    refine ⟨A, ?_, rfl, ?_⟩
    · simp [std_move_loop, Heap.set_block_self ha]
    · intro t
      have h1 : ¬ (d ≤ t ∧ t < d + 0) := by omega
      have h2 : ¬ (s ≤ t ∧ t < s + 0) := by omega
      simp only [h1, h2, if_false]
  | succ k ih =>
    intro s d h A ha hds hls hld
    obtain ⟨x, hx⟩ := hls 0 (by omega)
    simp only [Nat.add_zero] at hx
    have hd0 : Live A d := by simpa using hld 0 (by omega)
    have hsl : s < A.length := Live.lt ⟨x, hx⟩
    have hdl : d < A.length := Live.lt hd0
    have hal := Heap.block_lt ha
    obtain ⟨A', h1, h2, h3⟩ := ih (s + 1) (d + 1)
      (h.set a (some ((A.set s (some (E.moved_from x))).set d (some x))))
      ((A.set s (some (E.moved_from x))).set d (some x))
      (Heap.block_set_same _ hal) (by omega)
      (by
        intro j hj
        obtain ⟨y, hy⟩ := hls (j + 1) (by omega)
        refine ⟨y, ?_⟩
        rw [List.getElem?_set_ne (by omega), List.getElem?_set_ne (by omega), ← hy]
        congr 1; omega)
      (by
        intro j hj
        obtain ⟨y, hy⟩ := hld (j + 1) (by omega)
        by_cases h4 : s = d + 1 + j
        · exact ⟨E.moved_from x, by
            rw [List.getElem?_set_ne (by omega), ← h4]; simp [hsl]⟩
        · refine ⟨y, ?_⟩
          rw [List.getElem?_set_ne (by omega), List.getElem?_set_ne h4, ← hy]
          congr 1; omega)
    refine ⟨A', ?_, by simpa using h2, ?_⟩
    · simp [std_move_loop, move_assign_of_block E ha hx hd0, Ptr.add, h1, List.set_set]
    · intro t
      rw [h3 t]
      simp only [List.getElem?_set, List.length_set]
      by_cases h4 : d = t
      · subst h4
        have h5 : ¬ (d + 1 ≤ d ∧ d < d + 1 + k) := by omega
        have h6 : ¬ (s + 1 ≤ d ∧ d < s + 1 + k) := by omega
        have h7 : d ≤ d ∧ d < d + (k + 1) := by omega
        have h8 : d + (s - d) = s := by omega
        simp [h5, h6, h7, h8, hdl, hx]
      · by_cases h5 : d + 1 ≤ t ∧ t < d + 1 + k
        · have h6 : d ≤ t ∧ t < d + (k + 1) := by omega
          have h7 : ¬ (d = t + (s - d)) := by omega
          have h8 : ¬ (s = t + (s - d)) := by omega
          simp [h5, h6, h7, h8]
        · have h6 : ¬ (d ≤ t ∧ t < d + (k + 1)) := by omega
          by_cases h7 : s = t
          · subst h7
            have h8 : ¬ (s + 1 ≤ s ∧ s < s + 1 + k) := by omega
            have h9 : s ≤ s ∧ s < s + (k + 1) := by omega
            simp [h4, h5, h6, h8, h9, hsl, hx]
          · by_cases h8 : s + 1 ≤ t ∧ t < s + 1 + k
            · have h9 : s ≤ t ∧ t < s + (k + 1) := by omega
              simp [h4, h5, h6, h7, h8, h9]
            · have h9 : ¬ (s ≤ t ∧ t < s + (k + 1)) := by omega
              simp [h4, h5, h6, h7, h8, h9]

theorem move_backward_loop_of_block (E : Env α) (a f g : Nat) (hfg : f < g) :
    ∀ (k : Nat) (h : Heap α) (A : Block α),
    h.block a = some A →
    (∀ j, j < k → Live A (f + j)) → (∀ j, j < k → Live A (g + j)) →
    ∃ A', move_backward_loop E k ⟨some a, f + k⟩ ⟨some a, g + k⟩ h
        = some (h.set a (some A')) ∧
      A'.length = A.length ∧
      ∀ t, A'[t]? = if g ≤ t ∧ t < g + k then A[t - (g - f)]?
        else if f ≤ t ∧ t < f + k then (A[t]?).map (Option.map E.moved_from) else A[t]? := by
  intro k
  induction k with
  | zero =>
    intro h A ha _ _
    refine ⟨A, ?_, rfl, ?_⟩
    · simp [move_backward_loop, Heap.set_block_self ha]
    · intro t
      have h1 : ¬ (g ≤ t ∧ t < g + 0) := by omega
      have h2 : ¬ (f ≤ t ∧ t < f + 0) := by omega
      simp only [h1, h2, if_false]
  | succ k ih =>
    intro h A ha hls hld
    obtain ⟨x, hx⟩ := hls k (by omega)
    have hd0 : Live A (g + k) := hld k (by omega)
    have hsl : f + k < A.length := Live.lt ⟨x, hx⟩
    have hdl : g + k < A.length := Live.lt hd0
    have hal := Heap.block_lt ha
    obtain ⟨A', h1, h2, h3⟩ := ih
      (h.set a (some ((A.set (f + k) (some (E.moved_from x))).set (g + k) (some x))))
      ((A.set (f + k) (some (E.moved_from x))).set (g + k) (some x))
      (Heap.block_set_same _ hal)
      (by
        intro j hj
        obtain ⟨y, hy⟩ := hls j (by omega)
        refine ⟨y, ?_⟩
        rw [List.getElem?_set_ne (by omega), List.getElem?_set_ne (by omega), ← hy])
      (by
        intro j hj
        obtain ⟨y, hy⟩ := hld j (by omega)
        by_cases h4 : f + k = g + j
        · exact ⟨E.moved_from x, by
            rw [List.getElem?_set_ne (by omega), ← h4]; simp [hsl]⟩
        · refine ⟨y, ?_⟩
          rw [List.getElem?_set_ne (by omega), List.getElem?_set_ne h4, ← hy])
    refine ⟨A', ?_, by simpa using h2, ?_⟩
    · have e1 : f + (k + 1) - 1 = f + k := by omega
      have e2 : g + (k + 1) - 1 = g + k := by omega
      have e3 : 1 ≤ f + (k + 1) := by omega
      have e4 : 1 ≤ g + (k + 1) := by omega
      simp only [move_backward_loop, Ptr.sub, e1, e2, e3, e4, if_true,
        move_assign_of_block E ha hx hd0, h1, List.set_set]
    · intro t
      rw [h3 t]
      simp only [List.getElem?_set, List.length_set]
      by_cases h4 : g ≤ t ∧ t < g + k
      · have h5 : g ≤ t ∧ t < g + (k + 1) := by omega
        have h6 : ¬ (g + k = t - (g - f)) := by omega
        have h7 : ¬ (f + k = t - (g - f)) := by omega
        simp [h4, h5, h6, h7]
      · by_cases h5 : g + k = t
        · subst h5
          have h6 : g ≤ g + k ∧ g + k < g + (k + 1) := by omega
          have h7 : ¬ (f ≤ g + k ∧ g + k < f + k) := by omega
          have h8 : g + k - (g - f) = f + k := by omega
          simp [h4, h6, h7, h8, hdl, hx]
          intros; omega
        · have h6 : ¬ (g ≤ t ∧ t < g + (k + 1)) := by omega
          by_cases h7 : f + k = t
          · subst h7
            have h8 : ¬ (f ≤ f + k ∧ f + k < f + k) := by omega
            have h9 : f ≤ f + k ∧ f + k < f + (k + 1) := by omega
            simp [h4, h5, h6, h8, h9, hsl, hx]
            try (intros; omega)
          · by_cases h8 : f ≤ t ∧ t < f + k
            · have h9 : f ≤ t ∧ t < f + (k + 1) := by omega
              simp [h4, h5, h6, h7, h8, h9]
            · have h9 : ¬ (f ≤ t ∧ t < f + (k + 1)) := by omega
              simp [h4, h5, h6, h7, h8, h9]

theorem vecBlock_length (es : List α) {c : Nat} (hle : es.length ≤ c) :
    (vecBlock es c).length = c := by
  simp [vecBlock]; omega

theorem vecBlock_getElem? (es : List α) (c t : Nat) :
    (vecBlock es c)[t]? = if t < es.length then some (es[t]?)
      else if t < c then some none else none := by
  unfold vecBlock
  by_cases h1 : t < es.length
  · rw [List.getElem?_append_left (by simpa using h1)]
    simp [h1, List.getElem?_eq_getElem h1]
  · rw [List.getElem?_append_right (by simpa using h1), List.getElem?_replicate]
    simp only [List.length_map, h1, if_false]
    by_cases h2 : t < c
    · have : t - es.length < c - es.length := by omega
      simp [h2, this]
    · have : ¬ (t - es.length < c - es.length) := by omega
      simp [h2, this]

theorem vecBlock_live (es : List α) (c : Nat) {t : Nat} (ht : t < es.length) :
    ∃ x, (vecBlock es c)[t]? = some (some x) ∧ x ∈ es ∧ es[t]? = some x := by
  refine ⟨es[t], ?_, List.getElem_mem ht, List.getElem?_eq_getElem ht⟩
  rw [vecBlock_getElem?]
  simp [ht, List.getElem?_eq_getElem ht]

theorem eq_vecBlock {B : Block α} {es : List α} {c : Nat}
    (hB : ∀ t, B[t]? = if t < es.length then some (es[t]?)
      else if t < c then some none else none) : B = vecBlock es c := by
  apply List.ext_getElem?
  intro t
  rw [hB t, vecBlock_getElem?]

theorem insert_getElem? (es : List α) (p : Nat) (x : α) (hp : p ≤ es.length) (t : Nat) :
    (es.take p ++ x :: es.drop p)[t]? = if t < p then es[t]?
      else if t = p then some x else es[t - 1]? := by
  have hl : (es.take p).length = p := by simp [hp]
  by_cases h1 : t < p
  · rw [List.getElem?_append_left (by omega)]
    simp [h1, List.getElem?_take_of_lt h1]
  · rw [List.getElem?_append_right (by omega), hl]
    by_cases h2 : t = p
    · subst h2; simp
    · obtain ⟨u, hu⟩ : ∃ u, t - p = u + 1 := ⟨t - p - 1, by omega⟩
      have : p + u = t - 1 := by omega
      simp [h1, h2, hu, List.getElem?_drop, this]

theorem erase_getElem? (es : List α) (p : Nat) (t : Nat) :
    (es.take p ++ es.drop (p + 1))[t]? = if t < p then es[t]? else es[t + 1]? := by
  by_cases hp : p ≤ es.length
  · have hl : (es.take p).length = p := by simp [hp]
    by_cases h1 : t < p
    · rw [List.getElem?_append_left (by omega)]
      simp [h1, List.getElem?_take_of_lt h1]
    · rw [List.getElem?_append_right (by omega), hl]
      have : p + 1 + (t - p) = t + 1 := by omega
      simp [h1, List.getElem?_drop, this]
  · have h2 : es.take p = es := List.take_of_length_le (by omega)
    have h3 : es.drop (p + 1) = [] := List.drop_of_length_le (by omega)
    rw [h2, h3, List.append_nil]
    by_cases h1 : t < p
    · simp [h1]
    · simp [h1]
      rw [List.getElem?_eq_none (by omega), List.getElem?_eq_none (by omega)]

theorem Emplace_relocate_copy_of_block (E : Env α) {a b c p : Nat} {h : Heap α}
    {es : List α} {B : Block α} (hab : a ≠ b)
    (ha : h.block a = some (vecBlock es es.length)) (hb : h.block b = some B)
    (hB : B.length = c) (hc : es.length + 1 ≤ c) (hp : p ≤ es.length)
    (hcopy : ∀ e, e ∈ es → E.copy_throws e = false) :
    ∃ B', Vector.Emplace_relocate_copy E ⟨⟨some a, es.length⟩, es.length⟩ ⟨some b, c⟩ p h
        = .ret () (h.set b (some B')) ∧ B'.length = c ∧
      ∀ t, B'[t]? = if t < p then some (es[t]?)
        else if p + 1 ≤ t ∧ t < es.length + 1 then some (es[t - 1]?) else B[t]? := by
  obtain ⟨B1, h1, h2, h3⟩ := uninitialized_copy_loop_of_block E a b 0 hab p 0 0 h
    (vecBlock es es.length) B ha hb
    (by
      intro j hj
      obtain ⟨x, hx, hm, _⟩ := vecBlock_live es es.length (show 0 + j < es.length by omega)
      exact ⟨x, hx, hcopy x hm⟩)
    (by omega)
  have hbl := Heap.block_lt hb
  obtain ⟨B2, h4, h5, h6⟩ := uninitialized_copy_loop_of_block E a b (p + 1) hab
    (es.length - p) p 0 (h.set b (some B1)) (vecBlock es es.length) B1
    (by rw [Heap.block_set_other _ (Ne.symm hab)]; exact ha)
    (Heap.block_set_same _ hbl)
    (by
      intro j hj
      obtain ⟨x, hx, hm, _⟩ := vecBlock_live es es.length (show p + j < es.length by omega)
      exact ⟨x, hx, hcopy x hm⟩)
    (by omega)
  refine ⟨B2, ?_, by omega, ?_⟩
  · have e1 : p ≤ c := by omega
    simp only [Vector.Emplace_relocate_copy, uninitialized_copy_n, RawMemory.GetAddress, h1,
      RawMemory.operator_plus, hp, e1, if_true, Ptr.add, h4, List.set_set]
  · intro t
    rw [h6 t, h3 t, vecBlock_getElem?, vecBlock_getElem?]
    by_cases h7 : t < p
    · have h8 : ¬ (p + 1 + 0 ≤ t ∧ t < p + 1 + 0 + (es.length - p)) := by omega
      have h9 : 0 + 0 ≤ t ∧ t < 0 + 0 + p := by omega
      have h10 : 0 + (t - (0 + 0)) < es.length := by omega
      simp only [h7, h8, h9, h10, if_true, if_false]
      simp
    · by_cases h8 : p + 1 ≤ t ∧ t < es.length + 1
      · have h9 : p + 1 + 0 ≤ t ∧ t < p + 1 + 0 + (es.length - p) := by omega
        have h10 : t - 1 < es.length := by omega
        have h11 : p + (t - (p + 1 + 0)) = t - 1 := by omega
        simp only [h7, h8, h9, h10, h11, and_self, if_true, if_false]
      · have h9 : ¬ (p + 1 + 0 ≤ t ∧ t < p + 1 + 0 + (es.length - p)) := by omega
        have h10 : ¬ (0 + 0 ≤ t ∧ t < 0 + 0 + p) := by omega
        simp only [h7, h8, h9, h10, if_false]

theorem Emplace_relocate_move_of_block (E : Env α) {a b c p : Nat} {h : Heap α}
    {es : List α} {B : Block α} (hab : a ≠ b)
    (ha : h.block a = some (vecBlock es es.length)) (hb : h.block b = some B)
    (hB : B.length = c) (hc : es.length + 1 ≤ c) (hp : p ≤ es.length)
    (hmove : ∀ e, e ∈ es → E.move_throws e = false) :
    ∃ A' B', Vector.Emplace_relocate_move E ⟨⟨some a, es.length⟩, es.length⟩ ⟨some b, c⟩ p h
        = .ret () ((h.set a (some A')).set b (some B')) ∧
      (∀ t, t < es.length → Live A' t) ∧ B'.length = c ∧
      ∀ t, B'[t]? = if t < p then some (es[t]?)
        else if p + 1 ≤ t ∧ t < es.length + 1 then some (es[t - 1]?) else B[t]? := by
  obtain ⟨A1, B1, h1, _, h2, hA1, h3⟩ := uninitialized_move_loop_of_block E a b 0 hab p 0 0 h
    (vecBlock es es.length) B ha hb
    (by
      intro j hj
      obtain ⟨x, hx, hm, _⟩ := vecBlock_live es es.length (show 0 + j < es.length by omega)
      exact ⟨x, hx, hmove x hm⟩)
    (by omega)
  have hbl := Heap.block_lt hb
  have hal := Heap.block_lt ha
  have hA1' : ∀ t, p ≤ t → A1[t]? = (vecBlock es es.length)[t]? := by
    intro t ht
    rw [hA1 t]
    have : ¬ (0 ≤ t ∧ t < 0 + p) := by omega
    simp only [this, if_false]
  obtain ⟨A2, B2, h4, _, h5, hA2, h6⟩ := uninitialized_move_loop_of_block E a b (p + 1) hab
    (es.length - p) p 0 ((h.set a (some A1)).set b (some B1)) A1 B1
    (by rw [Heap.block_set_other _ (Ne.symm hab)]; exact Heap.block_set_same _ hal)
    (Heap.block_set_same _ (by simpa using hbl))
    (by
      intro j hj
      obtain ⟨x, hx, hm, _⟩ := vecBlock_live es es.length (show p + j < es.length by omega)
      exact ⟨x, by rw [hA1' _ (by omega)]; exact hx, hmove x hm⟩)
    (by omega)
  refine ⟨A2, B2, ?_, ?_, by omega, ?_⟩
  · have e1 : p ≤ c := by omega
    simp only [Vector.Emplace_relocate_move, uninitialized_move_n, RawMemory.GetAddress, h1,
      RawMemory.operator_plus, hp, e1, if_true, Ptr.add, h4, Heap.set_set_set_set]
  · intro t ht
    obtain ⟨x, hx, _, _⟩ := vecBlock_live es es.length ht
    unfold Live
    rw [hA2 t]
    by_cases h7 : t < p
    · have h8 : ¬ (p ≤ t ∧ t < p + (es.length - p)) := by omega
      have h9 : 0 ≤ t ∧ t < 0 + p := by omega
      rw [if_neg h8, hA1 t, if_pos h9, hx]
      exact ⟨E.moved_from x, rfl⟩
    · have h8 : p ≤ t ∧ t < p + (es.length - p) := by omega
      have h9 : ¬ (0 ≤ t ∧ t < 0 + p) := by omega
      rw [if_pos h8, hA1 t, if_neg h9, hx]
      exact ⟨E.moved_from x, rfl⟩
  · intro t
    rw [h6 t, h3 t]
    by_cases h7 : t < p
    · have h8 : ¬ (p + 1 + 0 ≤ t ∧ t < p + 1 + 0 + (es.length - p)) := by omega
      have h9 : 0 + 0 ≤ t ∧ t < 0 + 0 + p := by omega
      have h10 : 0 + (t - (0 + 0)) < es.length := by omega
      rw [vecBlock_getElem?]
      simp only [h7, h8, h9, h10, if_true, if_false]
      simp
    · by_cases h8 : p + 1 ≤ t ∧ t < es.length + 1
      · have h9 : p + 1 + 0 ≤ t ∧ t < p + 1 + 0 + (es.length - p) := by omega
        have h10 : t - 1 < es.length := by omega
        have h11 : p + (t - (p + 1 + 0)) = t - 1 := by omega
        rw [if_pos h9, hA1' _ (by omega), vecBlock_getElem?]
        simp only [h7, h8, h10, h11, and_self, if_true, if_false]
      · have h9 : ¬ (p + 1 + 0 ≤ t ∧ t < p + 1 + 0 + (es.length - p)) := by omega
        have h10 : ¬ (0 + 0 ≤ t ∧ t < 0 + 0 + p) := by omega
        simp only [h7, h8, h9, h10, if_false]

theorem Heap.block_append_left {h : Heap α} {a : Nat} (l : Heap α) (hlt : a < h.length) :
    Heap.block (h ++ l) a = h.block a := by
  unfold Heap.block
  simp [List.getElem?_append_left hlt]

theorem Heap.block_append_length (h : Heap α) (o : Option (Block α)) :
    Heap.block (h ++ [o]) h.length = o := by
  unfold Heap.block
  simp

theorem Heap.set_append_length (h : Heap α) (o o' : Option (Block α)) :
    (h ++ [o]).set h.length o' = h ++ [o'] := by
  apply List.ext_getElem?
  intro n
  rw [List.getElem?_set]
  by_cases h1 : h.length = n
  · subst h1; simp
  · rw [if_neg h1]
    by_cases h2 : n < h.length
    · rw [List.getElem?_append_left h2, List.getElem?_append_left h2]
    · rw [List.getElem?_eq_none (by simp; omega), List.getElem?_eq_none (by simp; omega)]

theorem Emplace_relocate_of_block (E : Env α) {a b c p : Nat} {h : Heap α}
    {es : List α} {B : Block α} (hab : a ≠ b)
    (ha : h.block a = some (vecBlock es es.length)) (hb : h.block b = some B)
    (hB : B.length = c) (hc : es.length + 1 ≤ c) (hp : p ≤ es.length)
    (hcopy : ∀ e, e ∈ es → E.copy_throws e = false)
    (hmove : ∀ e, e ∈ es → E.move_throws e = false) :
    ∃ A' B', (if E.is_nothrow_move_constructible || !E.is_copy_constructible then
          Vector.Emplace_relocate_move E ⟨⟨some a, es.length⟩, es.length⟩ ⟨some b, c⟩ p h
        else
          Vector.Emplace_relocate_copy E ⟨⟨some a, es.length⟩, es.length⟩ ⟨some b, c⟩ p h)
        = .ret () ((h.set a (some A')).set b (some B')) ∧
      (∀ t, t < es.length → Live A' t) ∧ B'.length = c ∧
      ∀ t, B'[t]? = if t < p then some (es[t]?)
        else if p + 1 ≤ t ∧ t < es.length + 1 then some (es[t - 1]?) else B[t]? := by
  by_cases hbr : (E.is_nothrow_move_constructible || !E.is_copy_constructible) = true
  · rw [if_pos hbr]
    exact Emplace_relocate_move_of_block E hab ha hb hB hc hp hmove
  · rw [if_neg hbr]
    obtain ⟨B', h1, h2, h3⟩ := Emplace_relocate_copy_of_block E hab ha hb hB hc hp hcopy
    refine ⟨vecBlock es es.length, B', ?_, ?_, h2, h3⟩
    · rw [h1, Heap.set_block_self ha]
    · intro t ht
      obtain ⟨x, hx, _, _⟩ := vecBlock_live es es.length ht
      exact ⟨x, hx⟩

theorem Emplace_grow_of_block (E : Env α) {a p : Nat} {h : Heap α} {es : List α} (x : α)
    (hn : es.length ≠ 0) (ha : h.block a = some (vecBlock es es.length)) (hp : p ≤ es.length)
    (halloc : E.alloc_ok (es.length * 2) = true)
    (hcopy : ∀ e, e ∈ es → E.copy_throws e = false)
    (hmove : ∀ e, e ∈ es → E.move_throws e = false) :
    Vector.Emplace_grow E ⟨⟨some a, es.length⟩, es.length⟩ p (some x) h
      = .ret () ((h ++ [some (vecBlock (es.take p ++ x :: es.drop p) (es.length * 2))]).set
          a none, ⟨some h.length, es.length * 2⟩) := by
  have hal := Heap.block_lt ha
  have hab : a ≠ h.length := by omega
  have hpc : p < (List.replicate (es.length * 2) (none : Slot α)).length := by
    simp; omega
  have hb1 : Heap.block (h ++ [some (List.replicate (es.length * 2) (none : Slot α))]) h.length
      = some (List.replicate (es.length * 2) none) := Heap.block_append_length _ _
  have ha1 : Heap.block (h ++ [some (List.replicate (es.length * 2) (none : Slot α))]) a
      = some (vecBlock es es.length) := by
    rw [Heap.block_append_left _ hal]; exact ha
  obtain ⟨A', B', h1, h2, h3, h4⟩ := Emplace_relocate_of_block E (c := es.length * 2) (p := p)
    (h := h ++ [some ((List.replicate (es.length * 2) (none : Slot α)).set p (some x))])
    (B := (List.replicate (es.length * 2) (none : Slot α)).set p (some x)) hab
    (by rw [Heap.block_append_left _ hal]; exact ha)
    (Heap.block_append_length _ _) (by simp) (by omega) hp hcopy hmove
  have ha3 : Heap.block (((h ++ [some ((List.replicate (es.length * 2) (none : Slot α)).set p
      (some x))]).set a (some A')).set h.length (some B')) a = some A' := by
    rw [Heap.block_set_other _ (Ne.symm hab)]
    exact Heap.block_set_same _ (by simp; omega)
  obtain ⟨A'', h5, _, _⟩ := destroy_n_of_block a es.length 0 _ A' ha3
    (by intro j hj; simpa using h2 j hj)
  have ha4 : Heap.block ((((h ++ [some ((List.replicate (es.length * 2) (none : Slot α)).set p
      (some x))]).set a (some A')).set h.length (some B')).set a (some A'')) a = some A'' :=
    Heap.block_set_same _ (by simp; omega)
  have hB' : B' = vecBlock (es.take p ++ x :: es.drop p) (es.length * 2) := by
    apply eq_vecBlock
    intro t
    have hl : (es.take p ++ x :: es.drop p).length = es.length + 1 := by
      simp; omega
    rw [h4 t, hl, insert_getElem? es p x hp, List.getElem?_set, List.getElem?_replicate]
    by_cases h6 : t < p
    · have h7 : t < es.length + 1 := by omega
      simp only [h6, h7, if_true]
    · by_cases h7 : p + 1 ≤ t ∧ t < es.length + 1
      · have h8 : ¬ (t = p) := by omega
        simp only [h6, h7, h8, and_self, if_true, if_false]
      · by_cases h8 : p = t
        · subst h8
          have h9 : p < es.length + 1 := by omega
          have h10 : p < es.length * 2 := by omega
          simp [h9, h10]
        · have h9 : ¬ (t < es.length + 1) := by omega
          have h10 : ¬ (t = p) := by omega
          simp only [h6, h7, h8, h9, h10, if_false]
          simp
  simp only [Vector.Emplace_grow, hn, if_false,
    RawMemory.RawMemory_sized_of_alloc_ok (show es.length * 2 ≠ 0 by omega) halloc, ne_eq,
    Nat.mul_eq_zero, OfNat.ofNat_ne_zero, or_false, not_false_eq_true, if_true,
    RawMemory.operator_plus, show p ≤ es.length * 2 by omega, Heap.construct,
    Heap.store_of_block hb1 hpc, Heap.set_append_length, h1, RawMemory.GetAddress, h5,
    RawMemory.Swap, RawMemory.destructor, RawMemory.Deallocate, ha4]
  congr 2
  rw [← hB']
  apply List.ext_getElem?
  intro n
  simp only [List.getElem?_set, List.length_set, List.length_append, List.length_singleton]
  by_cases h6 : a = n
  · subst h6
    simp [hal]
  · by_cases h7 : h.length = n
    · subst h7
      simp [h6]
    · simp only [h6, h7, if_false]
      by_cases h8 : n < h.length
      · rw [List.getElem?_append_left h8, List.getElem?_append_left h8]
      · rw [List.getElem?_eq_none (by simp; omega), List.getElem?_eq_none (by simp; omega)]

theorem Emplace_grow_of_null (E : Env α) (h : Heap α) (x : α)
    (halloc : E.alloc_ok 1 = true) :
    Vector.Emplace_grow E ⟨⟨none, 0⟩, 0⟩ 0 (some x) h
      = .ret () (h ++ [some (vecBlock [x] 1)], ⟨some h.length, 1⟩) := by
  have hb1 : Heap.block (h ++ [some [(none : Slot α)]]) h.length = some [none] :=
    Heap.block_append_length _ _
  have e2 : Heap.store (h ++ [some [(none : Slot α)]]) ⟨some h.length, 0⟩ (some x)
      = some (h ++ [some [some x]]) := by
    rw [Heap.store_of_block hb1 (by simp)]
    simp [Heap.set_append_length]
  cases h1 : (E.is_nothrow_move_constructible || !E.is_copy_constructible) <;>
    simp [Vector.Emplace_grow,
      RawMemory.RawMemory_sized_of_alloc_ok (show (1 : Nat) ≠ 0 by decide) halloc,
      RawMemory.operator_plus, Heap.construct, h1,
      Vector.Emplace_relocate_copy, Vector.Emplace_relocate_move, uninitialized_copy_n,
      uninitialized_move_n, uninitialized_copy_loop, uninitialized_move_loop,
      RawMemory.GetAddress, destroy_n, RawMemory.Swap, RawMemory.destructor,
      RawMemory.Deallocate, vecBlock, e2]

theorem relocate_last_of_block (E : Env α) {a n : Nat} {h : Heap α} {A : Block α} {x : α}
    (ha : h.block a = some A) (hx : A[n]? = some (some x)) (hn : n + 1 < A.length)
    (hcopy : E.copy_throws x = false) (hmove : E.move_throws x = false) :
    ∃ A1, (if !E.is_copy_constructible || E.is_move_constructible then
          uninitialized_move_n E ⟨some a, n⟩ 1 ⟨some a, n + 1⟩ h
        else uninitialized_copy_n E ⟨some a, n⟩ 1 ⟨some a, n + 1⟩ h)
        = .ret () (h.set a (some A1)) ∧ A1.length = A.length ∧
      A1[n + 1]? = some (some x) ∧ Live A1 n ∧
      ∀ t, t ≠ n → t ≠ n + 1 → A1[t]? = A[t]? := by
  have hal := Heap.block_lt ha
  have hnl : n < A.length := by omega
  by_cases hbr : (!E.is_copy_constructible || E.is_move_constructible) = true
  · rw [if_pos hbr]
    have ha1 : Heap.block (h.set a (some (A.set n (some (E.moved_from x))))) a
        = some (A.set n (some (E.moved_from x))) := Heap.block_set_same _ hal
    refine ⟨(A.set n (some (E.moved_from x))).set (n + 1) (some x), ?_, by simp, ?_, ?_, ?_⟩
    · simp [uninitialized_move_n, uninitialized_move_loop, Heap.read_of_block ha, hx, hmove,
        Heap.store_of_block ha hnl, Heap.construct, Ptr.add,
        Heap.store_of_block ha1 (show n + 1 < (A.set n (some (E.moved_from x))).length by
          simpa using hn), List.set_set]
    · simp [hn]
    · exact ⟨E.moved_from x, by simp [List.getElem?_set, hnl]⟩
    · intro t h1 h2
      rw [List.getElem?_set_ne (Ne.symm h2), List.getElem?_set_ne (Ne.symm h1)]
  · rw [if_neg hbr]
    refine ⟨A.set (n + 1) (some x), ?_, by simp, ?_, ?_, ?_⟩
    · simp [uninitialized_copy_n, uninitialized_copy_loop, Heap.read_of_block ha, hx, hcopy,
        Heap.construct, Ptr.add, Heap.store_of_block ha hn]
    · simp [hn]
    · exact ⟨x, by simp [List.getElem?_set, hx]⟩
    · intro t _ h2
      rw [List.getElem?_set_ne (Ne.symm h2)]

theorem Emplace_inplace_of_block (E : Env α) {a c p : Nat} {h : Heap α} {es : List α} (x : α)
    (hc : es.length < c) (ha : h.block a = some (vecBlock es c)) (hp : p ≤ es.length)
    (hcopy : ∀ e, e ∈ es → E.copy_throws e = false)
    (hmove : ∀ e, e ∈ es → E.move_throws e = false) :
    Vector.Emplace_inplace E ⟨⟨some a, c⟩, es.length⟩ ⟨some a, p⟩ p (some x) h
      = .ret () (h.set a (some (vecBlock (es.take p ++ x :: es.drop p) c)), ⟨some a, c⟩) := by
  have hal := Heap.block_lt ha
  have hlen : (vecBlock es c).length = c := vecBlock_length es (by omega)
  have hl : (es.take p ++ x :: es.drop p).length = es.length + 1 := by
    simp; omega
  by_cases hpe : p = es.length
  · subst hpe
    have e1 : (vecBlock es c).set es.length (some x)
        = vecBlock (es.take es.length ++ x :: es.drop es.length) c := by
      apply eq_vecBlock
      intro t
      rw [hl, insert_getElem? es _ x (le_refl _), List.getElem?_set, vecBlock_getElem?, hlen]
      by_cases h1 : es.length = t
      · subst h1; simp [hc]
      · by_cases h2 : t < es.length
        · have h3 : t < es.length + 1 := by omega
          simp only [h1, h2, h3, if_true, if_false]
        · have h3 : ¬ (t < es.length + 1) := by omega
          simp only [h1, h2, h3, if_false]
    simp [Vector.Emplace_inplace, Vector.end_, RawMemory.operator_plus, le_of_lt hc,
      Heap.construct, Heap.store_of_block ha (show es.length < (vecBlock es c).length by omega),
      e1]
  · have hpn : p < es.length := by omega
    obtain ⟨n, hn⟩ : ∃ n, es.length = n + 1 := ⟨es.length - 1, by omega⟩
    obtain ⟨y, hy, hym, hye⟩ := vecBlock_live es c (show n < es.length by omega)
    obtain ⟨A1, h1, h2, h3, h4, h5⟩ := relocate_last_of_block E ha hy (by omega)
      (hcopy y hym) (hmove y hym)
    have hA1 : ∀ t, t < n → A1[t]? = some (es[t]?) := by
      intro t ht
      rw [h5 t (by omega) (by omega), vecBlock_getElem?, if_pos (by omega)]
    have hA1live : ∀ t, t < n → Live A1 t := by
      intro t ht
      refine ⟨es[t], ?_⟩
      rw [hA1 t ht, List.getElem?_eq_getElem]
    obtain ⟨k, hk⟩ : ∃ k, n = p + k := ⟨n - p, by omega⟩
    obtain ⟨A2, h6, h7, h8⟩ := move_backward_loop_of_block E a p (p + 1) (by omega) k
      (h.set a (some A1)) A1 (Heap.block_set_same _ hal)
      (by intro j hj; exact hA1live _ (by omega))
      (by
        intro j hj
        by_cases h9 : p + 1 + j = n
        · rw [h9]; exact h4
        · exact hA1live _ (by omega))
    have hA2p : Live A2 p := by
      unfold Live
      rw [h8 p]
      have h9 : ¬ (p + 1 ≤ p ∧ p < p + 1 + k) := by omega
      rw [if_neg h9]
      by_cases h10 : p ≤ p ∧ p < p + k
      · rw [if_pos h10]
        obtain ⟨z, hz⟩ := hA1live p (by omega)
        exact ⟨E.moved_from z, by rw [hz]; rfl⟩
      · rw [if_neg h10]
        have : p = n := by omega
        rw [this]; exact h4
    obtain ⟨z, hz⟩ := hA2p
    have hpl : p < A2.length := Live.lt ⟨z, hz⟩
    have ha2 : Heap.block (h.set a (some A2)) a = some A2 := Heap.block_set_same _ hal
    have e1 : A2.set p (some x) = vecBlock (es.take p ++ x :: es.drop p) c := by
      apply eq_vecBlock
      intro t
      rw [hl, insert_getElem? es _ x hp, List.getElem?_set, h8 t]
      by_cases h9 : p = t
      · subst h9
        have h10 : p < es.length + 1 := by omega
        simp [hpl, h10]
      · by_cases h10 : t < p
        · have h11 : ¬ (p + 1 ≤ t ∧ t < p + 1 + k) := by omega
          have h12 : ¬ (p ≤ t ∧ t < p + k) := by omega
          have h13 : t < es.length + 1 := by omega
          simp only [h9, h10, h11, h12, h13, if_true, if_false]
          exact hA1 t (by omega)
        · by_cases h11 : p + 1 ≤ t ∧ t < p + 1 + k
          · have h13 : t < es.length + 1 := by omega
            have h14 : ¬ (t = p) := by omega
            have h15 : t - (p + 1 - p) = t - 1 := by omega
            simp only [h9, h10, h11, h13, h14, h15, and_self, if_true, if_false]
            exact hA1 (t - 1) (by omega)
          · have h12 : ¬ (p ≤ t ∧ t < p + k) := by omega
            have h14 : ¬ (t = p) := by omega
            simp only [h9, h10, h11, h12, h14, if_false]
            by_cases h15 : t = n + 1
            · subst h15
              have h16 : n + 1 < es.length + 1 := by omega
              simp only [h16, if_true, Nat.add_sub_cancel]
              rw [h3, hye]
            · have h16 : ¬ (t < es.length + 1) := by omega
              have h17 : ¬ (t < es.length) := by omega
              rw [h5 t (by omega) h15, vecBlock_getElem?]
              simp only [h16, h17, if_false]
    have hne : (⟨some a, p⟩ : Ptr) ≠ ⟨some a, es.length⟩ := by
      intro hh
      injection hh with _ h9
      omega
    have e2 : es.length - 1 = n := by omega
    have e3 : (if !E.is_copy_constructible || E.is_move_constructible then
          uninitialized_move_n E ⟨some a, n⟩ 1 ⟨some a, es.length⟩ h
        else uninitialized_copy_n E ⟨some a, n⟩ 1 ⟨some a, es.length⟩ h)
        = .ret () (h.set a (some A1)) := by
      rw [hn]; exact h1
    have e4 : move_backward E ⟨some a, p⟩ ⟨some a, n⟩ ⟨some a, es.length⟩ (h.set a (some A1))
        = some (h.set a (some A2)) := by
      have e5 : n - p = k := by omega
      have e6 : es.length = p + 1 + k := by omega
      simp only [move_backward, show p ≤ n by omega, and_self, if_true, e5]
      rw [e6, hk, h6, List.set_set]
    simp only [Vector.Emplace_inplace, Vector.end_, RawMemory.operator_plus, le_of_lt hc, if_true,
      hne, ne_eq, not_false_eq_true, Ptr.sub, show 1 ≤ es.length by omega, e2, e3,
      show p ≤ c by omega, e4, RawMemory.operator_index, show p < c by omega, assign_value,
      Heap.read_of_block ha2, hz, Option.join, Heap.store_of_block ha2 hpl, List.set_set, e1]
    rfl

theorem Emplace_of_Holds (E : Env α) {h : Heap α} {v : Vector} {es : List α} (p : Nat) (x : α)
    (hv : Holds h v es) (hp : p ≤ es.length)
    (halloc : v.size_ = v.data_.capacity_ →
      E.alloc_ok (if v.size_ = 0 then 1 else v.size_ * 2) = true)
    (hcopy : ∀ e, e ∈ es → E.copy_throws e = false)
    (hmove : ∀ e, e ∈ es → E.move_throws e = false) :
    ∃ h' v', Vector.Emplace E v ⟨v.data_.buffer_, p⟩ (some x) h
        = .ret ⟨v'.data_.buffer_, p⟩ (h', v') ∧
      Holds h' v' (es.take p ++ x :: es.drop p) ∧
      v'.data_.capacity_ = (if v.size_ = v.data_.capacity_ then
        (if v.size_ = 0 then 1 else v.size_ * 2) else v.data_.capacity_) ∧
      (v.size_ ≠ v.data_.capacity_ → v'.data_.buffer_ = v.data_.buffer_) ∧
      ∀ c, c < h.length → some c ≠ v.data_.buffer_ → h'.block c = h.block c := by
  obtain ⟨⟨buf, c⟩, n⟩ := v
  obtain ⟨h1, h2, h3⟩ := hv
  simp only at h1 h2 h3 halloc
  subst h1
  cases buf with
  | none =>
    simp only at h3
    subst h3
    have h4 : es = [] := List.eq_nil_of_length_eq_zero (by omega)
    subst h4
    have h5 : p = 0 := by simpa using hp
    subst h5
    refine ⟨h ++ [some (vecBlock [x] 1)], ⟨⟨some h.length, 1⟩, 1⟩, ?_, ?_, ?_, ?_, ?_⟩
    · have := Emplace_grow_of_null E h x (by simpa using halloc)
      simp only [List.length_nil] at this ⊢
      simp [Vector.Emplace, Vector.begin, RawMemory.GetAddress, Vector.Capacity,
        RawMemory.Capacity, this, RawMemory.operator_plus]
    · exact ⟨rfl, by simp, by simp, Heap.block_append_length _ _⟩
    · simp
    · simp
    · intro c hc _
      exact Heap.block_append_left _ hc
  | some a =>
    simp only at h3
    obtain ⟨h3, h4⟩ := h3
    have hal := Heap.block_lt h4
    have hl : (es.take p ++ x :: es.drop p).length = es.length + 1 := by
      simp; omega
    by_cases h5 : es.length = c
    · subst h5
      have h6 := Emplace_grow_of_block E x h3 h4 hp (by simpa [h3] using halloc) hcopy hmove
      refine ⟨(h ++ [some (vecBlock (es.take p ++ x :: es.drop p) (es.length * 2))]).set a none,
        ⟨⟨some h.length, es.length * 2⟩, es.length + 1⟩, ?_, ?_, ?_, ?_, ?_⟩
      · simp [Vector.Emplace, Vector.begin, RawMemory.GetAddress, Vector.Capacity,
          RawMemory.Capacity, h6, RawMemory.operator_plus, show p ≤ es.length * 2 by omega]
      · refine ⟨by rw [hl], by rw [hl]; simp only; omega, ?_⟩
        simp only
        refine ⟨by omega, ?_⟩
        rw [Heap.block_set_other _ (by omega)]
        exact Heap.block_append_length _ _
      · simp [h3]
      · simp
      · intro c hc hne
        rw [Heap.block_set_other _ (by intro hh; subst hh; exact hne rfl)]
        exact Heap.block_append_left _ hc
    · have h6 := Emplace_inplace_of_block E x (show es.length < c by omega) h4 hp hcopy hmove
      refine ⟨h.set a (some (vecBlock (es.take p ++ x :: es.drop p) c)),
        ⟨⟨some a, c⟩, es.length + 1⟩, ?_, ?_, ?_, ?_, ?_⟩
      · simp [Vector.Emplace, Vector.begin, RawMemory.GetAddress, Vector.Capacity,
          RawMemory.Capacity, h5, h6, RawMemory.operator_plus, show p ≤ c by omega]
      · refine ⟨by rw [hl], by rw [hl]; simp only; omega, ?_⟩
        simp only
        exact ⟨h3, Heap.block_set_same _ hal⟩
      · simp [h5]
      · simp
      · intro c hc hne
        exact Heap.block_set_other _ (by intro hh; subst hh; exact hne rfl)

theorem Erase_of_block (E : Env α) {a c p : Nat} {h : Heap α} {es : List α}
    (hc : es.length ≤ c) (ha : h.block a = some (vecBlock es c)) (hp : p < es.length) :
    Vector.Erase E ⟨⟨some a, c⟩, es.length⟩ ⟨some a, p⟩ h
      = .ret ⟨some a, p⟩ (h.set a (some (vecBlock (es.take p ++ es.drop (p + 1)) c)),
          ⟨⟨some a, c⟩, es.length - 1⟩) := by
  have hal := Heap.block_lt ha
  obtain ⟨k, hk⟩ : ∃ k, es.length = p + 1 + k := ⟨es.length - (p + 1), by omega⟩
  have hlive : ∀ t, t < es.length → Live (vecBlock es c) t := by
    intro t ht
    obtain ⟨y, hy, _, _⟩ := vecBlock_live es c ht
    exact ⟨y, hy⟩
  obtain ⟨A1, h1, h2, h3⟩ := std_move_loop_of_block E a k (p + 1) p h (vecBlock es c) ha
    (by omega) (by intro j hj; exact hlive _ (by omega))
    (by intro j hj; exact hlive _ (by omega))
  have hA1 : Live A1 (p + k) := by
    unfold Live
    rw [h3 (p + k)]
    have h4 : ¬ (p ≤ p + k ∧ p + k < p + k) := by omega
    rw [if_neg h4]
    obtain ⟨y, hy⟩ := hlive (p + k) (by omega)
    by_cases h5 : p + 1 ≤ p + k ∧ p + k < p + 1 + k
    · rw [if_pos h5, hy]; exact ⟨E.moved_from y, rfl⟩
    · rw [if_neg h5, hy]; exact ⟨y, rfl⟩
  obtain ⟨A2, h4, h5, h6⟩ := destroy_n_of_block a 1 (p + k) (h.set a (some A1)) A1
    (Heap.block_set_same _ hal) (by intro j hj; have : j = 0 := by omega
                                    subst this; exact hA1)
  have e1 : A2 = vecBlock (es.take p ++ es.drop (p + 1)) c := by
    apply eq_vecBlock
    intro t
    have hl : (es.take p ++ es.drop (p + 1)).length = p + k := by
      simp; omega
    rw [hl, erase_getElem?, h6 t, h3 t, vecBlock_getElem?, vecBlock_getElem?]
    have e0 : t + (p + 1 - p) = t + 1 := by omega
    rw [e0]
    split_ifs <;> first | rfl | (exfalso; omega)
  have hne : (⟨some a, p⟩ : Ptr) ≠ ⟨some a, es.length⟩ := by
    intro hh
    injection hh with _ h9
    omega
  have e2 : std_move E ⟨some a, p + 1⟩ ⟨some a, es.length⟩ ⟨some a, p⟩ h
      = some (h.set a (some A1)) := by
    have : es.length - (p + 1) = k := by omega
    simp only [std_move, show p + 1 ≤ es.length by omega, and_self, if_true, this, h1]
  have e3 : es.length - 1 = p + k := by omega
  simp only [Vector.Erase, Vector.end_, RawMemory.operator_plus, hc, if_true, Vector.begin,
    RawMemory.GetAddress, ne_eq, not_true_eq_false, if_false, Nat.sub_zero,
    show p ≤ c by omega, hne, not_false_eq_true, Ptr.add, e2, Ptr.sub,
    show 1 ≤ es.length by omega, e3, h4, List.set_set, e1]

theorem Erase_end_of_block (E : Env α) {a c : Nat} {h : Heap α} {es : List α}
    (hc : es.length ≤ c) (ha : h.block a = some (vecBlock es c)) (hn : es ≠ []) :
    Vector.Erase E ⟨⟨some a, c⟩, es.length⟩ ⟨some a, es.length⟩ h
      = .ret ⟨some a, es.length⟩ (h.set a (some (vecBlock es.dropLast c)),
          ⟨⟨some a, c⟩, es.length - 1⟩) := by
  have hal := Heap.block_lt ha
  have hpos : 0 < es.length := List.length_pos.mpr hn
  obtain ⟨k, hk⟩ : ∃ k, es.length = k + 1 := ⟨es.length - 1, by omega⟩
  obtain ⟨y, hy, _, _⟩ := vecBlock_live es c (show k < es.length by omega)
  obtain ⟨A2, h4, h5, h6⟩ := destroy_n_of_block a 1 k h (vecBlock es c) ha
    (by intro j hj; have : j = 0 := by omega
        subst this; exact ⟨y, hy⟩)
  have e1 : A2 = vecBlock es.dropLast c := by
    apply eq_vecBlock
    intro t
    have hl : es.dropLast.length = k := by simp; omega
    rw [hl, h6 t, vecBlock_getElem?, List.dropLast_eq_take, List.getElem?_take]
    by_cases h7 : t < k
    · have h8 : ¬ (k ≤ t ∧ t < k + 1) := by omega
      have h9 : t < es.length := by omega
      have h10 : t < es.length - 1 := by omega
      simp only [h7, h8, h9, h10, if_true, if_false]
    · by_cases h8 : t = k
      · subst h8
        have h9 : t ≤ t ∧ t < t + 1 := by omega
        have h10 : t < c := by omega
        simp only [h7, h9, h10, and_self, if_true, if_false]
      · have h9 : ¬ (k ≤ t ∧ t < k + 1) := by omega
        have h10 : ¬ (t < es.length) := by omega
        simp only [h7, h9, h10, if_false]
  have e3 : es.length - 1 = k := by omega
  simp only [Vector.Erase, Vector.end_, RawMemory.operator_plus, hc, if_true, Vector.begin,
    RawMemory.GetAddress, ne_eq, not_true_eq_false, if_false, Nat.sub_zero, Ptr.sub,
    show 1 ≤ es.length by omega, e3, h4, e1]

theorem Holds_frame {h h' : Heap α} {v : Vector} {es : List α} (hv : Holds h v es)
    (hfr : ∀ c, some c = v.data_.buffer_ → h'.block c = h.block c) : Holds h' v es := by
  obtain ⟨h1, h2, h3⟩ := hv
  refine ⟨h1, h2, ?_⟩
  cases hb : v.data_.buffer_ with
  | none => rw [hb] at h3; exact h3
  | some a =>
    rw [hb] at h3
    exact ⟨h3.1, by rw [hfr a hb.symm]; exact h3.2⟩

theorem Vector_copy_of (E : Env α) {h : Heap α} {s : Vector} {es : List α}
    (hs : Holds h s es) (halloc : s.size_ ≠ 0 → E.alloc_ok s.size_ = true)
    (hcopy : ∀ e, e ∈ es → E.copy_throws e = false) :
    ∃ h' v', Vector.Vector_copy E s h = .ret v' h' ∧ Holds h' v' es ∧ Holds h' s es ∧
      v'.size_ = s.size_ ∧ v'.data_.capacity_ = s.size_ ∧
      (∀ b, v'.data_.buffer_ = some b → b = h.length ∧ b < h'.length) ∧
      ∀ c, c < h.length → h'.block c = h.block c := by
  obtain ⟨⟨buf, c⟩, n⟩ := s
  have hs0 := hs
  obtain ⟨h1, h2, h3⟩ := hs
  simp only at h1 h2 h3 halloc
  subst h1
  by_cases hn : es.length = 0
  · have : es = [] := List.eq_nil_of_length_eq_zero hn
    subst this
    refine ⟨h, ⟨⟨none, 0⟩, 0⟩, ?_, ⟨rfl, by simp, rfl⟩, hs0, rfl, rfl,
      fun b hb => by simp at hb, fun _ _ => rfl⟩
    simp [Vector.Vector_copy, RawMemory.RawMemory_sized, RawMemory.Allocate,
      uninitialized_copy_n, uninitialized_copy_loop]
  · cases buf with
    | none => simp only at h3; omega
    | some a =>
      simp only at h3
      obtain ⟨h3, h4⟩ := h3
      have hal := Heap.block_lt h4
      have hab : a ≠ h.length := by omega
      obtain ⟨B', g1, _, g3⟩ := uninitialized_copy_loop_of_block E a h.length 0 hab
        es.length 0 0 (h ++ [some (List.replicate es.length (none : Slot α))])
        (vecBlock es c) (List.replicate es.length none)
        (by rw [Heap.block_append_left _ hal]; exact h4) (Heap.block_append_length _ _)
        (by
          intro j hj
          obtain ⟨x, hx, hm, _⟩ := vecBlock_live es c (show 0 + j < es.length by omega)
          exact ⟨x, hx, hcopy x hm⟩)
        (by simp)
      have e1 : B' = vecBlock es es.length := by
        apply eq_vecBlock
        intro t
        rw [g3 t, vecBlock_getElem?, List.getElem?_replicate]
        have e0 : 0 + (t - (0 + 0)) = t := by omega
        rw [e0]
        split_ifs <;> first | rfl | (exfalso; omega)
      have hfr : ∀ c', c' < h.length →
          Heap.block (h ++ [some (vecBlock es es.length)]) c' = h.block c' :=
        fun c' hc' => Heap.block_append_left _ hc'
      refine ⟨h ++ [some (vecBlock es es.length)], ⟨⟨some h.length, es.length⟩, es.length⟩,
        ?_, ?_, ?_, rfl, rfl, fun b hb => by
          simp only [Option.some.injEq] at hb
          subst hb
          simp, hfr⟩
      · rw [e1, Heap.set_append_length] at g1
        simp only [Vector.Vector_copy, RawMemory.RawMemory_sized_of_alloc_ok hn (halloc hn),
          RawMemory.GetAddress, uninitialized_copy_n, g1]
      · exact ⟨rfl, le_refl _, hn, Heap.block_append_length _ _⟩
      · exact Holds_frame hs0 (fun c' hc' => by
          simp only [Option.some.injEq] at hc'
          subst hc'
          exact hfr _ hal)

theorem Erase_of_Holds (E : Env α) {h : Heap α} {v : Vector} {es : List α} {p : Nat}
    (hv : Holds h v es) (hp : p < es.length) :
    ∃ h', Vector.Erase E v ⟨v.data_.buffer_, p⟩ h
        = .ret ⟨v.data_.buffer_, p⟩ (h', ⟨v.data_, es.length - 1⟩) ∧
      Holds h' ⟨v.data_, es.length - 1⟩ (es.eraseIdx p) ∧
      ∀ c, c < h.length → some c ≠ v.data_.buffer_ → h'.block c = h.block c := by
  obtain ⟨⟨buf, c⟩, n⟩ := v
  obtain ⟨h1, h2, h3⟩ := hv
  simp only at h1 h2 h3
  subst h1
  cases buf with
  | none => simp only at h3; omega
  | some a =>
    simp only at h3
    obtain ⟨h3, h4⟩ := h3
    rw [List.eraseIdx_eq_take_drop_succ]
    refine ⟨_, Erase_of_block E h2 h4 hp, ?_, ?_⟩
    · have hl : (es.take p ++ es.drop (p + 1)).length = es.length - 1 := by
        simp; omega
      refine ⟨hl.symm, by rw [hl]; simp only; omega, ?_⟩
      simp only
      exact ⟨h3, Heap.block_set_same _ (Heap.block_lt h4)⟩
    · intro c hc hne
      exact Heap.block_set_other _ (by intro hh; subst hh; exact hne rfl)

theorem Erase_end_of_Holds (E : Env α) {h : Heap α} {v : Vector} {es : List α}
    (hv : Holds h v es) (hn : es ≠ []) :
    ∃ h', Vector.Erase E v ⟨v.data_.buffer_, es.length⟩ h
        = .ret ⟨v.data_.buffer_, es.length⟩ (h', ⟨v.data_, es.length - 1⟩) ∧
      Holds h' ⟨v.data_, es.length - 1⟩ es.dropLast ∧
      ∀ c, c < h.length → some c ≠ v.data_.buffer_ → h'.block c = h.block c := by
  obtain ⟨⟨buf, c⟩, n⟩ := v
  obtain ⟨h1, h2, h3⟩ := hv
  simp only at h1 h2 h3
  subst h1
  have hpos : 0 < es.length := List.length_pos.mpr hn
  cases buf with
  | none => simp only at h3; omega
  | some a =>
    simp only at h3
    obtain ⟨h3, h4⟩ := h3
    refine ⟨_, Erase_end_of_block E h2 h4 hn, ?_, ?_⟩
    · refine ⟨by simp, by simp only [List.length_dropLast]; omega, ?_⟩
      simp only
      exact ⟨h3, Heap.block_set_same _ (Heap.block_lt h4)⟩
    · intro c hc hne
      exact Heap.block_set_other _ (by intro hh; subst hh; exact hne rfl)

theorem Holds_buffer_lt {h : Heap α} {v : Vector} {es : List α} (hv : Holds h v es) {a : Nat}
    (ha : v.data_.buffer_ = some a) : a < h.length := by
  obtain ⟨_, _, h3⟩ := hv
  rw [ha] at h3
  exact Heap.block_lt h3.2

theorem end_of_Holds {h : Heap α} {v : Vector} {es : List α} (hv : Holds h v es) :
    v.end_ = some ⟨v.data_.buffer_, es.length⟩ := by
  obtain ⟨h1, h2, _⟩ := hv
  simp [Vector.end_, RawMemory.operator_plus, h1, h2]

theorem PushBack_of_Holds (E : Env α) {h : Heap α} {v : Vector} {es : List α} (x : α)
    (hv : Holds h v es)
    (halloc : v.size_ = v.data_.capacity_ →
      E.alloc_ok (if v.size_ = 0 then 1 else v.size_ * 2) = true)
    (hcopy : ∀ e, e ∈ es → E.copy_throws e = false)
    (hmove : ∀ e, e ∈ es → E.move_throws e = false) :
    ∃ h' v', Vector.EmplaceBack E v (some x) h
        = .ret ⟨v'.data_.buffer_, es.length⟩ (h', v') ∧
      (E.copy_throws x = false → Vector.PushBack E v x h = .ret () (h', v')) ∧
      (E.move_throws x = false → Vector.PushBack_move E v x h = .ret () (h', v')) ∧
      Holds h' v' (es ++ [x]) ∧
      v'.data_.capacity_ = (if v.size_ = v.data_.capacity_ then
        (if v.size_ = 0 then 1 else v.size_ * 2) else v.data_.capacity_) ∧
      ∀ c, c < h.length → some c ≠ v.data_.buffer_ → h'.block c = h.block c := by
  obtain ⟨h', v', h1, h2, h3, _, h5⟩ :=
    Emplace_of_Holds E es.length x hv (le_refl _) halloc hcopy hmove
  rw [List.take_length, List.drop_length] at h2
  refine ⟨h', v', ?_, ?_, ?_, h2, h3, h5⟩
  · rw [Vector.EmplaceBack, end_of_Holds hv]; exact h1
  · intro hx
    rw [Vector.PushBack, end_of_Holds hv]
    simp only [Vector.Insert, hx, Bool.false_eq_true, if_false, h1]
  · intro hx
    rw [Vector.PushBack_move, end_of_Holds hv]
    simp only [Vector.Insert_move, hx, Bool.false_eq_true, if_false, h1]

theorem PushBack_all_of_Holds (E : Env α) :
    ∀ (xs : List α) (h : Heap α) (v : Vector) (es : List α), Holds h v es →
    (∀ k, es.length ≤ k → k < es.length + xs.length →
      E.alloc_ok (if k = 0 then 1 else k * 2) = true) →
    (∀ e, e ∈ es ++ xs → E.copy_throws e = false) →
    (∀ e, e ∈ es ++ xs → E.move_throws e = false) →
    ∃ h' v', PushBack_all E xs (h, v) = .ret () (h', v') ∧ Holds h' v' (es ++ xs) := by
  intro xs
  induction xs with
  | nil =>
    intro h v es hv _ _ _
    exact ⟨h, v, rfl, by simpa using hv⟩
  | cons x xs ih =>
    intro h v es hv halloc hcopy hmove
    obtain ⟨h1, v1, _, g2, _, g4, _, _⟩ := PushBack_of_Holds E x hv
      (fun _ => by rw [hv.1]; exact halloc es.length (le_refl _) (by simp))
      (fun e he => hcopy e (by simp [he])) (fun e he => hmove e (by simp [he]))
    obtain ⟨h2, v2, k1, k2⟩ := ih h1 v1 (es ++ [x]) g4
      (fun k hk1 hk2 => halloc k (by simp at hk1; omega) (by simp at hk2 ⊢; omega))
      (fun e he => hcopy e (by simpa using he)) (fun e he => hmove e (by simpa using he))
    refine ⟨h2, v2, ?_, by simpa using k2⟩
    simp only [PushBack_all, g2 (hcopy x (by simp)), k1]

theorem Holds_read {h : Heap α} {v : Vector} {es : List α} (hv : Holds h v es) {i : Nat}
    (hi : i < es.length) : h.read ⟨v.data_.buffer_, i⟩ = es[i]? := by
  obtain ⟨_, h2, h3⟩ := hv
  cases hb : v.data_.buffer_ with
  | none => rw [hb] at h3; simp only at h3; omega
  | some a =>
    rw [hb] at h3
    rw [Heap.read_of_block h3.2, vecBlock_getElem?, if_pos hi]
    rfl

theorem begin_add (v : Vector) (p : Nat) : v.begin.add p = ⟨v.data_.buffer_, p⟩ := by
  simp [Vector.begin, RawMemory.GetAddress, Ptr.add]

/-! ## The claims -/

/-- Claim C1: for a vector holding `es` (any capacity, so on the growth path and on the
in-place path) and a position index `p ≤ |es|`, `Emplace(begin()+p, x)`, and `Insert` with
it, returns the position with index `p` of the resulting vector; the vector then holds
`es[0..p) ++ [x] ++ es[p..)`, its size is `|es| + 1` and `x` sits at the returned position.
No constructor call on a stored element throws and the buffer request of the growth path,
if one is made, succeeds. -/
theorem Emplace_inserts_at_position (E : Env α) (h : Heap α) (v : Vector) (es : List α)
    (p : Nat) (x : α) (hv : Holds h v es) (hp : p ≤ es.length)
    (halloc : v.Size = v.Capacity → E.alloc_ok (if v.Size = 0 then 1 else v.Size * 2) = true)
    (hcopy : ∀ e, e ∈ es → E.copy_throws e = false)
    (hmove : ∀ e, e ∈ es → E.move_throws e = false) :
    ∃ h' v', Vector.Emplace E v (v.begin.add p) (some x) h = .ret (v'.begin.add p) (h', v') ∧
      (E.copy_throws x = false →
        Vector.Insert E v (v.begin.add p) x h = .ret (v'.begin.add p) (h', v')) ∧
      (E.move_throws x = false →
        Vector.Insert_move E v (v.begin.add p) x h = .ret (v'.begin.add p) (h', v')) ∧
      Holds h' v' (es.take p ++ x :: es.drop p) ∧ v'.Size = es.length + 1 ∧
      h'.read (v'.begin.add p) = some x := by
  obtain ⟨h', v', h1, h2, _, _, _⟩ := Emplace_of_Holds E p x hv hp halloc hcopy hmove
  have hl : (es.take p ++ x :: es.drop p).length = es.length + 1 := by
    simp; omega
  refine ⟨h', v', ?_, ?_, ?_, h2, ?_, ?_⟩
  · rw [begin_add, begin_add]; exact h1
  · intro hx
    rw [begin_add, begin_add, Vector.Insert, hx]; exact h1
  · intro hx
    rw [begin_add, begin_add, Vector.Insert_move, hx]; exact h1
  · rw [Vector.Size, h2.1, hl]
  · rw [begin_add, Holds_read h2 (by omega), insert_getElem? es p x hp]
    simp

/-- The instance of C1 behind scenario A: `[1, 2]` at capacity 2, `Insert` at index 1. -/
theorem Emplace_inserts_at_position_witness :
    Holds [none, some [some 1, some 2]] ⟨⟨some 1, 2⟩, 2⟩ [1, 2] ∧
    ∃ h' v', Vector.Emplace intEnv ⟨⟨some 1, 2⟩, 2⟩
        ((⟨⟨some 1, 2⟩, 2⟩ : Vector).begin.add 1) (some 3) [none, some [some 1, some 2]]
        = .ret (v'.begin.add 1) (h', v') ∧
      (intEnv.copy_throws 3 = false →
        Vector.Insert intEnv ⟨⟨some 1, 2⟩, 2⟩ ((⟨⟨some 1, 2⟩, 2⟩ : Vector).begin.add 1) 3
          [none, some [some 1, some 2]] = .ret (v'.begin.add 1) (h', v')) ∧
      (intEnv.move_throws 3 = false →
        Vector.Insert_move intEnv ⟨⟨some 1, 2⟩, 2⟩ ((⟨⟨some 1, 2⟩, 2⟩ : Vector).begin.add 1) 3
          [none, some [some 1, some 2]] = .ret (v'.begin.add 1) (h', v')) ∧
      Holds h' v' ([1, 2].take 1 ++ 3 :: [1, 2].drop 1) ∧ v'.Size = [1, 2].length + 1 ∧
      h'.read (v'.begin.add 1) = some 3 :=
  ⟨⟨rfl, by decide, by decide, rfl⟩,
    Emplace_inserts_at_position intEnv [none, some [some 1, some 2]] ⟨⟨some 1, 2⟩, 2⟩ [1, 2] 1 3
      ⟨rfl, by decide, by decide, rfl⟩ (by decide) (fun _ => rfl) (fun _ _ => rfl)
      (fun _ _ => rfl)⟩

/-- Claim C2: for a vector holding `es` and a position index `p < |es|`, `Erase(begin()+p)`
leaves `es` without its element number `p`, the others in their order, makes the size
`|es| - 1` and leaves the capacity as it was. -/
theorem Erase_removes_at_position (E : Env α) (h : Heap α) (v : Vector) (es : List α)
    (p : Nat) (hv : Holds h v es) (hp : p < es.length) :
    ∃ r h' v', Vector.Erase E v (v.begin.add p) h = .ret r (h', v') ∧
      Holds h' v' (es.eraseIdx p) ∧ (∀ i, i < p → (es.eraseIdx p)[i]? = es[i]?) ∧
      (∀ i, p ≤ i → (es.eraseIdx p)[i]? = es[i + 1]?) ∧
      v'.Size = es.length - 1 ∧ v'.Capacity = v.Capacity := by
  obtain ⟨h', h1, h2, _⟩ := Erase_of_Holds E hv hp
  refine ⟨_, h', _, by rw [begin_add]; exact h1, h2, ?_, ?_, rfl, rfl⟩
  · intro i hi
    rw [List.eraseIdx_eq_take_drop_succ, erase_getElem?, if_pos hi]
  · intro i hi
    rw [List.eraseIdx_eq_take_drop_succ, erase_getElem?, if_neg (by omega)]

/-- Scenario B as an instance of C2: `[1, 2, 3, 4]` at capacity 4, `Erase` at index 1. -/
theorem Erase_removes_at_position_witness :
    Holds [some [some 1, some 2, some 3, some 4]] ⟨⟨some 0, 4⟩, 4⟩ [1, 2, 3, 4] ∧
    ∃ r h' v', Vector.Erase intEnv ⟨⟨some 0, 4⟩, 4⟩ ((⟨⟨some 0, 4⟩, 4⟩ : Vector).begin.add 1)
        [some [some 1, some 2, some 3, some 4]] = .ret r (h', v') ∧
      Holds h' v' ([1, 2, 3, 4].eraseIdx 1) ∧
      (∀ i, i < 1 → ([1, 2, 3, 4].eraseIdx 1)[i]? = [1, 2, 3, 4][i]?) ∧
      (∀ i, 1 ≤ i → ([1, 2, 3, 4].eraseIdx 1)[i]? = [1, 2, 3, 4][i + 1]?) ∧
      v'.Size = [1, 2, 3, 4].length - 1 ∧ v'.Capacity = (⟨⟨some 0, 4⟩, 4⟩ : Vector).Capacity :=
  ⟨⟨rfl, by decide, by decide, rfl⟩,
    Erase_removes_at_position intEnv [some [some 1, some 2, some 3, some 4]] ⟨⟨some 0, 4⟩, 4⟩
      [1, 2, 3, 4] 1 ⟨rfl, by decide, by decide, rfl⟩ (by decide)⟩

/-- Claim C3, evaluated where it fails: a vector `[1, 2]` with size = capacity = 2 of an
element type whose copy constructor throws on the value `2` and whose move constructor is
not `noexcept`.  `Insert(begin(), 9)` takes the growth path and the copy of the suffix into
the new buffer throws: the `catch` handler destroys what was built in the new buffer and
does not rethrow, so the call returns normally, the old elements are destroyed and their
block released, and the vector reports size 3 at capacity 4 over a buffer of raw slots.
`Insert(end(), 9)` makes the copy of the part before the position throw: that handler
destroys the slot behind the new element, a raw slot, which is undefined behaviour.  The
claim asks for the failure to propagate with the vector unchanged. -/
theorem Emplace_growth_swallows_relocation_failure :
    Holds [some [some 1, some 2]] ⟨⟨some 0, 2⟩, 2⟩ [1, 2] ∧
    throwingEnv.copy_throws 2 = true ∧
    throwingEnv.is_nothrow_move_constructible = false ∧
    Vector.Insert throwingEnv ⟨⟨some 0, 2⟩, 2⟩ ⟨some 0, 0⟩ 9 [some [some 1, some 2]]
      = .ret ⟨some 1, 0⟩ ([none, some [none, none, none, none]], ⟨⟨some 1, 4⟩, 3⟩) ∧
    Vector.Insert throwingEnv ⟨⟨some 0, 2⟩, 2⟩ ⟨some 0, 2⟩ 9 [some [some 1, some 2]]
      = .fault :=
  ⟨⟨rfl, by decide, by decide, rfl⟩, rfl, rfl, by decide, by decide⟩

/-- Claim C4: from a vector holding `es`, the calls `PushBack(x_1); ...; PushBack(x_k)`
leave exactly `es ++ [x_1, ..., x_k]` (from the empty vector: `x_1, ..., x_k` in that
order); one `PushBack(x)` or `EmplaceBack(x)` leaves `es ++ [x]` with size `|es| + 1`, and
`EmplaceBack` returns the address of the new last element.  No constructor call throws
and every buffer request that the growth path can make on the way succeeds (for one
element at size `0`, for `2 k` elements at size `k`). -/
theorem PushBack_appends (E : Env α) (h : Heap α) (v : Vector) (es xs : List α) (x : α)
    (hv : Holds h v es)
    (halloc : ∀ k, k ≤ es.length + xs.length →
      E.alloc_ok (if k = 0 then 1 else k * 2) = true)
    (hcopy : ∀ e, e ∈ es ++ x :: xs → E.copy_throws e = false)
    (hmove : ∀ e, e ∈ es ++ x :: xs → E.move_throws e = false) :
    (∃ h' v', Vector.EmplaceBack E v (some x) h = .ret (v'.begin.add es.length) (h', v') ∧
      Vector.PushBack E v x h = .ret () (h', v') ∧
      Vector.PushBack_move E v x h = .ret () (h', v') ∧
      Holds h' v' (es ++ [x]) ∧ v'.Size = es.length + 1 ∧
      h'.read (v'.begin.add es.length) = some x ∧
      v'.operator_index es.length = some (v'.begin.add es.length)) ∧
    (∃ h' v', PushBack_all E xs (h, v) = .ret () (h', v') ∧ Holds h' v' (es ++ xs) ∧
      v'.Size = es.length + xs.length) ∧
    ∃ h' v', PushBack_all E xs (h, Vector.Vector_default) = .ret () (h', v') ∧
      Holds h' v' xs ∧ v'.Size = xs.length := by
  refine ⟨?_, ?_, ?_⟩
  · obtain ⟨h', v', h1, h2, h3, h4, _, _⟩ := PushBack_of_Holds E x hv
      (fun _ => by rw [hv.1]; exact halloc es.length (by omega))
      (fun e he => hcopy e (by simp [he])) (fun e he => hmove e (by simp [he]))
    have hsz : v'.size_ = es.length + 1 := by rw [h4.1]; simp
    have hcap : es.length + 1 ≤ v'.data_.capacity_ := by
      have := h4.2.1
      simpa using this
    refine ⟨h', v', by rw [begin_add]; exact h1, h2 (hcopy x (by simp)),
      h3 (hmove x (by simp)), h4, hsz, ?_, ?_⟩
    · rw [begin_add, Holds_read h4 (by simp)]
      simp
    · rw [begin_add]
      simp [Vector.operator_index, RawMemory.operator_index, hsz]
      omega
  · obtain ⟨h', v', h1, h2⟩ := PushBack_all_of_Holds E xs h v es hv
      (fun k _ hk => halloc k (by omega))
      (fun e he => hcopy e (by
        rcases List.mem_append.mp he with h3 | h3
        · simp [h3]
        · simp [h3]))
      (fun e he => hmove e (by
        rcases List.mem_append.mp he with h3 | h3
        · simp [h3]
        · simp [h3]))
    exact ⟨h', v', h1, h2, by rw [Vector.Size, h2.1]; simp⟩
  · obtain ⟨h', v', h1, h2⟩ := PushBack_all_of_Holds E xs h Vector.Vector_default []
      ⟨rfl, by simp, rfl⟩ (fun k _ hk => halloc k (by simp at hk; omega))
      (fun e he => hcopy e (by simp at he; simp [he]))
      (fun e he => hmove e (by simp at he; simp [he]))
    rw [List.nil_append] at h2
    exact ⟨h', v', h1, h2, h2.1⟩

/-- An instance of C4: `PushBack(1)` on the empty vector, then `PushBack(2); PushBack(3)`. -/
theorem PushBack_appends_witness :
    Holds ([] : Heap Nat) Vector.Vector_default [] ∧
    ((∃ h' v', Vector.EmplaceBack intEnv Vector.Vector_default (some 1) []
        = .ret (v'.begin.add ([] : List Nat).length) (h', v') ∧
      Vector.PushBack intEnv Vector.Vector_default 1 [] = .ret () (h', v') ∧
      Vector.PushBack_move intEnv Vector.Vector_default 1 [] = .ret () (h', v') ∧
      Holds h' v' ([] ++ [1]) ∧ v'.Size = ([] : List Nat).length + 1 ∧
      h'.read (v'.begin.add ([] : List Nat).length) = some 1 ∧
      v'.operator_index ([] : List Nat).length
        = some (v'.begin.add ([] : List Nat).length)) ∧
    (∃ h' v', PushBack_all intEnv [2, 3] ([], Vector.Vector_default) = .ret () (h', v') ∧
      Holds h' v' ([] ++ [2, 3]) ∧ v'.Size = ([] : List Nat).length + [2, 3].length) ∧
    ∃ h' v', PushBack_all intEnv [2, 3] ([], Vector.Vector_default) = .ret () (h', v') ∧
      Holds h' v' [2, 3] ∧ v'.Size = [2, 3].length) :=
  ⟨⟨rfl, by decide, rfl⟩,
    PushBack_appends intEnv [] Vector.Vector_default [] [2, 3] 1 ⟨rfl, by decide, rfl⟩
      (by decide) (fun _ _ => rfl) (fun _ _ => rfl)⟩

/-- Claim C5: on a non-empty vector holding `es`, `PopBack()` leaves `es` without its last
element, makes the size `|es| - 1` and leaves the capacity as it was. -/
theorem PopBack_removes_last (E : Env α) (h : Heap α) (v : Vector) (es : List α)
    (hv : Holds h v es) (hne : es ≠ []) :
    ∃ h' v', Vector.PopBack E v h = .ret () (h', v') ∧ Holds h' v' es.dropLast ∧
      v'.Size = es.length - 1 ∧ v'.Capacity = v.Capacity := by
  obtain ⟨h', h1, h2, _⟩ := Erase_end_of_Holds E hv hne
  refine ⟨h', _, ?_, h2, rfl, rfl⟩
  simp only [Vector.PopBack, end_of_Holds hv, h1]

/-- An instance of C5: `PopBack()` on `[1, 2, 3]` at capacity 4. -/
theorem PopBack_removes_last_witness :
    Holds [some [some 1, some 2, some 3, none]] ⟨⟨some 0, 4⟩, 3⟩ [1, 2, 3] ∧
    ∃ h' v', Vector.PopBack intEnv ⟨⟨some 0, 4⟩, 3⟩ [some [some 1, some 2, some 3, none]]
        = .ret () (h', v') ∧ Holds h' v' [1, 2, 3].dropLast ∧
      v'.Size = [1, 2, 3].length - 1 ∧ v'.Capacity = (⟨⟨some 0, 4⟩, 3⟩ : Vector).Capacity :=
  ⟨⟨rfl, by decide, by decide, rfl⟩,
    PopBack_removes_last intEnv [some [some 1, some 2, some 3, none]] ⟨⟨some 0, 4⟩, 3⟩
      [1, 2, 3] ⟨rfl, by decide, by decide, rfl⟩ (by decide)⟩

/-- Claim C9: the copy constructor yields a vector with the elements of the source `s` in
the same order, the same size and capacity `s.Size()`, and leaves `s` as it was.  The two
are independent: the copy's buffer is a block that did not exist before, so every change of
the heap confined to that block and to blocks allocated later leaves the elements of `s`,
every change confined to the block of `s` and to blocks allocated later leaves the elements
of the copy, and in particular an `Emplace` on either vector leaves the other untouched.
No copy constructor call on an element of `s` throws and the buffer request, if one is made,
succeeds. -/
theorem Vector_copy_equal_and_independent (E : Env α) (h : Heap α) (s : Vector)
    (es : List α) (hs : Holds h s es) (halloc : s.Size ≠ 0 → E.alloc_ok s.Size = true)
    (hcopy : ∀ e, e ∈ es → E.copy_throws e = false) :
    ∃ h' v', Vector.Vector_copy E s h = .ret v' h' ∧ Holds h' v' es ∧ Holds h' s es ∧
      v'.Size = s.Size ∧ v'.Capacity = s.Size ∧
      (∀ c, c < h.length → h'.block c = h.block c) ∧
      (∀ h'', (∀ c, c < h'.length → some c ≠ v'.data_.buffer_ → h''.block c = h'.block c) →
        Holds h'' s es) ∧
      (∀ h'', (∀ c, c < h'.length → some c ≠ s.data_.buffer_ → h''.block c = h'.block c) →
        Holds h'' v' es) ∧
      (∀ p x, p ≤ es.length →
        E.alloc_ok (if es.length = 0 then 1 else es.length * 2) = true →
        (∀ e, e ∈ es → E.move_throws e = false) →
        (∃ r h'' v'', Vector.Emplace E v' (v'.begin.add p) (some x) h' = .ret r (h'', v'') ∧
          Holds h'' v'' (es.take p ++ x :: es.drop p) ∧ Holds h'' s es) ∧
        ∃ r h'' s'', Vector.Emplace E s (s.begin.add p) (some x) h' = .ret r (h'', s'') ∧
          Holds h'' s'' (es.take p ++ x :: es.drop p) ∧ Holds h'' v' es) := by
  obtain ⟨h', v', h1, h2, h3, h4, h5, h6, h7⟩ := Vector_copy_of E hs halloc hcopy
  have hdisj : ∀ c, some c = s.data_.buffer_ → c < h'.length ∧ some c ≠ v'.data_.buffer_ := by
    intro c hc
    have g1 := Holds_buffer_lt hs hc.symm
    have g2 := Holds_buffer_lt h3 hc.symm
    refine ⟨g2, fun hh => ?_⟩
    have := (h6 c hh.symm).1
    omega
  have hdisj' : ∀ c, some c = v'.data_.buffer_ → c < h'.length ∧ some c ≠ s.data_.buffer_ := by
    intro c hc
    refine ⟨(h6 c hc.symm).2, fun hh => ?_⟩
    exact (hdisj c hh).2 hc
  have ha : ∀ h'', (∀ c, c < h'.length → some c ≠ v'.data_.buffer_ →
      Heap.block h'' c = h'.block c) → Holds h'' s es := by
    intro h'' hfr
    exact Holds_frame h3 (fun c hc => hfr c (hdisj c hc).1 (hdisj c hc).2)
  have hb : ∀ h'', (∀ c, c < h'.length → some c ≠ s.data_.buffer_ →
      Heap.block h'' c = h'.block c) → Holds h'' v' es := by
    intro h'' hfr
    exact Holds_frame h2 (fun c hc => hfr c (hdisj' c hc).1 (hdisj' c hc).2)
  refine ⟨h', v', h1, h2, h3, h4, h5, h7, ha, hb, ?_⟩
  intro p x hp halloc' hmove
  constructor
  · obtain ⟨h'', v'', k1, k2, _, _, k5⟩ :=
      Emplace_of_Holds E p x h2 hp (fun _ => by rw [h2.1]; exact halloc') hcopy hmove
    exact ⟨_, h'', v'', by rw [begin_add]; exact k1, k2, ha h'' k5⟩
  · obtain ⟨h'', s'', k1, k2, _, _, k5⟩ :=
      Emplace_of_Holds E p x h3 hp (fun _ => by rw [h3.1]; exact halloc') hcopy hmove
    exact ⟨_, h'', s'', by rw [begin_add]; exact k1, k2, hb h'' k5⟩

/-- An instance of C9: the copy of `[1, 2]` held at capacity 4. -/
theorem Vector_copy_equal_and_independent_witness :
    Holds [some [some 1, some 2, none, none]] ⟨⟨some 0, 4⟩, 2⟩ [1, 2] ∧
    ∃ h' v', Vector.Vector_copy intEnv ⟨⟨some 0, 4⟩, 2⟩ [some [some 1, some 2, none, none]]
        = .ret v' h' ∧ Holds h' v' [1, 2] ∧ Holds h' ⟨⟨some 0, 4⟩, 2⟩ [1, 2] ∧
      v'.Size = (⟨⟨some 0, 4⟩, 2⟩ : Vector).Size ∧
      v'.Capacity = (⟨⟨some 0, 4⟩, 2⟩ : Vector).Size ∧
      (∀ c, c < [some [some 1, some 2, none, (none : Slot Nat)]].length →
        h'.block c = Heap.block [some [some 1, some 2, none, none]] c) ∧
      (∀ h'', (∀ c, c < h'.length → some c ≠ v'.data_.buffer_ → h''.block c = h'.block c) →
        Holds h'' ⟨⟨some 0, 4⟩, 2⟩ [1, 2]) ∧
      (∀ h'', (∀ c, c < h'.length → some c ≠ (⟨⟨some 0, 4⟩, 2⟩ : Vector).data_.buffer_ →
        h''.block c = h'.block c) → Holds h'' v' [1, 2]) ∧
      (∀ p x, p ≤ [1, 2].length →
        intEnv.alloc_ok (if [1, 2].length = 0 then 1 else [1, 2].length * 2) = true →
        (∀ e, e ∈ [1, 2] → intEnv.move_throws e = false) →
        (∃ r h'' v'', Vector.Emplace intEnv v' (v'.begin.add p) (some x) h'
            = .ret r (h'', v'') ∧
          Holds h'' v'' ([1, 2].take p ++ x :: [1, 2].drop p) ∧
          Holds h'' ⟨⟨some 0, 4⟩, 2⟩ [1, 2]) ∧
        ∃ r h'' s'', Vector.Emplace intEnv ⟨⟨some 0, 4⟩, 2⟩
            ((⟨⟨some 0, 4⟩, 2⟩ : Vector).begin.add p) (some x) h' = .ret r (h'', s'') ∧
          Holds h'' s'' ([1, 2].take p ++ x :: [1, 2].drop p) ∧ Holds h'' v' [1, 2]) :=
  ⟨⟨rfl, by decide, by decide, rfl⟩,
    Vector_copy_equal_and_independent intEnv [some [some 1, some 2, none, none]]
      ⟨⟨some 0, 4⟩, 2⟩ [1, 2] ⟨rfl, by decide, by decide, rfl⟩ (fun _ => rfl)
      (fun _ _ => rfl)⟩

/-- Claim C10: move construction from a vector `s` holding `es` yields a target with the
buffer, the elements, the size and the capacity of `s`, and leaves `s` empty with size 0,
capacity 0 and the null handle; the heap is not touched, no element is copied or moved. -/
theorem Vector_move_transfers (h : Heap α) (s : Vector) (es : List α) (hs : Holds h s es) :
    Holds h (Vector.Vector_move s).1 es ∧ (Vector.Vector_move s).1 = s ∧
    (Vector.Vector_move s).1.Size = s.Size ∧
    (Vector.Vector_move s).1.Capacity = s.Capacity ∧
    (Vector.Vector_move s).2.Size = 0 ∧ (Vector.Vector_move s).2.Capacity = 0 ∧
    (Vector.Vector_move s).2 = Vector.Vector_default ∧
    Holds h (Vector.Vector_move s).2 [] := by
  have e1 : (Vector.Vector_move s).1 = s := rfl
  have e2 : (Vector.Vector_move s).2 = Vector.Vector_default := rfl
  rw [e1, e2]
  exact ⟨hs, rfl, rfl, rfl, rfl, rfl, rfl, ⟨rfl, by simp, rfl⟩⟩

/-- An instance of C10: move construction from `[1, 2]` held at capacity 4. -/
theorem Vector_move_transfers_witness :
    Holds [some [some 1, some 2, none, none]] ⟨⟨some 0, 4⟩, 2⟩ [1, 2] ∧
    Holds [some [some 1, some 2, none, none]] (Vector.Vector_move ⟨⟨some 0, 4⟩, 2⟩).1 [1, 2] ∧
    (Vector.Vector_move ⟨⟨some 0, 4⟩, 2⟩).1 = ⟨⟨some 0, 4⟩, 2⟩ ∧
    (Vector.Vector_move ⟨⟨some 0, 4⟩, 2⟩).1.Size = (⟨⟨some 0, 4⟩, 2⟩ : Vector).Size ∧
    (Vector.Vector_move ⟨⟨some 0, 4⟩, 2⟩).1.Capacity = (⟨⟨some 0, 4⟩, 2⟩ : Vector).Capacity ∧
    (Vector.Vector_move ⟨⟨some 0, 4⟩, 2⟩).2.Size = 0 ∧
    (Vector.Vector_move ⟨⟨some 0, 4⟩, 2⟩).2.Capacity = 0 ∧
    (Vector.Vector_move ⟨⟨some 0, 4⟩, 2⟩).2 = Vector.Vector_default ∧
    Holds [some [some 1, some 2, none, (none : Slot Nat)]]
      (Vector.Vector_move ⟨⟨some 0, 4⟩, 2⟩).2 [] :=
  ⟨⟨rfl, by decide, by decide, rfl⟩,
    Vector_move_transfers [some [some 1, some 2, none, none]] ⟨⟨some 0, 4⟩, 2⟩ [1, 2]
      ⟨rfl, by decide, by decide, rfl⟩⟩

/-- Claim C20: the handle of a `RawMemory` is null iff its capacity is `0`.  This holds
after `RawMemory()` and after `RawMemory(n)` for every `n` (for `n = 0` the handle is null
and the heap is not touched, for `n ≠ 0` a granted request yields a non-null handle), and
`Swap`, move construction and move assignment preserve it; after move construction the
target is the old source and the source is the empty buffer. -/
theorem RawMemory_handle_invariant (E : Env α) (h : Heap α) (n : Nat) (a b : RawMemory)
    (ha : a.null_iff_empty) (hb : b.null_iff_empty) :
    RawMemory.RawMemory_default.null_iff_empty ∧
    (∀ m h', RawMemory.RawMemory_sized E n h = .ret m h' →
      m.null_iff_empty ∧ m.capacity_ = n) ∧
    RawMemory.RawMemory_sized E 0 h = .ret ⟨none, 0⟩ h ∧
    (n ≠ 0 → E.alloc_ok n = true → ∃ c h', RawMemory.RawMemory_sized E n h
      = .ret ⟨some c, n⟩ h' ∧ h'.block c = some (List.replicate n none)) ∧
    (RawMemory.Swap a b).1.null_iff_empty ∧ (RawMemory.Swap a b).2.null_iff_empty ∧
    (RawMemory.RawMemory_move a).1.null_iff_empty ∧
    (RawMemory.RawMemory_move a).2.null_iff_empty ∧
    (RawMemory.RawMemory_move a).1 = a ∧
    (RawMemory.RawMemory_move a).2 = ⟨none, 0⟩ ∧
    (RawMemory.operator_assign_move a b).1.null_iff_empty ∧
    (RawMemory.operator_assign_move a b).2.null_iff_empty := by
  refine ⟨by simp [RawMemory.null_iff_empty, RawMemory.RawMemory_default], ?_, ?_, ?_, hb, ha,
    ha, by simp [RawMemory.null_iff_empty, RawMemory.RawMemory_move, RawMemory.Swap,
      RawMemory.RawMemory_default], rfl, rfl, hb, ha⟩
  · intro m h' hm
    by_cases hn : n = 0
    · subst hn
      simp only [RawMemory.RawMemory_sized, RawMemory.Allocate, ne_eq, not_true_eq_false,
        if_false, Outcome.ret.injEq] at hm
      rw [← hm.1]
      simp [RawMemory.null_iff_empty]
    · by_cases hal : E.operator_new_ok (RawMemory.request E n) = true
      · simp only [RawMemory.RawMemory_sized, RawMemory.Allocate, ne_eq, hn,
          not_false_eq_true, if_true, hal, Outcome.ret.injEq] at hm
        rw [← hm.1]
        simp [RawMemory.null_iff_empty, hn]
      · simp [RawMemory.RawMemory_sized, RawMemory.Allocate, hn, hal] at hm
  · simp [RawMemory.RawMemory_sized, RawMemory.Allocate]
  · intro hn hal
    exact ⟨h.length, h ++ [some (List.replicate n none)],
      RawMemory.RawMemory_sized_of_alloc_ok hn hal h, Heap.block_append_length _ _⟩

/-- An instance of C20: a buffer of capacity 4 and the empty buffer. -/
theorem RawMemory_handle_invariant_witness :
    (⟨some 0, 4⟩ : RawMemory).null_iff_empty ∧ (⟨none, 0⟩ : RawMemory).null_iff_empty ∧
    (RawMemory.RawMemory_default.null_iff_empty ∧
    (∀ m h', RawMemory.RawMemory_sized intEnv 3 [] = .ret m h' →
      m.null_iff_empty ∧ m.capacity_ = 3) ∧
    RawMemory.RawMemory_sized intEnv 0 [] = .ret ⟨none, 0⟩ [] ∧
    (3 ≠ 0 → intEnv.alloc_ok 3 = true → ∃ c h', RawMemory.RawMemory_sized intEnv 3 []
      = .ret ⟨some c, 3⟩ h' ∧ h'.block c = some (List.replicate 3 none)) ∧
    (RawMemory.Swap ⟨some 0, 4⟩ ⟨none, 0⟩).1.null_iff_empty ∧
    (RawMemory.Swap ⟨some 0, 4⟩ ⟨none, 0⟩).2.null_iff_empty ∧
    (RawMemory.RawMemory_move ⟨some 0, 4⟩).1.null_iff_empty ∧
    (RawMemory.RawMemory_move ⟨some 0, 4⟩).2.null_iff_empty ∧
    (RawMemory.RawMemory_move ⟨some 0, 4⟩).1 = ⟨some 0, 4⟩ ∧
    (RawMemory.RawMemory_move ⟨some 0, 4⟩).2 = ⟨none, 0⟩ ∧
    (RawMemory.operator_assign_move ⟨some 0, 4⟩ ⟨none, 0⟩).1.null_iff_empty ∧
    (RawMemory.operator_assign_move ⟨some 0, 4⟩ ⟨none, 0⟩).2.null_iff_empty) :=
  ⟨by simp [RawMemory.null_iff_empty], by simp [RawMemory.null_iff_empty],
    RawMemory_handle_invariant intEnv [] 3 ⟨some 0, 4⟩ ⟨none, 0⟩
      (by simp [RawMemory.null_iff_empty]) (by simp [RawMemory.null_iff_empty])⟩

/-- Claim C18: for two distinct vectors `a` holding `as` and `b` holding `bs`, the move
assignment `a = std::move(b)` does exactly what `a.Swap(b)` does: `a` becomes the old `b`
(buffer, elements, size, capacity) and `b` becomes the old `a`; `b` stays valid with
`Size() ≤ Capacity()` and is empty only if `a` was. -/
theorem move_assign_is_Swap (h : Heap α) (a b : Vector) (as bs : List α)
    (ha : Holds h a as) (hb : Holds h b bs) :
    Vector.operator_assign_move a b = Vector.Swap a b ∧
    (Vector.operator_assign_move a b).1 = b ∧ (Vector.operator_assign_move a b).2 = a ∧
    Holds h (Vector.operator_assign_move a b).1 bs ∧
    Holds h (Vector.operator_assign_move a b).2 as ∧
    (Vector.operator_assign_move a b).1.Size = b.Size ∧
    (Vector.operator_assign_move a b).1.Capacity = b.Capacity ∧
    (Vector.operator_assign_move a b).2.Size = a.Size ∧
    (Vector.operator_assign_move a b).2.Capacity = a.Capacity ∧
    (Vector.operator_assign_move a b).2.Size ≤ (Vector.operator_assign_move a b).2.Capacity ∧
    ((Vector.operator_assign_move a b).2.Size = 0 ↔ as = []) := by
  have e1 : (Vector.operator_assign_move a b).1 = b := rfl
  have e2 : (Vector.operator_assign_move a b).2 = a := rfl
  refine ⟨rfl, e1, e2, ?_, ?_, by rw [e1], by rw [e1], by rw [e2], by rw [e2], ?_, ?_⟩
  · rw [e1]; exact hb
  · rw [e2]; exact ha
  · rw [e2, Vector.Size, Vector.Capacity, RawMemory.Capacity, ha.1]; exact ha.2.1
  · rw [e2, Vector.Size, ha.1]; exact List.length_eq_zero

/-- An instance of C18: `a` holds `[7]` at capacity 1, `b` holds `[1, 2]` at capacity 4. -/
theorem move_assign_is_Swap_witness :
    Holds [some [some 7], some [some 1, some 2, none, none]] ⟨⟨some 0, 1⟩, 1⟩ [7] ∧
    Holds [some [some 7], some [some 1, some 2, none, none]] ⟨⟨some 1, 4⟩, 2⟩ [1, 2] ∧
    (Vector.operator_assign_move ⟨⟨some 0, 1⟩, 1⟩ ⟨⟨some 1, 4⟩, 2⟩
      = Vector.Swap ⟨⟨some 0, 1⟩, 1⟩ ⟨⟨some 1, 4⟩, 2⟩ ∧
    (Vector.operator_assign_move ⟨⟨some 0, 1⟩, 1⟩ ⟨⟨some 1, 4⟩, 2⟩).1 = ⟨⟨some 1, 4⟩, 2⟩ ∧
    (Vector.operator_assign_move ⟨⟨some 0, 1⟩, 1⟩ ⟨⟨some 1, 4⟩, 2⟩).2 = ⟨⟨some 0, 1⟩, 1⟩ ∧
    Holds [some [some 7], some [some 1, some 2, none, none]]
      (Vector.operator_assign_move ⟨⟨some 0, 1⟩, 1⟩ ⟨⟨some 1, 4⟩, 2⟩).1 [1, 2] ∧
    Holds [some [some 7], some [some 1, some 2, none, none]]
      (Vector.operator_assign_move ⟨⟨some 0, 1⟩, 1⟩ ⟨⟨some 1, 4⟩, 2⟩).2 [7] ∧
    (Vector.operator_assign_move ⟨⟨some 0, 1⟩, 1⟩ ⟨⟨some 1, 4⟩, 2⟩).1.Size
      = (⟨⟨some 1, 4⟩, 2⟩ : Vector).Size ∧
    (Vector.operator_assign_move ⟨⟨some 0, 1⟩, 1⟩ ⟨⟨some 1, 4⟩, 2⟩).1.Capacity
      = (⟨⟨some 1, 4⟩, 2⟩ : Vector).Capacity ∧
    (Vector.operator_assign_move ⟨⟨some 0, 1⟩, 1⟩ ⟨⟨some 1, 4⟩, 2⟩).2.Size
      = (⟨⟨some 0, 1⟩, 1⟩ : Vector).Size ∧
    (Vector.operator_assign_move ⟨⟨some 0, 1⟩, 1⟩ ⟨⟨some 1, 4⟩, 2⟩).2.Capacity
      = (⟨⟨some 0, 1⟩, 1⟩ : Vector).Capacity ∧
    (Vector.operator_assign_move ⟨⟨some 0, 1⟩, 1⟩ ⟨⟨some 1, 4⟩, 2⟩).2.Size
      ≤ (Vector.operator_assign_move ⟨⟨some 0, 1⟩, 1⟩ ⟨⟨some 1, 4⟩, 2⟩).2.Capacity ∧
    ((Vector.operator_assign_move ⟨⟨some 0, 1⟩, 1⟩ ⟨⟨some 1, 4⟩, 2⟩).2.Size = 0
      ↔ [7] = [])) :=
  ⟨⟨rfl, by decide, by decide, rfl⟩, ⟨rfl, by decide, by decide, rfl⟩,
    move_assign_is_Swap [some [some 7], some [some 1, some 2, none, none]] ⟨⟨some 0, 1⟩, 1⟩
      ⟨⟨some 1, 4⟩, 2⟩ [7] [1, 2] ⟨rfl, by decide, by decide, rfl⟩
      ⟨rfl, by decide, by decide, rfl⟩⟩

/-- Claim C12: for a vector holding `es`, `Emplace`, `Insert`, `EmplaceBack` and `PushBack`
leave the capacity `max(1, 2 * old size)` when size = capacity (the growth path) and leave
it unchanged when size < capacity.  No constructor call throws and the buffer request of
the growth path succeeds. -/
theorem Emplace_growth_policy (E : Env α) (h : Heap α) (v : Vector) (es : List α) (p : Nat)
    (x : α) (hv : Holds h v es) (hp : p ≤ es.length)
    (halloc : v.Size = v.Capacity → E.alloc_ok (if v.Size = 0 then 1 else v.Size * 2) = true)
    (hcopy : ∀ e, e ∈ x :: es → E.copy_throws e = false)
    (hmove : ∀ e, e ∈ x :: es → E.move_throws e = false) :
    (∃ r h' v', Vector.Emplace E v (v.begin.add p) (some x) h = .ret r (h', v') ∧
      v'.Capacity = if v.Size = v.Capacity then max 1 (2 * v.Size) else v.Capacity) ∧
    (∃ r h' v', Vector.Insert E v (v.begin.add p) x h = .ret r (h', v') ∧
      v'.Capacity = if v.Size = v.Capacity then max 1 (2 * v.Size) else v.Capacity) ∧
    (∃ r h' v', Vector.Insert_move E v (v.begin.add p) x h = .ret r (h', v') ∧
      v'.Capacity = if v.Size = v.Capacity then max 1 (2 * v.Size) else v.Capacity) ∧
    (∃ r h' v', Vector.EmplaceBack E v (some x) h = .ret r (h', v') ∧
      v'.Capacity = if v.Size = v.Capacity then max 1 (2 * v.Size) else v.Capacity) ∧
    (∃ h' v', Vector.PushBack E v x h = .ret () (h', v') ∧
      v'.Capacity = if v.Size = v.Capacity then max 1 (2 * v.Size) else v.Capacity) ∧
    ∃ h' v', Vector.PushBack_move E v x h = .ret () (h', v') ∧
      v'.Capacity = if v.Size = v.Capacity then max 1 (2 * v.Size) else v.Capacity := by
  have hcopy' : ∀ e, e ∈ es → E.copy_throws e = false := fun e he => hcopy e (by simp [he])
  have hmove' : ∀ e, e ∈ es → E.move_throws e = false := fun e he => hmove e (by simp [he])
  have hF : ∀ c : Nat, (c = if v.size_ = v.data_.capacity_ then
      (if v.size_ = 0 then 1 else v.size_ * 2) else v.data_.capacity_) →
      c = if v.Size = v.Capacity then max 1 (2 * v.Size) else v.Capacity := by
    intro c hc
    rw [hc]
    simp only [Vector.Size, Vector.Capacity, RawMemory.Capacity]
    split_ifs <;> omega
  obtain ⟨h1, v1, k1, _, k3, _, _⟩ := Emplace_of_Holds E p x hv hp halloc hcopy' hmove'
  obtain ⟨h2, v2, g1, g2, g3, _, g5, _⟩ := PushBack_of_Holds E x hv halloc hcopy' hmove'
  have hx : E.copy_throws x = false := hcopy x (by simp)
  have hx' : E.move_throws x = false := hmove x (by simp)
  refine ⟨⟨_, h1, v1, by rw [begin_add]; exact k1, hF _ k3⟩,
    ⟨_, h1, v1, by rw [begin_add, Vector.Insert, hx]; exact k1, hF _ k3⟩,
    ⟨_, h1, v1, by rw [begin_add, Vector.Insert_move, hx']; exact k1, hF _ k3⟩,
    ⟨_, h2, v2, g1, hF _ g5⟩, ⟨h2, v2, g2 hx, hF _ g5⟩, ⟨h2, v2, g3 hx', hF _ g5⟩⟩

/-- Scenario C as an instance of C12: size = capacity = 2 grows to capacity 4. -/
theorem Emplace_growth_policy_witness :
    Holds [some [some 1, some 2]] ⟨⟨some 0, 2⟩, 2⟩ [1, 2] ∧
    ∃ h' v', Vector.PushBack_move intEnv ⟨⟨some 0, 2⟩, 2⟩ 3 [some [some 1, some 2]]
      = .ret () (h', v') ∧ v'.Capacity = 4 :=
  ⟨⟨rfl, by decide, by decide, rfl⟩,
    (Emplace_growth_policy intEnv [some [some 1, some 2]] ⟨⟨some 0, 2⟩, 2⟩ [1, 2] 2 3
      ⟨rfl, by decide, by decide, rfl⟩ (by decide) (fun _ => rfl) (fun _ _ => rfl)
      (fun _ _ => rfl)).2.2.2.2.2⟩

/-- Claim C15: when `operator new` refuses the buffer request of `Reserve(n)` with
`n > Capacity()`, of `Resize(n)` in its growing branch, or of the growth path of `Emplace`,
`Insert`, `EmplaceBack` and `PushBack`, the call ends with an exception and the heap and the
vector (size, capacity, buffer, hence elements) are exactly what they were: the request is
the first thing these paths do. -/
theorem allocation_failure_is_atomic (E : Env α) (h : Heap α) (v : Vector) (n : Nat)
    (hn : v.Capacity < n) (hfail : E.operator_new_ok (RawMemory.request E n) = false) :
    Vector.Reserve E v n h = .throw (h, v) ∧
    (v.Size ≤ n → Vector.Resize E v n h = .throw (h, v)) ∧
    (v.Size = v.Capacity → n = (if v.Size = 0 then 1 else v.Size * 2) →
      (∀ p args, p ≤ v.Size → Vector.Emplace E v (v.begin.add p) args h = .throw (h, v)) ∧
      (∀ p x, p ≤ v.Size → Vector.Insert E v (v.begin.add p) x h = .throw (h, v)) ∧
      (∀ p x, p ≤ v.Size → Vector.Insert_move E v (v.begin.add p) x h = .throw (h, v)) ∧
      (∀ args, Vector.EmplaceBack E v args h = .throw (h, v)) ∧
      (∀ x, Vector.PushBack E v x h = .throw (h, v)) ∧
      ∀ x, Vector.PushBack_move E v x h = .throw (h, v)) := by
  have hn0 : n ≠ 0 := by omega
  have hcap : ¬ (n ≤ v.data_.capacity_) := by
    simp only [Vector.Capacity, RawMemory.Capacity] at hn; omega
  have hres : Vector.Reserve E v n h = .throw (h, v) := by
    simp [Vector.Reserve, RawMemory.Capacity, hcap, RawMemory.RawMemory_sized,
      RawMemory.Allocate, hn0, hfail]
  refine ⟨hres, ?_, ?_⟩
  · intro hs
    have : ¬ (v.size_ > n) := by simp only [Vector.Size] at hs; omega
    simp only [Vector.Resize, this, if_false, hres]
  · intro hfull hreq
    simp only [Vector.Size, Vector.Capacity, RawMemory.Capacity] at hfull hreq
    have hgrow : ∀ dist args, Vector.Emplace_grow E v dist args h = .throw (h, v.data_) := by
      intro dist args
      simp [Vector.Emplace_grow, ← hreq, RawMemory.RawMemory_sized, RawMemory.Allocate, hn0,
        hfail]
    have hemp : ∀ p args, Vector.Emplace E v ⟨v.data_.buffer_, p⟩ args h = .throw (h, v) := by
      intro p args
      simp [Vector.Emplace, Vector.begin, RawMemory.GetAddress, Vector.Capacity,
        RawMemory.Capacity, hfull, hgrow]
      rw [← hfull]
    have hend : v.end_ = some ⟨v.data_.buffer_, v.size_⟩ := by
      simp [Vector.end_, RawMemory.operator_plus, hfull]
    refine ⟨fun p args _ => by rw [begin_add]; exact hemp p args,
      fun p x _ => by rw [begin_add, Vector.Insert]; exact hemp p _,
      fun p x _ => by rw [begin_add, Vector.Insert_move]; exact hemp p _,
      fun args => by rw [Vector.EmplaceBack, hend]; exact hemp _ args,
      fun x => by simp only [Vector.PushBack, hend, Vector.Insert, hemp],
      fun x => by simp only [Vector.PushBack_move, hend, Vector.Insert_move, hemp]⟩

/-- An instance of C15: `[1, 2]` at capacity 2, elements of four bytes and an allocator
that refuses 16 bytes or more. -/
theorem allocation_failure_is_atomic_witness :
    (⟨⟨some 0, 2⟩, 2⟩ : Vector).Capacity < 4 ∧
    Vector.PushBack (⟨true, true, true, fun _ => false, fun _ => false, fun x => x, some 0,
        4, fun b => decide (b < 16)⟩ : Env Nat) ⟨⟨some 0, 2⟩, 2⟩ 3 [some [some 1, some 2]]
      = .throw ([some [some 1, some 2]], ⟨⟨some 0, 2⟩, 2⟩) :=
  ⟨by decide,
    (allocation_failure_is_atomic (⟨true, true, true, fun _ => false, fun _ => false,
        fun x => x, some 0, 4, fun b => decide (b < 16)⟩ : Env Nat) [some [some 1, some 2]]
      ⟨⟨some 0, 2⟩, 2⟩ 4 (by decide) rfl).2.2 rfl rfl |>.2.2.2.2.1 3⟩

/-- Claim C17 as stated fails at the end position: on `[1, 2, 3]` (capacity 4), the call
`Erase(end())` that `PopBack` makes returns the position with index 3 while the resulting
vector has size 2, so the returned position is not in `[begin(), end()]`. -/
theorem Erase_end_returns_past_new_end :
    Holds [some [some 1, some 2, some 3, none]] ⟨⟨some 0, 4⟩, 3⟩ [1, 2, 3] ∧
    (⟨⟨some 0, 4⟩, 3⟩ : Vector).end_ = some ⟨some 0, 3⟩ ∧
    Vector.Erase intEnv ⟨⟨some 0, 4⟩, 3⟩ ⟨some 0, 3⟩ [some [some 1, some 2, some 3, none]]
      = .ret ⟨some 0, 3⟩ ([some [some 1, some 2, none, none]], ⟨⟨some 0, 4⟩, 2⟩) ∧
    ¬ ((⟨some 0, 3⟩ : Ptr).off ≤ (⟨⟨some 0, 4⟩, 2⟩ : Vector).Size) :=
  ⟨⟨rfl, by decide, by decide, rfl⟩, by decide, by decide, by decide⟩

/-- Claim C17, amended: on a non-empty vector holding `es`, `Erase` at the position with
index `p ≤ |es|` returns the position with index `p`.  For `p < |es|` that position lies in
`[begin(), end()]` of the resulting vector, and for `p < |es| - 1` it holds the element
that followed `pos`.  For the end position `p = |es|`, the one `PopBack` passes, the
returned index is the old size, which is the new size plus one: within the capacity, but
behind the new `end()`. -/
theorem Erase_returns_position (E : Env α) (h : Heap α) (v : Vector) (es : List α) (p : Nat)
    (hv : Holds h v es) (hne : es ≠ []) (hp : p ≤ es.length) :
    ∃ h' v', Vector.Erase E v (v.begin.add p) h = .ret (v'.begin.add p) (h', v') ∧
      v'.Size = es.length - 1 ∧ v'.end_ = some (v'.begin.add v'.Size) ∧
      (p < es.length → p ≤ v'.Size) ∧
      (p + 1 < es.length → h'.read (v'.begin.add p) = es[p + 1]?) ∧
      (p = es.length → p = v'.Size + 1 ∧ p ≤ v'.Capacity) := by
  have hpos : 0 < es.length := List.length_pos.mpr hne
  have hcap : es.length ≤ v.data_.capacity_ := hv.2.1
  by_cases hpe : p = es.length
  · subst hpe
    obtain ⟨h', h1, h2, _⟩ := Erase_end_of_Holds E hv hne
    refine ⟨h', ⟨v.data_, es.length - 1⟩, by rw [begin_add, begin_add]; exact h1, rfl, ?_,
      fun hh => by omega,
      fun hh => by omega, fun _ => ⟨?_, hcap⟩⟩
    · rw [begin_add]
      simp [Vector.end_, RawMemory.operator_plus, Vector.Size]
      omega
    · simp only [Vector.Size]; omega
  · have hlt : p < es.length := by omega
    obtain ⟨h', h1, h2, _⟩ := Erase_of_Holds E hv hlt
    refine ⟨h', ⟨v.data_, es.length - 1⟩, by rw [begin_add, begin_add]; exact h1, rfl, ?_,
      fun _ => by simp only [Vector.Size]; omega, fun hh => ?_, fun hh => absurd hh hpe⟩
    · rw [begin_add]
      simp [Vector.end_, RawMemory.operator_plus, Vector.Size]
      omega
    · have hl : p < (es.eraseIdx p).length := by
        rw [List.length_eraseIdx_of_lt hlt]; omega
      rw [begin_add]
      have := Holds_read h2 hl
      simp only at this
      rw [this, List.eraseIdx_eq_take_drop_succ, erase_getElem?, if_neg (by omega)]

/-- An instance of the amended C17: `Erase` at index 1 of `[1, 2, 3, 4]`. -/
theorem Erase_returns_position_witness :
    Holds [some [some 1, some 2, some 3, some 4]] ⟨⟨some 0, 4⟩, 4⟩ [1, 2, 3, 4] ∧
    ∃ h' v', Vector.Erase intEnv ⟨⟨some 0, 4⟩, 4⟩ ((⟨⟨some 0, 4⟩, 4⟩ : Vector).begin.add 1)
        [some [some 1, some 2, some 3, some 4]] = .ret (v'.begin.add 1) (h', v') ∧
      v'.Size = [1, 2, 3, 4].length - 1 ∧ v'.end_ = some (v'.begin.add v'.Size) ∧
      (1 < [1, 2, 3, 4].length → 1 ≤ v'.Size) ∧
      (1 + 1 < [1, 2, 3, 4].length → h'.read (v'.begin.add 1) = [1, 2, 3, 4][1 + 1]?) ∧
      (1 = [1, 2, 3, 4].length → 1 = v'.Size + 1 ∧ 1 ≤ v'.Capacity) :=
  ⟨⟨rfl, by decide, by decide, rfl⟩,
    Erase_returns_position intEnv [some [some 1, some 2, some 3, some 4]] ⟨⟨some 0, 4⟩, 4⟩
      [1, 2, 3, 4] 1 ⟨rfl, by decide, by decide, rfl⟩ (by decide) (by decide)⟩

theorem assign_loop_of_block {a b ca cb : Nat} (hab : a ≠ b) (B : Block α) :
    ∀ (k i : Nat) (h : Heap α) (A : Block α),
    h.block a = some A → h.block b = some B →
    (∀ j, j < k → Live A (i + j)) → (∀ j, j < k → Live B (i + j)) →
    i + k ≤ ca → i + k ≤ cb →
    ∃ A', assign_loop ⟨some a, ca⟩ ⟨some b, cb⟩ k i h = .ret () (h.set a (some A')) ∧
      A'.length = A.length ∧
      ∀ t, A'[t]? = if i ≤ t ∧ t < i + k then B[t]? else A[t]? := by
  intro k
  induction k with
  | zero =>
    intro i h A ha _ _ _ _ _
    refine ⟨A, ?_, rfl, ?_⟩
    · simp [assign_loop, Heap.set_block_self ha]
    · intro t
      rw [if_neg (by omega)]
  | succ k ih =>
    intro i h A ha hb hla hlb hca hcb
    obtain ⟨x, hx⟩ := hlb 0 (by omega)
    obtain ⟨y, hy⟩ := hla 0 (by omega)
    simp only [Nat.add_zero] at hx hy
    have hil : i < A.length := Live.lt ⟨y, hy⟩
    have hal := Heap.block_lt ha
    obtain ⟨A', h1, h2, h3⟩ := ih (i + 1) (h.set a (some (A.set i (some x)))) (A.set i (some x))
      (Heap.block_set_same _ hal)
      (by rw [Heap.block_set_other _ hab]; exact hb)
      (by
        intro j hj
        obtain ⟨z, hz⟩ := hla (j + 1) (by omega)
        exact ⟨z, by rw [List.getElem?_set_ne (by omega), ← hz]; congr 1; omega⟩)
      (by
        intro j hj
        obtain ⟨z, hz⟩ := hlb (j + 1) (by omega)
        exact ⟨z, by rw [← hz]; congr 1; omega⟩)
      (by omega) (by omega)
    refine ⟨A', ?_, by simpa using h2, ?_⟩
    · simp [assign_loop, RawMemory.operator_index, show i < ca by omega, show i < cb by omega,
        copy_assign, Heap.read_of_block ha, Heap.read_of_block hb, hx, hy,
        Heap.store_of_block ha hil, h1, List.set_set]
    · intro t
      rw [h3 t, List.getElem?_set]
      by_cases h4 : i = t
      · subst h4
        rw [if_neg (by omega), if_pos rfl, if_pos hil, if_pos (by omega), hx]
      · rw [if_neg h4]
        by_cases h5 : i + 1 ≤ t ∧ t < i + 1 + k
        · rw [if_pos h5, if_pos (by omega)]
        · rw [if_neg h5, if_neg (by omega)]

theorem Vector_destructor_of_Holds {h : Heap α} {v : Vector} {es : List α}
    (hv : Holds h v es) :
    ∃ h', v.destructor h = some h' ∧ h'.length = h.length ∧
      ∀ c, some c ≠ v.data_.buffer_ → h'.block c = h.block c := by
  obtain ⟨⟨buf, c⟩, n⟩ := v
  obtain ⟨h1, h2, h3⟩ := hv
  simp only at h1 h2 h3
  subst h1
  cases buf with
  | none =>
    simp only at h3
    have : es.length = 0 := by omega
    refine ⟨h, ?_, rfl, fun _ _ => rfl⟩
    simp [Vector.destructor, RawMemory.GetAddress, this, destroy_n, RawMemory.destructor,
      RawMemory.Deallocate]
  | some a =>
    simp only at h3
    obtain ⟨_, h4⟩ := h3
    have hal := Heap.block_lt h4
    obtain ⟨A', g1, _, _⟩ := destroy_n_of_block a es.length 0 h (vecBlock es c) h4
      (by
        intro j hj
        obtain ⟨x, hx, _, _⟩ := vecBlock_live es c (show 0 + j < es.length by omega)
        exact ⟨x, hx⟩)
    have ha2 : Heap.block (h.set a (some A')) a = some A' := Heap.block_set_same _ hal
    refine ⟨h.set a none, ?_, by simp, ?_⟩
    · simp [Vector.destructor, RawMemory.GetAddress, g1, RawMemory.destructor,
        RawMemory.Deallocate, ha2, List.set_set]
    · intro c' hc'
      exact Heap.block_set_other _ (by intro hh; subst hh; exact hc' rfl)

theorem assign_copy_and_swap_of_Holds (E : Env α) {h : Heap α} {a b : Vector}
    {as bs : List α} (ha : Holds h a as) (hb : Holds h b bs)
    (hdisj : a.data_.buffer_ = none ∨ a.data_.buffer_ ≠ b.data_.buffer_)
    (hbr : b.size_ > a.data_.capacity_) (halloc : E.alloc_ok b.size_ = true)
    (hcopy : ∀ e, e ∈ bs → E.copy_throws e = false) :
    ∃ h' a', Vector.operator_assign_copy E a b h = .ret () (h', a') ∧ Holds h' a' bs ∧
      Holds h' b bs ∧ a'.size_ = b.size_ ∧ a'.data_.capacity_ = b.size_ := by
  obtain ⟨h1, cp, g1, g2, g3, g4, g5, g6, g7⟩ := Vector_copy_of E hb (fun _ => halloc) hcopy
  have ha1 : Holds h1 a as := Holds_frame ha (fun c hc => g7 c (Holds_buffer_lt ha hc.symm))
  obtain ⟨h2, k1, k2, k3⟩ := Vector_destructor_of_Holds ha1
  have hbn : bs.length ≠ 0 := by have := hb.1; omega
  have hcpb : ∃ c, cp.data_.buffer_ = some c ∧ c = h.length := by
    cases hcb : cp.data_.buffer_ with
    | none =>
      have := g2.2.2
      rw [hcb] at this
      simp only at this
      have := g2.2.1
      omega
    | some c => exact ⟨c, rfl, (g6 c hcb).1⟩
  obtain ⟨c, hc1, hc2⟩ := hcpb
  refine ⟨h2, cp, ?_, ?_, ?_, g4, g5⟩
  · simp only [Vector.operator_assign_copy, RawMemory.Capacity, hbr, if_true, g1, Vector.Swap,
      RawMemory.Swap]
    have e1 : (⟨⟨a.data_.buffer_, a.data_.capacity_⟩, a.size_⟩ : Vector) = a := rfl
    have e2 : (⟨⟨cp.data_.buffer_, cp.data_.capacity_⟩, cp.size_⟩ : Vector) = cp := rfl
    rw [e1, e2, k1]
  · refine Holds_frame g2 (fun c' hc' => k3 c' ?_)
    intro hh
    rw [hc1] at hc'
    simp only [Option.some.injEq] at hc'
    have := Holds_buffer_lt ha hh.symm
    omega
  · refine Holds_frame g3 (fun c' hc' => k3 c' ?_)
    intro hh
    rcases hdisj with hd | hd
    · rw [hd] at hh; simp at hh
    · exact hd (hh.symm.trans hc')

theorem assign_reuse_of_Holds (E : Env α) {h : Heap α} {a b : Vector}
    {as bs : List α} (ha : Holds h a as) (hb : Holds h b bs)
    (hdisj : a.data_.buffer_ = none ∨ a.data_.buffer_ ≠ b.data_.buffer_)
    (hbr : b.size_ ≤ a.data_.capacity_)
    (hcopy : ∀ e, e ∈ bs → E.copy_throws e = false) :
    ∃ h', Vector.operator_assign_copy E a b h = .ret () (h', ⟨a.data_, b.size_⟩) ∧
      Holds h' ⟨a.data_, b.size_⟩ bs ∧ Holds h' b bs := by
  obtain ⟨⟨abuf, ca⟩, na⟩ := a
  obtain ⟨⟨bbuf, cb⟩, nb⟩ := b
  have ha0 := ha
  have hb0 := hb
  obtain ⟨a1, a2, a3⟩ := ha
  obtain ⟨b1, b2, b3⟩ := hb
  simp only at a1 a2 a3 b1 b2 b3 hbr hdisj
  subst a1
  subst b1
  by_cases hbn : bs.length = 0
  · have hbs : bs = [] := List.eq_nil_of_length_eq_zero hbn
    subst hbs
    by_cases han : as.length = 0
    · have has : as = [] := List.eq_nil_of_length_eq_zero han
      subst has
      refine ⟨h, ?_, ha0, hb0⟩
      simp [Vector.operator_assign_copy, RawMemory.Capacity, assign_loop,
        RawMemory.operator_plus, uninitialized_copy_n, uninitialized_copy_loop]
    · cases abuf with
      | none => simp only at a3; omega
      | some a =>
        simp only at a3
        obtain ⟨a3, a4⟩ := a3
        obtain ⟨A', g1, _, g3⟩ := destroy_n_of_block a as.length 0 h (vecBlock as ca) a4
          (by
            intro j hj
            obtain ⟨x, hx, _, _⟩ := vecBlock_live as ca (show 0 + j < as.length by omega)
            exact ⟨x, hx⟩)
        have e1 : A' = vecBlock ([] : List α) ca := by
          apply eq_vecBlock
          intro t
          rw [g3 t, vecBlock_getElem?]
          simp only [List.length_nil]
          split_ifs <;> first | rfl | (exfalso; omega)
        have hfr : ∀ c', some c' ≠ some a →
            Heap.block (h.set a (some (vecBlock ([] : List α) ca))) c' = h.block c' :=
          fun c' hc' => Heap.block_set_other _ (by intro hh; subst hh; exact hc' rfl)
        refine ⟨h.set a (some (vecBlock [] ca)), ?_, ?_, ?_⟩
        · rw [e1] at g1
          simp [Vector.operator_assign_copy, RawMemory.Capacity, assign_loop,
            RawMemory.operator_plus, Nat.pos_of_ne_zero han, g1]
        · exact ⟨rfl, by simp, a3, Heap.block_set_same _ (Heap.block_lt a4)⟩
        · refine Holds_frame hb0 (fun c' hc' => hfr c' ?_)
          intro hh
          rcases hdisj with hd | hd
          · simp at hd
          · exact hd (hh.symm.trans hc')
  · cases bbuf with
    | none => simp only at b3; omega
    | some b =>
      cases abuf with
      | none => simp only at a3; omega
      | some a =>
        simp only at a3 b3
        obtain ⟨a3, a4⟩ := a3
        obtain ⟨b3, b4⟩ := b3
        have hab : a ≠ b := by
          rcases hdisj with hd | hd
          · simp at hd
          · intro hh; subst hh; exact hd rfl
        have hal := Heap.block_lt a4
        have hlive_a : ∀ t, t < as.length → Live (vecBlock as ca) t := by
          intro t ht
          obtain ⟨x, hx, _, _⟩ := vecBlock_live as ca ht
          exact ⟨x, hx⟩
        have hlive_b : ∀ t, t < bs.length → Live (vecBlock bs cb) t := by
          intro t ht
          obtain ⟨x, hx, _, _⟩ := vecBlock_live bs cb ht
          exact ⟨x, hx⟩
        have hfr : ∀ (X : Block α) c', some c' ≠ some a →
            Heap.block (h.set a (some X)) c' = h.block c' :=
          fun X c' hc' => Heap.block_set_other _ (by intro hh; subst hh; exact hc' rfl)
        have hbframe : ∀ X : Block α, Holds (h.set a (some X)) ⟨⟨some b, cb⟩, bs.length⟩ bs :=
          fun X => Holds_frame hb0 (fun c' hc' => hfr X c' (by
            intro hh
            simp only [Option.some.injEq] at hc' hh
            omega))
        by_cases hgt : as.length > bs.length
        · obtain ⟨A1, g1, _, g3⟩ := @assign_loop_of_block _ _ _ ca cb hab
            (vecBlock bs cb) bs.length 0 h (vecBlock as ca) a4 b4
            (fun j hj => hlive_a _ (by omega)) (fun j hj => hlive_b _ (by omega))
            (by omega) (by omega)
          obtain ⟨A2, k1, _, k3⟩ := destroy_n_of_block a (as.length - bs.length) bs.length
            (h.set a (some A1)) A1 (Heap.block_set_same _ hal)
            (by
              intro j hj
              obtain ⟨x, hx⟩ := hlive_a (bs.length + j) (by omega)
              exact ⟨x, by rw [g3, if_neg (by omega)]; exact hx⟩)
          have e1 : A2 = vecBlock bs ca := by
            apply eq_vecBlock
            intro t
            rw [k3 t, g3 t, vecBlock_getElem?, vecBlock_getElem?]
            split_ifs <;> first | rfl | (exfalso; omega)
          refine ⟨h.set a (some (vecBlock bs ca)), ?_, ?_, hbframe _⟩
          · rw [List.set_set, e1] at k1
            simp [Vector.operator_assign_copy, RawMemory.Capacity, hbr, hgt, g1,
              RawMemory.operator_plus, k1]
          · exact ⟨rfl, hbr, a3, Heap.block_set_same _ hal⟩
        · obtain ⟨A1, g1, g2, g3⟩ := @assign_loop_of_block _ _ _ ca cb hab
            (vecBlock bs cb) as.length 0 h (vecBlock as ca) a4 b4
            (fun j hj => hlive_a _ (by omega)) (fun j hj => hlive_b _ (by omega))
            (by omega) (by omega)
          obtain ⟨A2, k1, _, k3⟩ := uninitialized_copy_loop_of_block E b a as.length
            (Ne.symm hab) (bs.length - as.length) as.length 0 (h.set a (some A1))
            (vecBlock bs cb) A1
            (by rw [Heap.block_set_other _ hab]; exact b4)
            (Heap.block_set_same _ hal)
            (by
              intro j hj
              obtain ⟨x, hx, hm, _⟩ := vecBlock_live bs cb (show as.length + j < bs.length by
                omega)
              exact ⟨x, hx, hcopy x hm⟩)
            (by rw [g2, vecBlock_length as a2]; omega)
          have e1 : A2 = vecBlock bs ca := by
            apply eq_vecBlock
            intro t
            simp only [Nat.add_zero] at k3
            rw [k3 t, g3 t]
            simp only [vecBlock_getElem?]
            by_cases h9 : as.length ≤ t
            · have e0 : as.length + (t - as.length) = t := by omega
              rw [e0]
              split_ifs <;> first | rfl | (exfalso; omega)
            · split_ifs <;> first | rfl | (exfalso; omega)
          refine ⟨h.set a (some (vecBlock bs ca)), ?_, ?_, hbframe _⟩
          · rw [List.set_set, e1] at k1
            simp [Vector.operator_assign_copy, RawMemory.Capacity, hbr, hgt, g1,
              RawMemory.operator_plus, show as.length ≤ cb by omega, a2, uninitialized_copy_n,
              k1]
          · exact ⟨rfl, hbr, a3, Heap.block_set_same _ hal⟩

/-- Claim C11: for two distinct vectors, `a` holding `as` and `b` holding `bs` in buffers of
their own, the copy assignment `a = b` leaves `a` holding `bs` with `Size() == b.Size()`
and leaves `b` as it was; the capacity of `a` is `b.Size()` when `b.Size()` exceeded the old
capacity of `a` (copy-and-swap) and the old capacity otherwise, in which case `a` keeps its
buffer, whether `a` was shorter or longer than `b`.  No copy constructor call on an element
of `b` throws and the buffer request, if one is made, succeeds. -/
theorem copy_assign_copies (E : Env α) (h : Heap α) (a b : Vector) (as bs : List α)
    (ha : Holds h a as) (hb : Holds h b bs)
    (hdisj : a.data_.buffer_ = none ∨ a.data_.buffer_ ≠ b.data_.buffer_)
    (halloc : a.Capacity < b.Size → E.alloc_ok b.Size = true)
    (hcopy : ∀ e, e ∈ bs → E.copy_throws e = false) :
    ∃ h' a', Vector.operator_assign_copy E a b h = .ret () (h', a') ∧ Holds h' a' bs ∧
      Holds h' b bs ∧ a'.Size = b.Size ∧
      a'.Capacity = (if b.Size > a.Capacity then b.Size else a.Capacity) ∧
      (b.Size ≤ a.Capacity → a'.data_ = a.data_) := by
  simp only [Vector.Size, Vector.Capacity, RawMemory.Capacity] at halloc ⊢
  by_cases hbr : b.size_ > a.data_.capacity_
  · obtain ⟨h', a', g1, g2, g3, g4, g5⟩ :=
      assign_copy_and_swap_of_Holds E ha hb hdisj hbr (halloc hbr) hcopy
    exact ⟨h', a', g1, g2, g3, g4, by rw [if_pos hbr]; exact g5, fun hh => by omega⟩
  · obtain ⟨h', g1, g2, g3⟩ := assign_reuse_of_Holds E ha hb hdisj (by omega) hcopy
    exact ⟨h', _, g1, g2, g3, rfl, by rw [if_neg hbr], fun _ => rfl⟩

/-- An instance of C11: `a` holds `[7]` at capacity 1, `b` holds `[1, 2]` at capacity 4. -/
theorem copy_assign_copies_witness :
    Holds [some [some 7], some [some 1, some 2, none, none]] ⟨⟨some 0, 1⟩, 1⟩ [7] ∧
    Holds [some [some 7], some [some 1, some 2, none, none]] ⟨⟨some 1, 4⟩, 2⟩ [1, 2] ∧
    ∃ h' a', Vector.operator_assign_copy intEnv ⟨⟨some 0, 1⟩, 1⟩ ⟨⟨some 1, 4⟩, 2⟩
        [some [some 7], some [some 1, some 2, none, none]] = .ret () (h', a') ∧
      Holds h' a' [1, 2] ∧ Holds h' ⟨⟨some 1, 4⟩, 2⟩ [1, 2] ∧
      a'.Size = (⟨⟨some 1, 4⟩, 2⟩ : Vector).Size ∧
      a'.Capacity = (if (⟨⟨some 1, 4⟩, 2⟩ : Vector).Size > (⟨⟨some 0, 1⟩, 1⟩ : Vector).Capacity
        then (⟨⟨some 1, 4⟩, 2⟩ : Vector).Size else (⟨⟨some 0, 1⟩, 1⟩ : Vector).Capacity) ∧
      ((⟨⟨some 1, 4⟩, 2⟩ : Vector).Size ≤ (⟨⟨some 0, 1⟩, 1⟩ : Vector).Capacity →
        a'.data_ = (⟨⟨some 0, 1⟩, 1⟩ : Vector).data_) :=
  ⟨⟨rfl, by decide, by decide, rfl⟩, ⟨rfl, by decide, by decide, rfl⟩,
    copy_assign_copies intEnv [some [some 7], some [some 1, some 2, none, none]]
      ⟨⟨some 0, 1⟩, 1⟩ ⟨⟨some 1, 4⟩, 2⟩ [7] [1, 2] ⟨rfl, by decide, by decide, rfl⟩
      ⟨rfl, by decide, by decide, rfl⟩ (Or.inr (by decide)) (fun _ => rfl) (fun _ _ => rfl)⟩

theorem Heap.live_count_of_Holds {h : Heap α} {v : Vector} {es : List α} (hv : Holds h v es) :
    h.live_count v.data_.buffer_ = es.length := by
  obtain ⟨⟨buf, c⟩, n⟩ := v
  obtain ⟨h1, h2, h3⟩ := hv
  simp only at h1 h2 h3
  cases buf with
  | none =>
    simp only at h3
    have : es.length = 0 := by omega
    simp [Heap.live_count, this]
  | some a =>
    simp only at h3
    simp only [Heap.live_count, h3.2, vecBlock, List.countP_append, List.countP_map]
    have e1 : List.countP (Option.isSome ∘ some) es = es.length := by
      rw [List.countP_eq_length]
      intro x _
      rfl
    have e2 : List.countP Option.isSome
        (List.replicate (c - es.length) (none : Slot α)) = 0 := by
      rw [List.countP_eq_zero]
      intro x hx
      rw [List.eq_of_mem_replicate hx]
      simp
    rw [e1, e2]
    rfl

theorem Heap.live_count_fresh (h : Heap α) : h.live_count (some h.length) = 0 := by
  have : h.block h.length = none := by
    simp [Heap.block]
  simp [Heap.live_count, this]

theorem Emplace_heap_of_Holds (E : Env α) {h : Heap α} {v : Vector} {es : List α} (p : Nat)
    (x : α) (hv : Holds h v es) (hp : p ≤ es.length)
    (halloc : v.size_ = v.data_.capacity_ →
      E.alloc_ok (if v.size_ = 0 then 1 else v.size_ * 2) = true)
    (hcopy : ∀ e, e ∈ es → E.copy_throws e = false)
    (hmove : ∀ e, e ∈ es → E.move_throws e = false) :
    ∀ r h' v', Vector.Emplace E v ⟨v.data_.buffer_, p⟩ (some x) h = .ret r (h', v') →
      h'.length = h.length + (if v.size_ = v.data_.capacity_ then 1 else 0) ∧
      (v.size_ = v.data_.capacity_ → v'.data_.buffer_ = some h.length) := by
  obtain ⟨⟨buf, c⟩, n⟩ := v
  obtain ⟨h1, h2, h3⟩ := hv
  simp only at h1 h2 h3 halloc
  subst h1
  cases buf with
  | none =>
    simp only at h3
    subst h3
    have h4 : es = [] := List.eq_nil_of_length_eq_zero (by omega)
    subst h4
    have h5 : p = 0 := by simpa using hp
    subst h5
    have := Emplace_grow_of_null E h x (by simpa using halloc)
    intro r h' v' hr
    simp only [List.length_nil] at this hr
    simp [Vector.Emplace, Vector.begin, RawMemory.GetAddress, Vector.Capacity,
      RawMemory.Capacity, this, RawMemory.operator_plus] at hr
    obtain ⟨_, hr1, hr2⟩ := hr
    subst hr1 hr2
    simp
  | some a =>
    simp only at h3
    obtain ⟨h3, h4⟩ := h3
    have hal := Heap.block_lt h4
    by_cases h5 : es.length = c
    · subst h5
      have h6 := Emplace_grow_of_block E x h3 h4 hp (by simpa [h3] using halloc) hcopy hmove
      intro r h' v' hr
      simp [Vector.Emplace, Vector.begin, RawMemory.GetAddress, Vector.Capacity,
        RawMemory.Capacity, h6, RawMemory.operator_plus, show p ≤ es.length * 2 by omega] at hr
      obtain ⟨_, hr1, hr2⟩ := hr
      subst hr1 hr2
      simp
    · have h6 := Emplace_inplace_of_block E x (show es.length < c by omega) h4 hp hcopy hmove
      intro r h' v' hr
      simp [Vector.Emplace, Vector.begin, RawMemory.GetAddress, Vector.Capacity,
        RawMemory.Capacity, h5, h6, RawMemory.operator_plus, show p ≤ c by omega] at hr
      obtain ⟨_, hr1, hr2⟩ := hr
      subst hr1 hr2
      simp [h5]

theorem PushBack_cost_of_Holds (E : Env α) {h : Heap α} {v : Vector} {es : List α} (x : α)
    (hv : Holds h v es)
    (halloc : v.size_ = v.data_.capacity_ →
      E.alloc_ok (if v.size_ = 0 then 1 else v.size_ * 2) = true)
    (hcopy : ∀ e, e ∈ es → E.copy_throws e = false)
    (hmove : ∀ e, e ∈ es → E.move_throws e = false)
    (hx : E.copy_throws x = false) :
    ∃ h' v', Vector.PushBack E v x h = .ret () (h', v') ∧ Holds h' v' (es ++ [x]) ∧
      v'.data_.capacity_ = (if v.size_ = v.data_.capacity_ then
        (if v.size_ = 0 then 1 else v.size_ * 2) else v.data_.capacity_) ∧
      h'.length = h.length + (if v.size_ = v.data_.capacity_ then 1 else 0) ∧
      PushBack_cost (h, v) (h', v')
        = (if v.size_ = v.data_.capacity_ then (1, es.length) else (0, 0)) := by
  obtain ⟨h', v', g1, g2, _, g4, g5, _⟩ := PushBack_of_Holds E x hv halloc hcopy hmove
  obtain ⟨h1, v1, k1, _, _, k4, _⟩ :=
    Emplace_of_Holds E es.length x hv (le_refl _) halloc hcopy hmove
  have k6 := Emplace_heap_of_Holds E es.length x hv (le_refl _) halloc hcopy hmove
  have e1 : Vector.Emplace E v ⟨v.data_.buffer_, es.length⟩ (some x) h
      = .ret ⟨v'.data_.buffer_, es.length⟩ (h', v') := by
    rw [← g1, Vector.EmplaceBack, end_of_Holds hv]
  obtain ⟨m1, m2⟩ := k6 _ _ _ e1
  have e2 : v1 = v' ∧ h1 = h' := by
    rw [k1] at e1
    simp only [Outcome.ret.injEq, Prod.mk.injEq] at e1
    exact ⟨e1.2.2, e1.2.1⟩
  obtain ⟨e3, e4⟩ := e2
  subst e3 e4
  refine ⟨h1, v1, g2 hx, g4, g5, m1, ?_⟩
  have l1 : h1.live_count v1.data_.buffer_ = es.length + 1 := by
    rw [Heap.live_count_of_Holds g4]; simp
  by_cases hfull : v.size_ = v.data_.capacity_
  · rw [m2 hfull] at l1
    simp only [PushBack_cost, m1, m2 hfull, l1, Heap.live_count_fresh, hfull, if_true]
    simp
  · rw [k4 hfull] at l1
    simp only [PushBack_cost, m1, k4 hfull, l1, Heap.live_count_of_Holds hv, hfull, if_false]
    simp

theorem PushBack_all_counted_of_Holds (E : Env α) :
    ∀ (xs : List α) (h : Heap α) (v : Vector) (es : List α) (c g : Nat), Holds h v es →
    v.data_.capacity_ = 2 ^ c → es.length ≤ 2 ^ c → 2 ^ c < 2 * es.length →
    (∀ k, es.length ≤ k → k < es.length + xs.length →
      E.alloc_ok (if k = 0 then 1 else k * 2) = true) →
    (∀ e, e ∈ es ++ xs → E.copy_throws e = false) →
    (∀ e, e ∈ es ++ xs → E.move_throws e = false) →
    ∃ h' v' c', PushBack_all_counted E xs (h, v) (g + c, 2 ^ c - 1)
        = .ret (g + c', 2 ^ c' - 1) (h', v') ∧ Holds h' v' (es ++ xs) ∧
      v'.data_.capacity_ = 2 ^ c' ∧ (es ++ xs).length ≤ 2 ^ c' ∧
      2 ^ c' < 2 * (es ++ xs).length ∧ h'.length + c = h.length + c' := by
  intro xs
  induction xs with
  | nil =>
    intro h v es c g hv hc h1 h2 _ _ _
    exact ⟨h, v, c, rfl, by simpa using hv, hc, by simpa using h1, by simpa using h2, rfl⟩
  | cons x xs ih =>
    intro h v es c g hv hc h1 h2 halloc hcopy hmove
    have hsz : v.size_ = es.length := hv.1
    obtain ⟨h', v', g2, g4, g5, g6, g7⟩ := PushBack_cost_of_Holds E x hv
      (fun _ => by rw [hsz]; exact halloc es.length (le_refl _) (by simp))
      (fun e he => hcopy e (by simp [he])) (fun e he => hmove e (by simp [he]))
      (hcopy x (by simp))
    have hpos : 0 < es.length := by
      have : 0 < 2 ^ c := Nat.two_pow_pos _
      omega
    have hl : (es ++ [x]).length = es.length + 1 := by simp
    have hal' : ∀ k, (es ++ [x]).length ≤ k → k < (es ++ [x]).length + xs.length →
        E.alloc_ok (if k = 0 then 1 else k * 2) = true :=
      fun k hk1 hk2 => halloc k (by rw [hl] at hk1; omega)
        (by rw [hl] at hk2; simp only [List.length_cons]; omega)
    by_cases hfull : v.size_ = v.data_.capacity_
    · have hcap' : v'.data_.capacity_ = 2 ^ (c + 1) := by
        rw [g5, if_pos hfull, if_neg (by omega), pow_succ, ← hc, ← hfull]
      obtain ⟨h'', v'', c', k1, k2, k3, k4, k5, k6⟩ := ih h' v' (es ++ [x]) (c + 1) g g4 hcap'
        (by rw [hl, pow_succ]; omega) (by rw [hl, pow_succ]; omega) hal'
        (fun e he => hcopy e (by simpa using he)) (fun e he => hmove e (by simpa using he))
      refine ⟨h'', v'', c', ?_, by simpa using k2, k3, by simpa using k4, by simpa using k5,
        by rw [g6, if_pos hfull] at k6; omega⟩
      have e1 : (2 ^ c - 1 + es.length : Nat) = 2 ^ (c + 1) - 1 := by
        rw [pow_succ]
        have : 0 < 2 ^ c := Nat.two_pow_pos _
        omega
      simp only [PushBack_all_counted, g2, g7, if_pos hfull, e1, Nat.add_assoc]
      exact k1
    · have hcap' : v'.data_.capacity_ = 2 ^ c := by
        rw [g5, if_neg hfull, hc]
      obtain ⟨h'', v'', c', k1, k2, k3, k4, k5, k6⟩ := ih h' v' (es ++ [x]) c g g4 hcap'
        (by rw [hl]; omega) (by rw [hl]; omega) hal'
        (fun e he => hcopy e (by simpa using he)) (fun e he => hmove e (by simpa using he))
      refine ⟨h'', v'', c', ?_, by simpa using k2, k3, by simpa using k4, by simpa using k5,
        by rw [g6, if_neg hfull] at k6; omega⟩
      simp only [PushBack_all_counted, g2, g7, if_neg hfull, Nat.add_zero]
      exact k1

/-- Claim C13: `N ≥ 1` consecutive `PushBack` calls on the empty vector obtain a new block,
that is take the reallocating growth path, exactly `⌈log₂ N⌉ + 1` times (the heap ends
that many blocks longer), leave the capacity `2 ^ ⌈log₂ N⌉`, the least power of two that is
at least `N`, relocate `2 ^ ⌈log₂ N⌉ - 1 < 2 N` elements in all, and leave the `N` values
in the vector.  Both counts are read off the heap before and after each call
(`PushBack_cost`).  No constructor call throws and every buffer request of the growth path
succeeds. -/
theorem PushBack_amortized (E : Env α) (h : Heap α) (xs : List α) (hN : 1 ≤ xs.length)
    (halloc : ∀ k, k < xs.length → E.alloc_ok (if k = 0 then 1 else k * 2) = true)
    (hcopy : ∀ e, e ∈ xs → E.copy_throws e = false)
    (hmove : ∀ e, e ∈ xs → E.move_throws e = false) :
    ∃ h' v' g r, PushBack_all_counted E xs (h, Vector.Vector_default) (0, 0)
        = .ret (g, r) (h', v') ∧
      g = Nat.clog 2 xs.length + 1 ∧ g ≤ Nat.clog 2 xs.length + 1 ∧
      h'.length = h.length + g ∧
      v'.Capacity = 2 ^ Nat.clog 2 xs.length ∧ xs.length ≤ v'.Capacity ∧
      (∀ j, xs.length ≤ 2 ^ j → v'.Capacity ≤ 2 ^ j) ∧
      r + 1 = 2 ^ Nat.clog 2 xs.length ∧ r < 2 * xs.length ∧ Holds h' v' xs := by
  cases xs with
  | nil => simp at hN
  | cons x xs =>
    have hv0 : Holds h Vector.Vector_default ([] : List α) := ⟨rfl, by simp, rfl⟩
    obtain ⟨h1, v1, g2, g4, g5, g6, g7⟩ := PushBack_cost_of_Holds E x hv0
      (fun _ => halloc 0 (by simp))
      (fun e he => by simp at he) (fun e he => by simp at he) (hcopy x (by simp))
    have hcap1 : v1.data_.capacity_ = 2 ^ 0 := by
      rw [g5]; rfl
    have hfull0 : (Vector.Vector_default).size_ = (Vector.Vector_default).data_.capacity_ := rfl
    rw [if_pos hfull0] at g6 g7
    obtain ⟨h', v', c', k1, k2, k3, k4, k5, k6⟩ := PushBack_all_counted_of_Holds E xs h1 v1
      ([] ++ [x]) 0 1 g4 hcap1 (by simp) (by simp)
      (fun k hk1 hk2 => halloc k (by simp at hk2 ⊢; omega))
      (fun e he => hcopy e (by simpa using he)) (fun e he => hmove e (by simpa using he))
    simp only [List.nil_append, List.singleton_append] at k2 k4 k5
    have hc' : Nat.clog 2 (x :: xs).length = c' := by
      apply le_antisymm
      · exact (Nat.le_pow_iff_clog_le (by decide)).mp k4
      · cases c' with
        | zero => exact Nat.zero_le _
        | succ d =>
          have : 2 ^ d < (x :: xs).length := by
            rw [pow_succ] at k5; omega
          exact (Nat.pow_lt_iff_lt_clog (by decide)).mp this
    have hpos : 0 < 2 ^ c' := Nat.two_pow_pos _
    refine ⟨h', v', c' + 1, 2 ^ c' - 1, ?_, by rw [hc'], by rw [hc'], by omega,
      by rw [hc']; exact k3,
      by rw [Vector.Capacity, RawMemory.Capacity, k3]; exact k4, ?_, by rw [hc']; omega,
      by omega, k2⟩
    · simp only [PushBack_all_counted, g2, g7]
      simp only [Nat.zero_add, List.length_nil, Nat.add_zero] at k1 ⊢
      rw [Nat.add_comm c' 1]
      exact k1
    · intro j hj
      rw [Vector.Capacity, RawMemory.Capacity, k3]
      apply Nat.pow_le_pow_right (by decide)
      rw [← hc']
      exact (Nat.le_pow_iff_clog_le (by decide)).mp hj

/-- An instance of C13: five `PushBack` calls obtain 4 blocks, end at capacity 8 and
relocate 7 elements. -/
theorem PushBack_amortized_witness :
    1 ≤ [1, 2, 3, 4, 5].length ∧
    ∃ h' v' g r, PushBack_all_counted intEnv [1, 2, 3, 4, 5] ([], Vector.Vector_default) (0, 0)
        = .ret (g, r) (h', v') ∧
      g = Nat.clog 2 [1, 2, 3, 4, 5].length + 1 ∧ g ≤ Nat.clog 2 [1, 2, 3, 4, 5].length + 1 ∧
      h'.length = ([] : Heap Nat).length + g ∧
      v'.Capacity = 2 ^ Nat.clog 2 [1, 2, 3, 4, 5].length ∧
      [1, 2, 3, 4, 5].length ≤ v'.Capacity ∧
      (∀ j, [1, 2, 3, 4, 5].length ≤ 2 ^ j → v'.Capacity ≤ 2 ^ j) ∧
      r + 1 = 2 ^ Nat.clog 2 [1, 2, 3, 4, 5].length ∧ r < 2 * [1, 2, 3, 4, 5].length ∧
      Holds h' v' [1, 2, 3, 4, 5] :=
  ⟨by decide, PushBack_amortized intEnv [] [1, 2, 3, 4, 5] (by decide) (by decide)
    (fun _ _ => rfl) (fun _ _ => rfl)⟩

theorem Outcome.ok_with_no_assert {σ ρ : Type} {o : Outcome σ ρ} {R : ρ → σ → Prop}
    {T : σ → Prop} (ho : o.ok_with R T) : o.no_assert_fail := by
  cases o <;> simp_all [Outcome.ok_with, Outcome.no_assert_fail]

theorem Outcome.ok_with_keeps {ρ : Type} {o : Outcome (Heap α × Vector) ρ}
    {R : ρ → Heap α × Vector → Prop} {T : Heap α × Vector → Prop} (ho : o.ok_with R T)
    (hR : ∀ r s, R r s → s.2.size_ ≤ s.2.data_.capacity_)
    (hT : ∀ s, T s → s.2.size_ ≤ s.2.data_.capacity_) : o.keeps_invariant := by
  cases o with
  | ret r s => exact hR r s ho
  | throw s => exact hT s ho
  | fault => trivial
  | assert_fail => trivial

theorem Outcome.ok_with_mono {σ ρ : Type} {o : Outcome σ ρ} {R R' : ρ → σ → Prop}
    {T T' : σ → Prop} (ho : o.ok_with R T) (hR : ∀ r s, R r s → R' r s)
    (hT : ∀ s, T s → T' s) : o.ok_with R' T' := by
  cases o with
  | ret r s => exact hR r s ho
  | throw s => exact hT s ho
  | fault => trivial
  | assert_fail => exact ho

theorem uninitialized_copy_loop_ok (E : Env α) (d_first : Ptr) :
    ∀ (k : Nat) (first : Ptr) (i : Nat) (h : Heap α),
    (uninitialized_copy_loop E d_first k first i h).ok_with (fun _ _ => True)
      (fun _ => True) := by
  intro k
  induction k with
  | zero => intro first i h; simp [uninitialized_copy_loop, Outcome.ok_with]
  | succ k ih =>
    intro first i h
    unfold uninitialized_copy_loop
    cases h.read first with
    | none => simp [Outcome.ok_with]
    | some x =>
      simp only []
      by_cases hc : E.copy_throws x = true
      · rw [if_pos hc]
        cases destroy_n d_first i h <;> simp [Outcome.ok_with]
      · rw [if_neg hc]
        cases hcon : h.construct (d_first.add i) x with
        | none => simp [Outcome.ok_with]
        | some h1 => exact ih _ _ _

theorem uninitialized_move_loop_ok (E : Env α) (d_first : Ptr) :
    ∀ (k : Nat) (first : Ptr) (i : Nat) (h : Heap α),
    (uninitialized_move_loop E d_first k first i h).ok_with (fun _ _ => True)
      (fun _ => True) := by
  intro k
  induction k with
  | zero => intro first i h; simp [uninitialized_move_loop, Outcome.ok_with]
  | succ k ih =>
    intro first i h
    unfold uninitialized_move_loop
    cases h.read first with
    | none => simp [Outcome.ok_with]
    | some x =>
      simp only []
      by_cases hc : E.move_throws x = true
      · rw [if_pos hc]
        cases destroy_n d_first i h <;> simp [Outcome.ok_with]
      · rw [if_neg hc]
        cases h.store first (some (E.moved_from x)) with
        | none => simp [Outcome.ok_with]
        | some h1 =>
          simp only []
          cases h1.construct (d_first.add i) x with
          | none => simp [Outcome.ok_with]
          | some h2 => exact ih _ _ _

theorem uninitialized_value_construct_loop_ok (E : Env α) (first : Ptr) :
    ∀ (k : Nat) (i : Nat) (h : Heap α),
    (uninitialized_value_construct_loop E first k i h).ok_with (fun _ _ => True)
      (fun _ => True) := by
  intro k
  induction k with
  | zero => intro i h; simp [uninitialized_value_construct_loop, Outcome.ok_with]
  | succ k ih =>
    intro i h
    unfold uninitialized_value_construct_loop
    cases E.value_init with
    | none =>
      simp only []
      cases destroy_n first i h <;> simp [Outcome.ok_with]
    | some x =>
      simp only []
      cases h.construct (first.add i) x with
      | none => simp [Outcome.ok_with]
      | some h1 => exact ih _ _

theorem relocate_n_ok (E : Env α) (c : Bool) (first : Ptr) (n : Nat) (d_first : Ptr)
    (h : Heap α) :
    (if c then uninitialized_move_n E first n d_first h
      else uninitialized_copy_n E first n d_first h).ok_with (fun _ _ => True)
      (fun _ => True) := by
  split
  · exact uninitialized_move_loop_ok E _ _ _ _ _
  · exact uninitialized_copy_loop_ok E _ _ _ _ _

theorem RawMemory_sized_cases (E : Env α) (n : Nat) (h : Heap α) :
    RawMemory.RawMemory_sized E n h = .throw h ∨
    ∃ buf h', RawMemory.RawMemory_sized E n h = .ret ⟨buf, n⟩ h' := by
  unfold RawMemory.RawMemory_sized RawMemory.Allocate
  by_cases hn : n ≠ 0
  · rw [if_pos hn]
    by_cases ha : E.operator_new_ok (RawMemory.request E n) = true
    · rw [if_pos ha]; exact Or.inr ⟨_, _, rfl⟩
    · rw [if_neg ha]; exact Or.inl rfl
  · rw [if_neg hn]; exact Or.inr ⟨_, _, rfl⟩

theorem Reserve_ok (E : Env α) (v : Vector) (n : Nat) (h : Heap α)
    (hv : v.size_ ≤ v.data_.capacity_) :
    (Vector.Reserve E v n h).ok_with
      (fun _ s => s.2.size_ = v.size_ ∧ s.2.size_ ≤ s.2.data_.capacity_ ∧
        n ≤ s.2.data_.capacity_)
      (fun s => s.2 = v) := by
  unfold Vector.Reserve
  by_cases hn : n ≤ v.data_.Capacity
  · rw [if_pos hn]
    exact ⟨rfl, hv, hn⟩
  · rw [if_neg hn]
    simp only [RawMemory.Capacity] at hn
    rcases RawMemory_sized_cases E n h with hr | ⟨buf, h1, hr⟩
    · rw [hr]
      exact rfl
    · rw [hr]
      simp only []
      have hloop := relocate_n_ok E (E.is_nothrow_move_constructible || !E.is_copy_constructible)
        v.data_.GetAddress v.size_ (⟨buf, n⟩ : RawMemory).GetAddress h1
      revert hloop
      cases (if (E.is_nothrow_move_constructible || !E.is_copy_constructible) = true then
            uninitialized_move_n E v.data_.GetAddress v.size_
              (⟨buf, n⟩ : RawMemory).GetAddress h1
          else uninitialized_copy_n E v.data_.GetAddress v.size_
            (⟨buf, n⟩ : RawMemory).GetAddress h1) with
      | fault => intro _; trivial
      | assert_fail => intro hh; exact hh
      | throw h2 =>
        intro _
        simp only []
        cases (⟨buf, n⟩ : RawMemory).destructor h2 with
        | none => trivial
        | some h3 => exact rfl
      | ret _ h2 =>
        intro _
        simp only []
        cases destroy_n v.data_.GetAddress v.size_ h2 with
        | none => trivial
        | some h3 =>
          simp only [RawMemory.Swap]
          cases (⟨v.data_.buffer_, v.data_.capacity_⟩ : RawMemory).destructor h3 with
          | none => trivial
          | some h4 =>
            refine ⟨rfl, ?_, ?_⟩ <;> simp only <;> omega

theorem Resize_ok (E : Env α) (v : Vector) (n : Nat) (h : Heap α)
    (hv : v.size_ ≤ v.data_.capacity_) :
    (Vector.Resize E v n h).ok_with (fun _ s => s.2.size_ ≤ s.2.data_.capacity_)
      (fun s => s.2.size_ ≤ s.2.data_.capacity_) := by
  unfold Vector.Resize
  by_cases hn : v.size_ > n
  · rw [if_pos hn]
    simp only [RawMemory.operator_plus, show n ≤ v.data_.capacity_ by omega, if_true]
    cases destroy_n (⟨v.data_.buffer_, n⟩ : Ptr) (v.size_ - n) h with
    | none => trivial
    | some h1 => show n ≤ v.data_.capacity_; omega
  · rw [if_neg hn]
    have hres := Reserve_ok E v n h hv
    revert hres
    cases Vector.Reserve E v n h with
    | fault => intro _; trivial
    | assert_fail => intro hh; exact hh
    | throw s => intro hh; simp only [Outcome.ok_with] at hh ⊢; rw [hh]; exact hv
    | ret _ s =>
      obtain ⟨h1, v1⟩ := s
      intro hh
      obtain ⟨e1, e2, e3⟩ := hh
      simp only at e1 e2 e3
      simp only [RawMemory.operator_plus, e2, if_true]
      have hloop := uninitialized_value_construct_loop_ok E
        (⟨v1.data_.buffer_, v1.size_⟩ : Ptr) (n - v1.size_) 0 h1
      revert hloop
      unfold uninitialized_value_construct_n
      cases uninitialized_value_construct_loop E (⟨v1.data_.buffer_, v1.size_⟩ : Ptr)
          (n - v1.size_) 0 h1 with
      | fault => intro _; trivial
      | assert_fail => intro hh; exact hh
      | throw h2 => intro _; exact e2
      | ret _ h2 => intro _; exact e3

theorem Emplace_relocate_move_ok (E : Env α) (v : Vector) (nd : RawMemory) (dist : Nat)
    (h : Heap α) (h1 : dist ≤ v.data_.capacity_) (h2 : dist ≤ nd.capacity_) :
    (Vector.Emplace_relocate_move E v nd dist h).ok_with (fun _ _ => True)
      (fun _ => False) := by
  unfold Vector.Emplace_relocate_move
  simp only [RawMemory.operator_plus, h1, h2, if_true]
  have hl1 := uninitialized_move_loop_ok E nd.GetAddress dist v.data_.GetAddress 0 h
  revert hl1
  unfold uninitialized_move_n
  cases uninitialized_move_loop E nd.GetAddress dist v.data_.GetAddress 0 h with
  | fault => intro _; trivial
  | assert_fail => intro hh; exact hh
  | throw k1 =>
    intro _
    simp only []
    cases destroy_at (⟨nd.buffer_, dist⟩ : Ptr) k1 with
    | none => trivial
    | some k2 =>
      simp only []
      have hl2 := uninitialized_move_loop_ok E ((⟨nd.buffer_, dist⟩ : Ptr).add 1)
        (v.size_ - dist) ⟨v.data_.buffer_, dist⟩ 0 k2
      revert hl2
      cases uninitialized_move_loop E ((⟨nd.buffer_, dist⟩ : Ptr).add 1)
          (v.size_ - dist) ⟨v.data_.buffer_, dist⟩ 0 k2 with
      | fault => intro _; trivial
      | assert_fail => intro hh; exact hh
      | throw k3 =>
        intro _
        simp only []
        cases destroy_n nd.GetAddress dist k3 <;> trivial
      | ret _ k3 => intro _; trivial
  | ret _ k1 =>
    intro _
    simp only []
    have hl2 := uninitialized_move_loop_ok E ((⟨nd.buffer_, dist⟩ : Ptr).add 1)
      (v.size_ - dist) ⟨v.data_.buffer_, dist⟩ 0 k1
    revert hl2
    cases uninitialized_move_loop E ((⟨nd.buffer_, dist⟩ : Ptr).add 1)
        (v.size_ - dist) ⟨v.data_.buffer_, dist⟩ 0 k1 with
    | fault => intro _; trivial
    | assert_fail => intro hh; exact hh
    | throw k3 =>
      intro _
      simp only []
      cases destroy_n nd.GetAddress dist k3 <;> trivial
    | ret _ k3 => intro _; trivial

theorem Emplace_relocate_copy_ok (E : Env α) (v : Vector) (nd : RawMemory) (dist : Nat)
    (h : Heap α) (h1 : dist ≤ v.data_.capacity_) (h2 : dist ≤ nd.capacity_) :
    (Vector.Emplace_relocate_copy E v nd dist h).ok_with (fun _ _ => True)
      (fun _ => False) := by
  unfold Vector.Emplace_relocate_copy
  simp only [RawMemory.operator_plus, h1, h2, if_true]
  have hl1 := uninitialized_copy_loop_ok E nd.GetAddress dist v.data_.GetAddress 0 h
  revert hl1
  unfold uninitialized_copy_n
  cases uninitialized_copy_loop E nd.GetAddress dist v.data_.GetAddress 0 h with
  | fault => intro _; trivial
  | assert_fail => intro hh; exact hh
  | throw k1 =>
    intro _
    simp only []
    cases destroy_at ((⟨nd.buffer_, dist⟩ : Ptr).add 1) k1 with
    | none => trivial
    | some k2 =>
      simp only []
      have hl2 := uninitialized_copy_loop_ok E ((⟨nd.buffer_, dist⟩ : Ptr).add 1)
        (v.size_ - dist) ⟨v.data_.buffer_, dist⟩ 0 k2
      revert hl2
      cases uninitialized_copy_loop E ((⟨nd.buffer_, dist⟩ : Ptr).add 1)
          (v.size_ - dist) ⟨v.data_.buffer_, dist⟩ 0 k2 with
      | fault => intro _; trivial
      | assert_fail => intro hh; exact hh
      | throw k3 =>
        intro _
        simp only []
        cases destroy_n nd.GetAddress (dist + 1) k3 <;> trivial
      | ret _ k3 => intro _; trivial
  | ret _ k1 =>
    intro _
    simp only []
    have hl2 := uninitialized_copy_loop_ok E ((⟨nd.buffer_, dist⟩ : Ptr).add 1)
      (v.size_ - dist) ⟨v.data_.buffer_, dist⟩ 0 k1
    revert hl2
    cases uninitialized_copy_loop E ((⟨nd.buffer_, dist⟩ : Ptr).add 1)
        (v.size_ - dist) ⟨v.data_.buffer_, dist⟩ 0 k1 with
    | fault => intro _; trivial
    | assert_fail => intro hh; exact hh
    | throw k3 =>
      intro _
      simp only []
      cases destroy_n nd.GetAddress (dist + 1) k3 <;> trivial
    | ret _ k3 => intro _; trivial

theorem Emplace_grow_ok (E : Env α) (v : Vector) (dist : Nat) (args : Option α) (h : Heap α)
    (hd : dist ≤ v.size_) (hfull : v.size_ = v.data_.capacity_) :
    (Vector.Emplace_grow E v dist args h).ok_with
      (fun _ s => s.2.capacity_ = (if v.size_ = 0 then 1 else v.size_ * 2))
      (fun s => s.2 = v.data_) := by
  unfold Vector.Emplace_grow
  have hd2 : dist ≤ (if v.size_ = 0 then 1 else v.size_ * 2) := by
    split_ifs <;> omega
  rcases RawMemory_sized_cases E (if v.size_ = 0 then 1 else v.size_ * 2) h with
    hr | ⟨buf, k1, hr⟩
  · rw [hr]; exact rfl
  · rw [hr]
    simp only [RawMemory.operator_plus, hd2, if_true]
    cases args with
    | none =>
      simp only []
      cases (⟨buf, if v.size_ = 0 then 1 else v.size_ * 2⟩ : RawMemory).destructor k1 with
      | none => trivial
      | some k2 => exact rfl
    | some x =>
      simp only []
      cases k1.construct (⟨buf, dist⟩ : Ptr) x with
      | none => trivial
      | some k2 =>
        simp only []
        have hrel : (if (E.is_nothrow_move_constructible || !E.is_copy_constructible) = true
            then Vector.Emplace_relocate_move E v
              ⟨buf, if v.size_ = 0 then 1 else v.size_ * 2⟩ dist k2
            else Vector.Emplace_relocate_copy E v
              ⟨buf, if v.size_ = 0 then 1 else v.size_ * 2⟩ dist k2).ok_with
            (fun _ _ => True) (fun _ => False) := by
          split
          · exact Emplace_relocate_move_ok E v _ dist k2 (by omega) hd2
          · exact Emplace_relocate_copy_ok E v _ dist k2 (by omega) hd2
        revert hrel
        cases (if (E.is_nothrow_move_constructible || !E.is_copy_constructible) = true
            then Vector.Emplace_relocate_move E v
              ⟨buf, if v.size_ = 0 then 1 else v.size_ * 2⟩ dist k2
            else Vector.Emplace_relocate_copy E v
              ⟨buf, if v.size_ = 0 then 1 else v.size_ * 2⟩ dist k2) with
        | fault => intro _; trivial
        | assert_fail => intro hh; exact hh
        | throw k3 => intro hh; exact absurd hh (by simp [Outcome.ok_with])
        | ret _ k3 =>
          intro _
          simp only []
          cases destroy_n v.data_.GetAddress v.size_ k3 with
          | none => trivial
          | some k4 =>
            simp only [RawMemory.Swap]
            cases (⟨v.data_.buffer_, v.data_.capacity_⟩ : RawMemory).destructor k4 with
            | none => trivial
            | some k5 => exact rfl

theorem Emplace_inplace_ok (E : Env α) (v : Vector) (pos : Ptr) (dist : Nat)
    (args : Option α) (h : Heap α) (hd : dist ≤ v.size_) (hlt : v.size_ < v.data_.capacity_) :
    (Vector.Emplace_inplace E v pos dist args h).ok_with (fun _ s => s.2 = v.data_)
      (fun s => s.2 = v.data_) := by
  unfold Vector.Emplace_inplace
  simp only [Vector.end_, RawMemory.operator_plus, RawMemory.operator_index,
    show v.size_ ≤ v.data_.capacity_ by omega, show dist ≤ v.data_.capacity_ by omega,
    show dist < v.data_.capacity_ by omega, if_true]
  by_cases hpe : pos ≠ (⟨v.data_.buffer_, v.size_⟩ : Ptr)
  · rw [if_pos hpe]
    cases args with
    | none => exact rfl
    | some x =>
      simp only []
      cases hsub : (⟨v.data_.buffer_, v.size_⟩ : Ptr).sub 1 with
      | none => trivial
      | some last =>
        simp only []
        have hrel := relocate_n_ok E (!E.is_copy_constructible || E.is_move_constructible)
          last 1 ⟨v.data_.buffer_, v.size_⟩ h
        revert hrel
        cases (if (!E.is_copy_constructible || E.is_move_constructible) = true then
              uninitialized_move_n E last 1 ⟨v.data_.buffer_, v.size_⟩ h
            else uninitialized_copy_n E last 1 ⟨v.data_.buffer_, v.size_⟩ h) with
        | fault => intro _; trivial
        | assert_fail => intro hh; exact hh
        | throw k1 => intro _; exact rfl
        | ret _ k1 =>
          intro _
          simp only []
          cases move_backward E (⟨v.data_.buffer_, dist⟩ : Ptr) last
              ⟨v.data_.buffer_, v.size_⟩ k1 with
          | none => trivial
          | some k2 =>
            simp only []
            cases assign_value (⟨v.data_.buffer_, dist⟩ : Ptr) x k2 with
            | none => trivial
            | some k3 => exact rfl
  · rw [if_neg hpe]
    cases args with
    | none => exact rfl
    | some x =>
      simp only []
      cases h.construct (⟨v.data_.buffer_, dist⟩ : Ptr) x with
      | none => trivial
      | some k1 => exact rfl

theorem Emplace_ok (E : Env α) (v : Vector) (pos : Ptr) (args : Option α) (h : Heap α)
    (hv : v.size_ ≤ v.data_.capacity_) (hp : pos.off ≤ v.size_) :
    (Vector.Emplace E v pos args h).ok_with
      (fun r s => s.2.size_ = v.size_ + 1 ∧ s.2.size_ ≤ s.2.data_.capacity_ ∧
        r = ⟨s.2.data_.buffer_, pos.off⟩)
      (fun s => s.2 = v) := by
  unfold Vector.Emplace
  by_cases hb : pos.base ≠ v.begin.base
  · rw [if_pos hb]; trivial
  · rw [if_neg hb]
    simp only [Vector.begin, RawMemory.GetAddress, Nat.sub_zero, Vector.Capacity,
      RawMemory.Capacity]
    by_cases hfull : v.size_ = v.data_.capacity_
    · rw [if_pos hfull]
      have hg := Emplace_grow_ok E v pos.off args h hp hfull
      revert hg
      cases Vector.Emplace_grow E v pos.off args h with
      | fault => intro _; trivial
      | assert_fail => intro hh; exact hh
      | throw s =>
        obtain ⟨k1, d1⟩ := s
        intro hh
        simp only [Outcome.ok_with] at hh ⊢
        rw [hh]
      | ret _ s =>
        obtain ⟨k1, d1⟩ := s
        intro hh
        simp only [Outcome.ok_with] at hh
        have hd : pos.off ≤ d1.capacity_ := by
          rw [hh]; split_ifs <;> omega
        simp only [RawMemory.operator_plus, hd, if_true]
        refine ⟨rfl, ?_, rfl⟩
        show v.size_ + 1 ≤ d1.capacity_
        rw [hh]; split_ifs <;> omega
    · rw [if_neg hfull]
      have hg := Emplace_inplace_ok E v pos pos.off args h hp (by omega)
      revert hg
      cases Vector.Emplace_inplace E v pos pos.off args h with
      | fault => intro _; trivial
      | assert_fail => intro hh; exact hh
      | throw s =>
        obtain ⟨k1, d1⟩ := s
        intro hh
        simp only [Outcome.ok_with] at hh ⊢
        rw [hh]
      | ret _ s =>
        obtain ⟨k1, d1⟩ := s
        intro hh
        simp only [Outcome.ok_with] at hh
        subst hh
        simp only [RawMemory.operator_plus, show pos.off ≤ v.data_.capacity_ by omega, if_true]
        refine ⟨rfl, ?_, rfl⟩
        show v.size_ + 1 ≤ v.data_.capacity_
        omega

theorem EmplaceBack_ok (E : Env α) (v : Vector) (args : Option α) (h : Heap α)
    (hv : v.size_ ≤ v.data_.capacity_) :
    (Vector.EmplaceBack E v args h).ok_with
      (fun r s => s.2.size_ = v.size_ + 1 ∧ s.2.size_ ≤ s.2.data_.capacity_ ∧
        r = ⟨s.2.data_.buffer_, v.size_⟩)
      (fun s => s.2 = v) := by
  unfold Vector.EmplaceBack
  simp only [Vector.end_, RawMemory.operator_plus, hv, if_true]
  exact Emplace_ok E v ⟨v.data_.buffer_, v.size_⟩ args h hv (le_refl _)

theorem PushBack_ok (E : Env α) (v : Vector) (x : α) (h : Heap α)
    (hv : v.size_ ≤ v.data_.capacity_) :
    (Vector.PushBack E v x h).ok_with
      (fun _ s => s.2.size_ = v.size_ + 1 ∧ s.2.size_ ≤ s.2.data_.capacity_)
      (fun s => s.2 = v) := by
  unfold Vector.PushBack Vector.Insert
  simp only [Vector.end_, RawMemory.operator_plus, hv, if_true]
  have hh := Emplace_ok E v ⟨v.data_.buffer_, v.size_⟩
    (if E.copy_throws x = true then none else some x) h hv (le_refl _)
  revert hh
  cases Vector.Emplace E v ⟨v.data_.buffer_, v.size_⟩
      (if E.copy_throws x = true then none else some x) h with
  | fault => intro _; trivial
  | assert_fail => intro hh; exact hh
  | throw s => intro hh; exact hh
  | ret _ s => intro hh; exact ⟨hh.1, hh.2.1⟩

theorem PushBack_move_ok (E : Env α) (v : Vector) (x : α) (h : Heap α)
    (hv : v.size_ ≤ v.data_.capacity_) :
    (Vector.PushBack_move E v x h).ok_with
      (fun _ s => s.2.size_ = v.size_ + 1 ∧ s.2.size_ ≤ s.2.data_.capacity_)
      (fun s => s.2 = v) := by
  unfold Vector.PushBack_move Vector.Insert_move
  simp only [Vector.end_, RawMemory.operator_plus, hv, if_true]
  have hh := Emplace_ok E v ⟨v.data_.buffer_, v.size_⟩
    (if E.move_throws x = true then none else some x) h hv (le_refl _)
  revert hh
  cases Vector.Emplace E v ⟨v.data_.buffer_, v.size_⟩
      (if E.move_throws x = true then none else some x) h with
  | fault => intro _; trivial
  | assert_fail => intro hh; exact hh
  | throw s => intro hh; exact hh
  | ret _ s => intro hh; exact ⟨hh.1, hh.2.1⟩

theorem Erase_ok (E : Env α) (v : Vector) (pos : Ptr) (h : Heap α)
    (hv : v.size_ ≤ v.data_.capacity_) (hp : pos.off ≤ v.size_) :
    (Vector.Erase E v pos h).ok_with
      (fun r s => s.2 = ⟨v.data_, v.size_ - 1⟩ ∧ r = ⟨v.data_.buffer_, pos.off⟩)
      (fun _ => False) := by
  unfold Vector.Erase
  simp only [Vector.end_, RawMemory.operator_plus, hv, if_true, Vector.begin,
    RawMemory.GetAddress, Nat.sub_zero, show pos.off ≤ v.data_.capacity_ by omega]
  by_cases hb : pos.base ≠ v.data_.buffer_
  · rw [if_pos hb]; trivial
  · rw [if_neg hb]
    cases (if pos ≠ (⟨v.data_.buffer_, v.size_⟩ : Ptr) then
        std_move E ((⟨v.data_.buffer_, pos.off⟩ : Ptr).add 1) ⟨v.data_.buffer_, v.size_⟩
          ⟨v.data_.buffer_, pos.off⟩ h else some h) with
    | none => trivial
    | some k1 =>
      simp only []
      cases (⟨v.data_.buffer_, v.size_⟩ : Ptr).sub 1 with
      | none => trivial
      | some last =>
        simp only []
        cases destroy_n last 1 k1 with
        | none => trivial
        | some k2 => exact ⟨rfl, rfl⟩

theorem PopBack_ok (E : Env α) (v : Vector) (h : Heap α)
    (hv : v.size_ ≤ v.data_.capacity_) :
    (Vector.PopBack E v h).ok_with (fun _ s => s.2 = ⟨v.data_, v.size_ - 1⟩)
      (fun _ => False) := by
  unfold Vector.PopBack
  simp only [Vector.end_, RawMemory.operator_plus, hv, if_true]
  have hh := Erase_ok E v ⟨v.data_.buffer_, v.size_⟩ h hv (le_refl _)
  revert hh
  cases Vector.Erase E v ⟨v.data_.buffer_, v.size_⟩ h with
  | fault => intro _; trivial
  | assert_fail => intro hh; exact hh
  | throw s => intro hh; exact hh
  | ret _ s => intro hh; exact hh.1

theorem Vector_sized_ok (E : Env α) (n : Nat) (h : Heap α) :
    (Vector.Vector_sized E n h).ok_with (fun v _ => v.size_ = n ∧ v.data_.capacity_ = n)
      (fun _ => True) := by
  unfold Vector.Vector_sized
  rcases RawMemory_sized_cases E n h with hr | ⟨buf, k1, hr⟩
  · rw [hr]; trivial
  · rw [hr]
    simp only []
    have hl := uninitialized_value_construct_loop_ok E (⟨buf, n⟩ : RawMemory).GetAddress n 0 k1
    revert hl
    unfold uninitialized_value_construct_n
    cases uninitialized_value_construct_loop E (⟨buf, n⟩ : RawMemory).GetAddress n 0 k1 with
    | fault => intro _; trivial
    | assert_fail => intro hh; exact hh
    | throw k2 =>
      intro _
      simp only []
      cases (⟨buf, n⟩ : RawMemory).destructor k2 <;> trivial
    | ret _ k2 => intro _; exact ⟨rfl, rfl⟩

theorem Vector_copy_ok (E : Env α) (other : Vector) (h : Heap α) :
    (Vector.Vector_copy E other h).ok_with
      (fun v _ => v.size_ = other.size_ ∧ v.data_.capacity_ = other.size_)
      (fun _ => True) := by
  unfold Vector.Vector_copy
  rcases RawMemory_sized_cases E other.size_ h with hr | ⟨buf, k1, hr⟩
  · rw [hr]; trivial
  · rw [hr]
    simp only []
    have hl := uninitialized_copy_loop_ok E (⟨buf, other.size_⟩ : RawMemory).GetAddress
      other.size_ other.data_.GetAddress 0 k1
    revert hl
    unfold uninitialized_copy_n
    cases uninitialized_copy_loop E (⟨buf, other.size_⟩ : RawMemory).GetAddress
        other.size_ other.data_.GetAddress 0 k1 with
    | fault => intro _; trivial
    | assert_fail => intro hh; exact hh
    | throw k2 =>
      intro _
      simp only []
      cases (⟨buf, other.size_⟩ : RawMemory).destructor k2 <;> trivial
    | ret _ k2 => intro _; exact ⟨rfl, rfl⟩

theorem assign_loop_ok (data_ rhs_data_ : RawMemory) :
    ∀ (k i : Nat) (h : Heap α), i + k ≤ data_.capacity_ → i + k ≤ rhs_data_.capacity_ →
    (assign_loop data_ rhs_data_ k i h).ok_with (fun _ _ => True) (fun _ => False) := by
  intro k
  induction k with
  | zero => intro i h _ _; simp [assign_loop, Outcome.ok_with]
  | succ k ih =>
    intro i h h1 h2
    unfold assign_loop
    simp only [RawMemory.operator_index, show i < data_.capacity_ by omega,
      show i < rhs_data_.capacity_ by omega, if_true]
    cases copy_assign (⟨rhs_data_.buffer_, i⟩ : Ptr) ⟨data_.buffer_, i⟩ h with
    | none => trivial
    | some k1 => exact ih (i + 1) k1 (by omega) (by omega)

theorem operator_assign_copy_ok (E : Env α) (v rhs : Vector) (h : Heap α)
    (hv : v.size_ ≤ v.data_.capacity_) (hr : rhs.size_ ≤ rhs.data_.capacity_) :
    (Vector.operator_assign_copy E v rhs h).ok_with
      (fun _ s => s.2.size_ = rhs.size_ ∧ s.2.size_ ≤ s.2.data_.capacity_)
      (fun s => s.2 = v) := by
  unfold Vector.operator_assign_copy
  by_cases hbr : rhs.size_ > v.data_.Capacity
  · rw [if_pos hbr]
    have hc := Vector_copy_ok E rhs h
    revert hc
    cases Vector.Vector_copy E rhs h with
    | fault => intro _; trivial
    | assert_fail => intro hh; exact hh
    | throw k1 => intro _; exact rfl
    | ret cp k1 =>
      intro hh
      obtain ⟨e1, e2⟩ := hh
      simp only [Vector.Swap, RawMemory.Swap]
      cases (⟨⟨v.data_.buffer_, v.data_.capacity_⟩, v.size_⟩ : Vector).destructor k1 with
      | none => trivial
      | some k2 => exact ⟨e1, by show cp.size_ ≤ cp.data_.capacity_; omega⟩
  · rw [if_neg hbr]
    simp only [RawMemory.Capacity] at hbr
    have hes1 : (if v.size_ > rhs.size_ then rhs.size_ else v.size_) ≤ v.data_.capacity_ := by
      split_ifs <;> omega
    have hes2 : (if v.size_ > rhs.size_ then rhs.size_ else v.size_)
        ≤ rhs.data_.capacity_ := by
      split_ifs <;> omega
    simp only []
    have hl := assign_loop_ok v.data_ rhs.data_
      (if v.size_ > rhs.size_ then rhs.size_ else v.size_) 0 h (by omega) (by omega)
    revert hl
    cases assign_loop v.data_ rhs.data_ (if v.size_ > rhs.size_ then rhs.size_ else v.size_)
        0 h with
    | fault => intro _; trivial
    | assert_fail => intro hh; exact hh
    | throw k1 => intro hh; exact absurd hh (by simp [Outcome.ok_with])
    | ret _ k1 =>
      intro _
      simp only [RawMemory.operator_plus, hes1, hes2, if_true]
      by_cases hgt : v.size_ > rhs.size_
      · simp only [hgt, if_true]
        cases destroy_n (⟨v.data_.buffer_, rhs.size_⟩ : Ptr) (v.size_ - rhs.size_) k1 with
        | none => trivial
        | some k2 => exact ⟨rfl, by show rhs.size_ ≤ v.data_.capacity_; omega⟩
      · simp only [hgt, if_false]
        have hl2 := uninitialized_copy_loop_ok E (⟨v.data_.buffer_, v.size_⟩ : Ptr)
          (rhs.size_ - v.size_) ⟨rhs.data_.buffer_, v.size_⟩ 0 k1
        revert hl2
        unfold uninitialized_copy_n
        cases uninitialized_copy_loop E (⟨v.data_.buffer_, v.size_⟩ : Ptr)
            (rhs.size_ - v.size_) ⟨rhs.data_.buffer_, v.size_⟩ 0 k1 with
        | fault => intro _; trivial
        | assert_fail => intro hh; exact hh
        | throw k2 => intro _; exact rfl
        | ret _ k2 =>
          intro _
          exact ⟨rfl, by show rhs.size_ ≤ v.data_.capacity_; omega⟩

/-- Claim C14: `Size() ≤ Capacity()` holds for every vector a constructor returns (default,
sized, copy, move, the moved-from source included), and every public operation called on
vectors that satisfy it, with a position index `≤ Size()`, leaves vectors that satisfy it:
copy and move assignment, `Swap`, `Reserve`, `Resize`, `PushBack`, `EmplaceBack`,
`Emplace`, `Insert`, `Erase` and `PopBack`, after a return as well as after an
exception. -/
theorem size_le_capacity_invariant (E : Env α) (h : Heap α) (v w : Vector) (n : Nat)
    (pos : Ptr) (args : Option α) (x : α) (hv : v.size_le_capacity)
    (hw : w.size_le_capacity) (hp : pos.off ≤ v.Size) :
    Vector.Vector_default.size_le_capacity ∧
    (∀ u h', Vector.Vector_sized E n h = .ret u h' → u.size_le_capacity) ∧
    (∀ u h', Vector.Vector_copy E v h = .ret u h' → u.size_le_capacity) ∧
    (Vector.Vector_move v).1.size_le_capacity ∧ (Vector.Vector_move v).2.size_le_capacity ∧
    (Vector.operator_assign_copy E v w h).keeps_invariant ∧
    (Vector.operator_assign_move v w).1.size_le_capacity ∧
    (Vector.operator_assign_move v w).2.size_le_capacity ∧
    (Vector.Swap v w).1.size_le_capacity ∧ (Vector.Swap v w).2.size_le_capacity ∧
    (Vector.Reserve E v n h).keeps_invariant ∧ (Vector.Resize E v n h).keeps_invariant ∧
    (Vector.PushBack E v x h).keeps_invariant ∧
    (Vector.PushBack_move E v x h).keeps_invariant ∧
    (Vector.EmplaceBack E v args h).keeps_invariant ∧
    (Vector.Emplace E v pos args h).keeps_invariant ∧
    (Vector.Insert E v pos x h).keeps_invariant ∧
    (Vector.Insert_move E v pos x h).keeps_invariant ∧
    (Vector.Erase E v pos h).keeps_invariant ∧ (Vector.PopBack E v h).keeps_invariant := by
  have hv' : v.size_ ≤ v.data_.capacity_ := hv
  have hw' : w.size_ ≤ w.data_.capacity_ := hw
  have hT : ∀ s : Heap α × Vector, s.2 = v → s.2.size_ ≤ s.2.data_.capacity_ :=
    fun s hs => by rw [hs]; exact hv'
  refine ⟨le_refl _, ?_, ?_, hv, le_refl _, ?_, hw, hv, hw, hv, ?_, ?_, ?_, ?_, ?_, ?_, ?_, ?_,
    ?_, ?_⟩
  · intro u h' hu
    have := Vector_sized_ok E n h
    rw [hu] at this
    exact le_of_eq (this.1.trans this.2.symm)
  · intro u h' hu
    have := Vector_copy_ok E v h
    rw [hu] at this
    exact le_of_eq (this.1.trans this.2.symm)
  · exact Outcome.ok_with_keeps (operator_assign_copy_ok E v w h hv' hw')
      (fun _ _ hh => hh.2) hT
  · exact Outcome.ok_with_keeps (Reserve_ok E v n h hv') (fun _ _ hh => hh.2.1) hT
  · exact Outcome.ok_with_keeps (Resize_ok E v n h hv') (fun _ _ hh => hh) (fun _ hh => hh)
  · exact Outcome.ok_with_keeps (PushBack_ok E v x h hv') (fun _ _ hh => hh.2) hT
  · exact Outcome.ok_with_keeps (PushBack_move_ok E v x h hv') (fun _ _ hh => hh.2) hT
  · exact Outcome.ok_with_keeps (EmplaceBack_ok E v args h hv') (fun _ _ hh => hh.2.1) hT
  · exact Outcome.ok_with_keeps (Emplace_ok E v pos args h hv' hp) (fun _ _ hh => hh.2.1) hT
  · exact Outcome.ok_with_keeps (Emplace_ok E v pos _ h hv' hp) (fun _ _ hh => hh.2.1) hT
  · exact Outcome.ok_with_keeps (Emplace_ok E v pos _ h hv' hp) (fun _ _ hh => hh.2.1) hT
  · exact Outcome.ok_with_keeps (Erase_ok E v pos h hv' hp)
      (fun _ s hh => by rw [hh.1]; show v.size_ - 1 ≤ v.data_.capacity_; omega)
      (fun _ hh => absurd hh id)
  · exact Outcome.ok_with_keeps (PopBack_ok E v h hv')
      (fun _ s hh => by rw [hh]; show v.size_ - 1 ≤ v.data_.capacity_; omega)
      (fun _ hh => absurd hh id)

/-- An instance of C14: `v` of size 2 at capacity 2, `w` of size 1 at capacity 4, the
position with index 1. -/
theorem size_le_capacity_invariant_witness :
    (⟨⟨some 0, 2⟩, 2⟩ : Vector).size_le_capacity ∧
    (⟨⟨some 1, 4⟩, 1⟩ : Vector).size_le_capacity ∧
    (Vector.PushBack intEnv ⟨⟨some 0, 2⟩, 2⟩ 3
      [some [some 1, some 2], some [some 7, none, none, none]]).keeps_invariant ∧
    (Vector.Erase intEnv ⟨⟨some 0, 2⟩, 2⟩ ⟨some 0, 1⟩
      [some [some 1, some 2], some [some 7, none, none, none]]).keeps_invariant :=
  ⟨Nat.le_refl 2, (by decide : (1 : Nat) ≤ 4),
    (size_le_capacity_invariant intEnv
      [some [some 1, some 2], some [some 7, none, none, none]] ⟨⟨some 0, 2⟩, 2⟩
      ⟨⟨some 1, 4⟩, 1⟩ 5 ⟨some 0, 1⟩ (some 9) 3 (Nat.le_refl 2) (by decide : (1 : Nat) ≤ 4)
      (by decide : (1 : Nat) ≤ 2)).2.2.2.2.2.2.2.2.2.2.2.2.1,
    (size_le_capacity_invariant intEnv
      [some [some 1, some 2], some [some 7, none, none, none]] ⟨⟨some 0, 2⟩, 2⟩
      ⟨⟨some 1, 4⟩, 1⟩ 5 ⟨some 0, 1⟩ (some 9) 3 (Nat.le_refl 2) (by decide : (1 : Nat) ≤ 4)
      (by decide : (1 : Nat) ≤ 2)).2.2.2.2.2.2.2.2.2.2.2.2.2.2.2.2.2.2.1⟩

/-- Claim C19: on vectors with `Size() ≤ Capacity()`, no `assert` of `RawMemory` fails in
`end()`, in `Emplace`, `Insert`, `EmplaceBack` and `PushBack`, in `Erase` with a position
index `≤ Size()` and `PopBack`, in `Reserve`, `Resize` and the copy assignment with any
argument, whatever the constructors of the element type and the allocator do; and for
`i < Size()` both assertions of `operator[](i)` hold and it returns the slot `begin() + i`,
which holds the `i`-th element of the vector. -/
theorem asserts_hold (E : Env α) (h : Heap α) (v w : Vector) (n : Nat) (pos : Ptr)
    (args : Option α) (x : α) (hv : v.Size ≤ v.Capacity) (hw : w.Size ≤ w.Capacity)
    (hp : pos.off ≤ v.Size) :
    v.end_ = some (v.begin.add v.Size) ∧
    (∀ i, i < v.Size → v.operator_index i = some (v.begin.add i) ∧
      v.data_.operator_index i = some (v.begin.add i) ∧
      ∀ es, Holds h v es → ∃ e, es[i]? = some e ∧ h.read (v.begin.add i) = some e) ∧
    (Vector.Emplace E v pos args h).no_assert_fail ∧
    (Vector.Insert E v pos x h).no_assert_fail ∧
    (Vector.Insert_move E v pos x h).no_assert_fail ∧
    (Vector.EmplaceBack E v args h).no_assert_fail ∧
    (Vector.PushBack E v x h).no_assert_fail ∧
    (Vector.PushBack_move E v x h).no_assert_fail ∧
    (Vector.Erase E v pos h).no_assert_fail ∧ (Vector.PopBack E v h).no_assert_fail ∧
    (Vector.Reserve E v n h).no_assert_fail ∧ (Vector.Resize E v n h).no_assert_fail ∧
    (Vector.operator_assign_copy E v w h).no_assert_fail := by
  have hv' : v.size_ ≤ v.data_.capacity_ := hv
  have hw' : w.size_ ≤ w.data_.capacity_ := hw
  have hp' : pos.off ≤ v.size_ := hp
  refine ⟨?_, ?_, Outcome.ok_with_no_assert (Emplace_ok E v pos args h hv' hp'),
    Outcome.ok_with_no_assert (Emplace_ok E v pos _ h hv' hp'),
    Outcome.ok_with_no_assert (Emplace_ok E v pos _ h hv' hp'),
    Outcome.ok_with_no_assert (EmplaceBack_ok E v args h hv'),
    Outcome.ok_with_no_assert (PushBack_ok E v x h hv'),
    Outcome.ok_with_no_assert (PushBack_move_ok E v x h hv'),
    Outcome.ok_with_no_assert (Erase_ok E v pos h hv' hp'),
    Outcome.ok_with_no_assert (PopBack_ok E v h hv'),
    Outcome.ok_with_no_assert (Reserve_ok E v n h hv'),
    Outcome.ok_with_no_assert (Resize_ok E v n h hv'),
    Outcome.ok_with_no_assert (operator_assign_copy_ok E v w h hv' hw')⟩
  · rw [begin_add]
    simp [Vector.end_, RawMemory.operator_plus, Vector.Size, hv']
  · intro i hi
    have hi' : i < v.size_ := hi
    rw [begin_add]
    refine ⟨?_, ?_, ?_⟩
    · simp [Vector.operator_index, RawMemory.operator_index, hi',
        show i < v.data_.capacity_ by omega]
    · simp [RawMemory.operator_index, show i < v.data_.capacity_ by omega]
    · intro es hes
      have hl : i < es.length := by rw [← hes.1]; exact hi'
      exact ⟨es[i], List.getElem?_eq_getElem hl, by
        rw [Holds_read hes hl, List.getElem?_eq_getElem hl]⟩

/-- An instance of C19: `[1, 2]` at capacity 2 and the position with index 1. -/
theorem asserts_hold_witness :
    (⟨⟨some 0, 2⟩, 2⟩ : Vector).Size ≤ (⟨⟨some 0, 2⟩, 2⟩ : Vector).Capacity ∧
    (Vector.Insert throwingEnv ⟨⟨some 0, 2⟩, 2⟩ ⟨some 0, 1⟩ 9
      [some [some 1, some 2]]).no_assert_fail ∧
    (⟨⟨some 0, 2⟩, 2⟩ : Vector).operator_index 1
      = some ((⟨⟨some 0, 2⟩, 2⟩ : Vector).begin.add 1) :=
  ⟨by decide,
    (asserts_hold throwingEnv [some [some 1, some 2]] ⟨⟨some 0, 2⟩, 2⟩ ⟨⟨some 0, 2⟩, 2⟩ 5
      ⟨some 0, 1⟩ (some 9) 9 (by decide) (by decide) (by decide)).2.2.2.1,
    ((asserts_hold throwingEnv [some [some 1, some 2]] ⟨⟨some 0, 2⟩, 2⟩ ⟨⟨some 0, 2⟩, 2⟩ 5
      ⟨some 0, 1⟩ (some 9) 9 (by decide) (by decide) (by decide)).2.1 1 (by decide)).1⟩

end CppVector
